import Mathlib

/-!
# ChessHeatMap: the rules engine of `src/chess.cpp`

A shallow embedding of the `Board` class (piece classification, attack
detection, move generation, move application, game-end bookkeeping) and the
properties of it that the specification states.

Conventions of the embedding.

* `int` coordinates are `Int`.  The theorems speak about squares inside the
  grid and the squares the engine computes from them (offsets of at most 7 in
  each direction, and the `(-1, -1)` of `findKing`), where the 32-bit
  arithmetic of the source does not overflow.
* `std::array<std::array<Piece,8>,8>` is `Fin 8 → Fin 8 → Piece`.  An access
  `squares[i][j]` with `int` indices is `rd` / `wr`, which fail (`none`) when
  an index is outside `0 .. 7`: the C++ access has no bounds check and is
  undefined there.  All functions that touch the grid through `int` indices
  therefore live in `Option`.
* `std::vector<Move>& moves` is passed explicitly; `push_back` appends.
* A `for (step = 1; step < 8; step++)` loop is a recursion whose first
  argument counts the iterations that are left (7 at the start).
-/

namespace ChessHeatMap

/-! ## Piece enum and helpers -/

inductive Piece
  | EMPTY | W_PAWN | W_KNIGHT | W_BISHOP | W_ROOK | W_KING | W_QUEEN
  | B_PAWN | B_KNIGHT | B_BISHOP | B_ROOK | B_KING | B_QUEEN
  deriving DecidableEq, Repr

/-- The numeric value of the enumerator. -/
def Piece.code : Piece → Nat
  | .EMPTY => 0
  | .W_PAWN => 1
  | .W_KNIGHT => 2
  | .W_BISHOP => 3
  | .W_ROOK => 4
  | .W_KING => 5
  | .W_QUEEN => 6
  | .B_PAWN => 7
  | .B_KNIGHT => 8
  | .B_BISHOP => 9
  | .B_ROOK => 10
  | .B_KING => 11
  | .B_QUEEN => 12

inductive Color
  | WHITE | BLACK | NONE
  deriving DecidableEq, Repr

open Piece Color

def pieceColor (p : Piece) : Color :=
  if p.code ≥ W_PAWN.code ∧ p.code ≤ W_QUEEN.code then WHITE
  else if p.code ≥ B_PAWN.code ∧ p.code ≤ B_QUEEN.code then BLACK
  else NONE

def isWhite (p : Piece) : Bool := pieceColor p = WHITE

def isBlack (p : Piece) : Bool := pieceColor p = BLACK

structure Move where
  fromRow : Int
  fromCol : Int
  toRow : Int
  toCol : Int
  deriving DecidableEq, Repr

/-! ## Board state -/

abbrev Grid := Fin 8 → Fin 8 → Piece

structure Board where
  squares : Grid
  sideToMove : Color
  castleWK : Bool
  castleWQ : Bool
  castleBK : Bool
  castleBQ : Bool
  enPassantCol : Int
  gameOver : Bool
  resultText : String

def inBounds (r c : Int) : Bool :=
  decide (r ≥ 0) && decide (r < 8) && decide (c ≥ 0) && decide (c < 8)

/-- The read `squares[r][c]` with `int` indices; `none` outside the array. -/
def rd (g : Grid) (r c : Int) : Option Piece :=
  if h : (0 ≤ r ∧ r < 8) ∧ (0 ≤ c ∧ c < 8) then
    some (g ⟨r.toNat, by omega⟩ ⟨c.toNat, by omega⟩)
  else none

/-- The grid with the entry at `(i, j)` replaced. -/
def Grid.set (g : Grid) (i j : Fin 8) (p : Piece) : Grid :=
  fun i2 j2 => if i2 = i ∧ j2 = j then p else g i2 j2

/-- The write `squares[r][c] = p` with `int` indices; `none` outside the array. -/
def wr (g : Grid) (r c : Int) (p : Piece) : Option Grid :=
  if h : (0 ≤ r ∧ r < 8) ∧ (0 ≤ c ∧ c < 8) then
    some (g.set ⟨r.toNat, by omega⟩ ⟨c.toNat, by omega⟩ p)
  else none

/-- The values `0, 1, ..., 7` of a loop variable `for (int i = 0; i < 8; i++)`. -/
def idx8 : List (Fin 8) := [0, 1, 2, 3, 4, 5, 6, 7]

/-- The squares in the order of `for r ... for c ...`. -/
def allSquares : List (Fin 8 × Fin 8) :=
  idx8.flatMap fun r => idx8.map fun c => (r, c)

def startRow0 : Fin 8 → Piece
  | 0 => W_ROOK
  | 1 => W_KNIGHT
  | 2 => W_BISHOP
  | 3 => W_QUEEN
  | 4 => W_KING
  | 5 => W_BISHOP
  | 6 => W_KNIGHT
  | 7 => W_ROOK

def startRow7 : Fin 8 → Piece
  | 0 => B_ROOK
  | 1 => B_KNIGHT
  | 2 => B_BISHOP
  | 3 => B_QUEEN
  | 4 => B_KING
  | 5 => B_BISHOP
  | 6 => B_KNIGHT
  | 7 => B_ROOK

/-- The grid that `reset` writes: everything `EMPTY`, then the two back ranks
and the two pawn rows. -/
def startGrid : Grid := fun r c =>
  if r = 0 then startRow0 c
  else if r = 1 then W_PAWN
  else if r = 7 then startRow7 c
  else if r = 6 then B_PAWN
  else EMPTY

/-- The state of a freshly constructed board (`Board() { reset(); }`): the state
that `reset` leaves. -/
def reset : Board :=
  { squares := startGrid
    sideToMove := WHITE
    castleWK := true
    castleWQ := true
    castleBK := true
    castleBQ := true
    enPassantCol := -1
    gameOver := false
    resultText := "" }

/-- `Board::findKing`: the first square in row-major order holding the king
of `col`, `(-1, -1)` if there is none. -/
def findKing (b : Board) (col : Color) : Int × Int :=
  let king := if col = WHITE then W_KING else B_KING
  match allSquares.find? (fun s => decide (b.squares s.1 s.2 = king)) with
  | some s => ((s.1.val : Int), (s.2.val : Int))
  | none => (-1, -1)

/-! ## Attack detection -/

/-- The loop shape `for (x : xs) { if (f x) return true; }`, yielding `false`
when the loop runs to its end. -/
def firstHit {α : Type} (f : α → Option Bool) : List α → Option Bool
  | [] => some false
  | x :: xs =>
    match f x with
    | none => none
    | some true => some true
    | some false => firstHit f xs

/-- The test `inBounds(nr, nc) && squares[nr][nc] == q`. -/
def holdsAt (g : Grid) (nr nc : Int) (q : Piece) : Option Bool :=
  if inBounds nr nc then (rd g nr nc).bind fun p => some (decide (p = q))
  else some false

def knightOffsets : List (Int × Int) :=
  [(-2, -1), (-2, 1), (-1, -2), (-1, 2), (1, -2), (1, 2), (2, -1), (2, 1)]

/-- The pairs `(dr, dc)` of the double loop over `-1 .. 1` that skips `(0, 0)`. -/
def kingOffsets : List (Int × Int) :=
  [(-1, -1), (-1, 0), (-1, 1), (0, -1), (0, 1), (1, -1), (1, 0), (1, 1)]

def straightDirs : List (Int × Int) := [(-1, 0), (1, 0), (0, -1), (0, 1)]

def diagDirs : List (Int × Int) := [(-1, -1), (-1, 1), (1, -1), (1, 1)]

/-- One inner loop of the sliding scans of `isSquareAttackedBy`: walk from
`(r, c)` in direction `(dr, dc)`, stop at the border or at the first occupied
square, and report whether that square holds `q1` or `q2`. -/
def scanRay (g : Grid) (r c dr dc : Int) (q1 q2 : Piece) : Nat → Int → Option Bool
  | 0, _ => some false
  | n + 1, step =>
    let nr := r + dr * step
    let nc := c + dc * step
    if !inBounds nr nc then some false
    else (rd g nr nc).bind fun p =>
      if p ≠ EMPTY then some (decide (p = q1) || decide (p = q2))
      else scanRay g r c dr dc q1 q2 n (step + 1)

def isSquareAttackedBy (b : Board) (r c : Int) (attacker : Color) : Option Bool :=
  let enemyKnight := if attacker = WHITE then W_KNIGHT else B_KNIGHT
  let enemyPawn := if attacker = WHITE then W_PAWN else B_PAWN
  let pawnDir : Int := if attacker = WHITE then -1 else 1
  let enemyKing := if attacker = WHITE then W_KING else B_KING
  let enemyRook := if attacker = WHITE then W_ROOK else B_ROOK
  let enemyQueen := if attacker = WHITE then W_QUEEN else B_QUEEN
  let enemyBishop := if attacker = WHITE then W_BISHOP else B_BISHOP
  -- Knight attacks
  (firstHit (fun d => holdsAt b.squares (r + d.1) (c + d.2) enemyKnight) knightOffsets).bind
  fun hit1 => if hit1 then some true else
  -- Pawn attacks
  (firstHit (fun dc => holdsAt b.squares (r + pawnDir) (c + dc) enemyPawn) [-1, 1]).bind
  fun hit2 => if hit2 then some true else
  -- King attacks
  (firstHit (fun d => holdsAt b.squares (r + d.1) (c + d.2) enemyKing) kingOffsets).bind
  fun hit3 => if hit3 then some true else
  -- Rook/Queen along ranks and files
  (firstHit (fun d => scanRay b.squares r c d.1 d.2 enemyRook enemyQueen 7 1) straightDirs).bind
  fun hit4 => if hit4 then some true else
  -- Bishop/Queen along diagonals
  (firstHit (fun d => scanRay b.squares r c d.1 d.2 enemyBishop enemyQueen 7 1) diagDirs).bind
  fun hit5 => if hit5 then some true else
  some false

def isInCheck (b : Board) (col : Color) : Option Bool :=
  let k := findKing b col
  let enemy := if col = WHITE then BLACK else WHITE
  isSquareAttackedBy b k.1 k.2 enemy

/-! ## Pseudo-legal move generation -/

/-- The lambda `addIfValid` of `generatePieceMoves`. -/
def addIfValid (b : Board) (col : Color) (r c tr tc : Int) (moves : List Move) :
    Option (List Move) :=
  if !inBounds tr tc then some moves
  else (rd b.squares tr tc).bind fun target =>
    if target ≠ EMPTY ∧ pieceColor target = col then some moves
    else some (moves ++ [⟨r, c, tr, tc⟩])

/-- The lambda `addSliding` of `generatePieceMoves`. -/
def addSliding (b : Board) (col : Color) (r c dr dc : Int) :
    Nat → Int → List Move → Option (List Move)
  | 0, _, moves => some moves
  | n + 1, step, moves =>
    let nr := r + dr * step
    let nc := c + dc * step
    if !inBounds nr nc then some moves
    else (rd b.squares nr nc).bind fun target =>
      if target ≠ EMPTY then
        if pieceColor target ≠ col then some (moves ++ [⟨r, c, nr, nc⟩])
        else some moves
      else addSliding b col r c dr dc n (step + 1) (moves ++ [⟨r, c, nr, nc⟩])

/-- The `case W_PAWN` block. -/
def whitePawnMoves (b : Board) (r c : Int) (moves : List Move) : Option (List Move) :=
  (if inBounds (r + 1) c then
    (rd b.squares (r + 1) c).bind fun t =>
      if t = EMPTY then
        let moves1 := moves ++ [⟨r, c, r + 1, c⟩]
        if r = 1 then
          (rd b.squares (r + 2) c).bind fun t2 =>
            if t2 = EMPTY then some (moves1 ++ [⟨r, c, r + 2, c⟩]) else some moves1
        else some moves1
      else some moves
  else some moves).bind fun moves0 =>
  List.foldlM (fun (acc : List Move) (dc : Int) =>
      let nc := c + dc
      if !inBounds (r + 1) nc then some acc
      else (rd b.squares (r + 1) nc).bind fun t =>
        let acc1 := if t ≠ EMPTY ∧ isBlack t then acc ++ [⟨r, c, r + 1, nc⟩] else acc
        let acc2 := if r = 4 ∧ nc = b.enPassantCol ∧ t = EMPTY then acc1 ++ [⟨r, c, r + 1, nc⟩]
                    else acc1
        some acc2)
    moves0 [-1, 1]

/-- The `case B_PAWN` block. -/
def blackPawnMoves (b : Board) (r c : Int) (moves : List Move) : Option (List Move) :=
  (if inBounds (r - 1) c then
    (rd b.squares (r - 1) c).bind fun t =>
      if t = EMPTY then
        let moves1 := moves ++ [⟨r, c, r - 1, c⟩]
        if r = 6 then
          (rd b.squares (r - 2) c).bind fun t2 =>
            if t2 = EMPTY then some (moves1 ++ [⟨r, c, r - 2, c⟩]) else some moves1
        else some moves1
      else some moves
  else some moves).bind fun moves0 =>
  List.foldlM (fun (acc : List Move) (dc : Int) =>
      let nc := c + dc
      if !inBounds (r - 1) nc then some acc
      else (rd b.squares (r - 1) nc).bind fun t =>
        let acc1 := if t ≠ EMPTY ∧ isWhite t then acc ++ [⟨r, c, r - 1, nc⟩] else acc
        let acc2 := if r = 3 ∧ nc = b.enPassantCol ∧ t = EMPTY then acc1 ++ [⟨r, c, r - 1, nc⟩]
                    else acc1
        some acc2)
    moves0 [-1, 1]

/-- One `if (castleXY && ... ) moves.push_back(...)` statement of the castling
code: `flag`, the squares `empties` all `EMPTY`, the rook on `(row, rookCol)`,
and none of the two squares `(row, c1)`, `(row, c2)` attacked by `enemy`.  The
conjunction is evaluated left to right and stops at the first false conjunct. -/
def castleIf (b : Board) (flag : Bool) (row : Int) (empties : List Int) (rookCol : Int)
    (rook : Piece) (c1 c2 : Int) (enemy : Color) (mv : Move) (moves : List Move) :
    Option (List Move) :=
  if !flag then some moves else
  (firstHit (fun e => (rd b.squares row e).bind fun t => some (decide (t ≠ EMPTY))) empties).bind
  fun blocked => if blocked then some moves else
  (rd b.squares row rookCol).bind fun t =>
  if t ≠ rook then some moves else
  (isSquareAttackedBy b row c1 enemy).bind fun a1 => if a1 then some moves else
  (isSquareAttackedBy b row c2 enemy).bind fun a2 => if a2 then some moves else
  some (moves ++ [mv])

/-- The castling part of the `case W_KING: case B_KING` block. -/
def castlingMoves (b : Board) (col : Color) (r c : Int) (moves : List Move) :
    Option (List Move) :=
  (if col = WHITE ∧ r = 0 ∧ c = 4 then
    (isInCheck b WHITE).bind fun chk =>
      if !chk then
        (castleIf b b.castleWK 0 [5, 6] 7 W_ROOK 5 6 BLACK ⟨0, 4, 0, 6⟩ moves).bind fun moves1 =>
        castleIf b b.castleWQ 0 [3, 2, 1] 0 W_ROOK 3 2 BLACK ⟨0, 4, 0, 2⟩ moves1
      else some moves
  else some moves).bind fun moves2 =>
  if col = BLACK ∧ r = 7 ∧ c = 4 then
    (isInCheck b BLACK).bind fun chk =>
      if !chk then
        (castleIf b b.castleBK 7 [5, 6] 7 B_ROOK 5 6 WHITE ⟨7, 4, 7, 6⟩ moves2).bind fun moves3 =>
        castleIf b b.castleBQ 7 [3, 2, 1] 0 B_ROOK 3 2 WHITE ⟨7, 4, 7, 2⟩ moves3
      else some moves2
  else some moves2

def bishopDirs : List (Int × Int) := [(-1, -1), (-1, 1), (1, -1), (1, 1)]

def rookDirs : List (Int × Int) := [(-1, 0), (1, 0), (0, -1), (0, 1)]

def queenDirs : List (Int × Int) :=
  [(-1, -1), (-1, 0), (-1, 1), (0, -1), (0, 1), (1, -1), (1, 0), (1, 1)]

/-- The loop `for (auto [dr,dc] : dirs) addSliding(dr, dc);`. -/
def slideAll (b : Board) (col : Color) (r c : Int) (dirs : List (Int × Int))
    (moves : List Move) : Option (List Move) :=
  List.foldlM (fun acc d => addSliding b col r c d.1 d.2 7 1 acc) moves dirs

/-- The loop `for (...) addIfValid(r + dr, c + dc);` over a list of offsets. -/
def stepAll (b : Board) (col : Color) (r c : Int) (offs : List (Int × Int))
    (moves : List Move) : Option (List Move) :=
  List.foldlM (fun acc d => addIfValid b col r c (r + d.1) (c + d.2) acc) moves offs

def generatePieceMoves (b : Board) (r c : Int) (moves : List Move) : Option (List Move) :=
  (rd b.squares r c).bind fun p =>
  let col := pieceColor p
  if col = NONE then some moves else
  match p with
  | W_PAWN => whitePawnMoves b r c moves
  | B_PAWN => blackPawnMoves b r c moves
  | W_KNIGHT | B_KNIGHT => stepAll b col r c knightOffsets moves
  | W_BISHOP | B_BISHOP => slideAll b col r c bishopDirs moves
  | W_ROOK | B_ROOK => slideAll b col r c rookDirs moves
  | W_QUEEN | B_QUEEN => slideAll b col r c queenDirs moves
  | W_KING | B_KING =>
    (stepAll b col r c kingOffsets moves).bind fun moves1 => castlingMoves b col r c moves1
  | EMPTY => some moves

/-! ## Applying moves -/

def applyMoveRaw (b : Board) (m : Move) : Option Board :=
  (rd b.squares m.fromRow m.fromCol).bind fun p =>
  -- En passant capture
  (if (p = W_PAWN ∨ p = B_PAWN) ∧ m.fromCol ≠ m.toCol then
    (rd b.squares m.toRow m.toCol).bind fun t =>
      if t = EMPTY then wr b.squares m.fromRow m.toCol EMPTY else some b.squares
  else some b.squares).bind fun g1 =>
  -- Castling: move the rook
  (if (p = W_KING ∨ p = B_KING) ∧ |m.toCol - m.fromCol| = 2 then
    let row := m.fromRow
    if m.toCol = 6 then
      (rd g1 row 7).bind fun rook => (wr g1 row 5 rook).bind fun g => wr g row 7 EMPTY
    else
      (rd g1 row 0).bind fun rook => (wr g1 row 3 rook).bind fun g => wr g row 0 EMPTY
  else some g1).bind fun g2 =>
  (wr g2 m.toRow m.toCol p).bind fun g3 =>
  (wr g3 m.fromRow m.fromCol EMPTY).bind fun g4 =>
  -- Promotion (auto-queen)
  (if p = W_PAWN ∧ m.toRow = 7 then wr g4 m.toRow m.toCol W_QUEEN else some g4).bind fun g5 =>
  (if p = B_PAWN ∧ m.toRow = 0 then wr g5 m.toRow m.toCol B_QUEEN else some g5).bind fun g6 =>
  some { b with squares := g6 }

/-- The loop of `getLegalMoves` over the pseudo-legal moves. -/
def legalLoop (b : Board) (col : Color) : List Move → List Move → Option (List Move)
  | [], legal => some legal
  | m :: rest, legal =>
    (applyMoveRaw b m).bind fun copy =>
    (isInCheck copy col).bind fun chk =>
    legalLoop b col rest (if !chk then legal ++ [m] else legal)

def getLegalMoves (b : Board) (r c : Int) : Option (List Move) :=
  (generatePieceMoves b r c []).bind fun pseudo =>
  (rd b.squares r c).bind fun p =>
  legalLoop b (pieceColor p) pseudo []

def getAllLegalMoves (b : Board) : Option (List Move) :=
  List.foldlM (fun (all : List Move) (s : Fin 8 × Fin 8) =>
      if pieceColor (b.squares s.1 s.2) = b.sideToMove then
        (getLegalMoves b (s.1.val : Int) (s.2.val : Int)).bind fun moves => some (all ++ moves)
      else some all)
    [] allSquares

def makeMove (b : Board) (m : Move) : Option Board :=
  (rd b.squares m.fromRow m.fromCol).bind fun p =>
  (applyMoveRaw b m).bind fun b1 =>
  -- Update en passant
  let ep0 : Int := -1
  let ep1 := if p = W_PAWN ∧ m.toRow - m.fromRow = 2 then m.fromCol else ep0
  let ep2 := if p = B_PAWN ∧ m.fromRow - m.toRow = 2 then m.fromCol else ep1
  -- Update castling rights
  let wk1 := if p = W_KING then false else b1.castleWK
  let wq1 := if p = W_KING then false else b1.castleWQ
  let bk1 := if p = B_KING then false else b1.castleBK
  let bq1 := if p = B_KING then false else b1.castleBQ
  let wq2 := if p = W_ROOK ∧ m.fromRow = 0 ∧ m.fromCol = 0 then false else wq1
  let wk2 := if p = W_ROOK ∧ m.fromRow = 0 ∧ m.fromCol = 7 then false else wk1
  let bq2 := if p = B_ROOK ∧ m.fromRow = 7 ∧ m.fromCol = 0 then false else bq1
  let bk2 := if p = B_ROOK ∧ m.fromRow = 7 ∧ m.fromCol = 7 then false else bk1
  -- If a rook is captured on its starting square
  let wq3 := if m.toRow = 0 ∧ m.toCol = 0 then false else wq2
  let wk3 := if m.toRow = 0 ∧ m.toCol = 7 then false else wk2
  let bq3 := if m.toRow = 7 ∧ m.toCol = 0 then false else bq2
  let bk3 := if m.toRow = 7 ∧ m.toCol = 7 then false else bk2
  let side := if b1.sideToMove = WHITE then BLACK else WHITE
  let b2 : Board :=
    { b1 with enPassantCol := ep2, castleWK := wk3, castleWQ := wq3, castleBK := bk3,
              castleBQ := bq3, sideToMove := side }
  (getAllLegalMoves b2).bind fun all =>
  if all.isEmpty then
    (isInCheck b2 b2.sideToMove).bind fun chk =>
    some { b2 with
      gameOver := true
      resultText :=
        if chk then
          (if b2.sideToMove = WHITE then "Black wins by checkmate!"
           else "White wins by checkmate!")
        else "Stalemate — draw!" }
  else some b2

/-! ## Functional characterisation of the engine

Total, `Option`-free counterparts of the definitions above.  The lemmas
further down show that the embedded code computes exactly these whenever its
array accesses are inside the grid; they serve the proofs only. -/

/-- The entry at `(r, c)`, `EMPTY` for a pair outside the grid. -/
def sq (g : Grid) (r c : Int) : Piece := (rd g r c).getD EMPTY

/-- The grid after a write at `(r, c)`; unchanged for a pair outside the grid. -/
def put (g : Grid) (r c : Int) (p : Piece) : Grid := (wr g r c p).getD g

/-- Value of `holdsAt`. -/
def occupiedBy (g : Grid) (r c : Int) (q : Piece) : Bool :=
  inBounds r c && decide (sq g r c = q)

/-- Value of `scanRay`. -/
def rayHit (g : Grid) (r c dr dc : Int) (q1 q2 : Piece) : Nat → Int → Bool
  | 0, _ => false
  | n + 1, step =>
    if !inBounds (r + dr * step) (c + dc * step) then false
    else if sq g (r + dr * step) (c + dc * step) ≠ EMPTY then
      decide (sq g (r + dr * step) (c + dc * step) = q1)
        || decide (sq g (r + dr * step) (c + dc * step) = q2)
    else rayHit g r c dr dc q1 q2 n (step + 1)

/-- Value of `isSquareAttackedBy`. -/
def attacked (g : Grid) (r c : Int) (attacker : Color) : Bool :=
  knightOffsets.any (fun d =>
      occupiedBy g (r + d.1) (c + d.2) (if attacker = WHITE then W_KNIGHT else B_KNIGHT))
  || [(-1 : Int), 1].any (fun dc =>
      occupiedBy g (r + (if attacker = WHITE then -1 else 1)) (c + dc)
        (if attacker = WHITE then W_PAWN else B_PAWN))
  || kingOffsets.any (fun d =>
      occupiedBy g (r + d.1) (c + d.2) (if attacker = WHITE then W_KING else B_KING))
  || straightDirs.any (fun d =>
      rayHit g r c d.1 d.2 (if attacker = WHITE then W_ROOK else B_ROOK)
        (if attacker = WHITE then W_QUEEN else B_QUEEN) 7 1)
  || diagDirs.any (fun d =>
      rayHit g r c d.1 d.2 (if attacker = WHITE then W_BISHOP else B_BISHOP)
        (if attacker = WHITE then W_QUEEN else B_QUEEN) 7 1)

/-- Value of `findKing`, from the grid alone. -/
def kingPos (g : Grid) (col : Color) : Int × Int :=
  match allSquares.find? (fun s => decide (g s.1 s.2 = (if col = WHITE then W_KING else B_KING))) with
  | some s => ((s.1.val : Int), (s.2.val : Int))
  | none => (-1, -1)

/-- Value of `isInCheck`, from the grid alone. -/
def inCheck (g : Grid) (col : Color) : Bool :=
  attacked g (kingPos g col).1 (kingPos g col).2 (if col = WHITE then BLACK else WHITE)

/-- Moves that one call of `addIfValid` appends. -/
def stepMove (g : Grid) (col : Color) (r c tr tc : Int) : List Move :=
  if inBounds tr tc = true ∧ ¬ (sq g tr tc ≠ EMPTY ∧ pieceColor (sq g tr tc) = col) then
    [⟨r, c, tr, tc⟩]
  else []

/-- Moves that the loop over `addIfValid` appends. -/
def stepMoves (g : Grid) (col : Color) (r c : Int) (offs : List (Int × Int)) : List Move :=
  offs.flatMap fun d => stepMove g col r c (r + d.1) (c + d.2)

/-- Moves that one call of `addSliding` appends. -/
def slideMoves (g : Grid) (col : Color) (r c dr dc : Int) : Nat → Int → List Move
  | 0, _ => []
  | n + 1, step =>
    if !inBounds (r + dr * step) (c + dc * step) then []
    else if sq g (r + dr * step) (c + dc * step) ≠ EMPTY then
      (if pieceColor (sq g (r + dr * step) (c + dc * step)) ≠ col then
        [⟨r, c, r + dr * step, c + dc * step⟩] else [])
    else ⟨r, c, r + dr * step, c + dc * step⟩ :: slideMoves g col r c dr dc n (step + 1)

/-- Moves that the loop over `addSliding` appends. -/
def slidesMoves (g : Grid) (col : Color) (r c : Int) (dirs : List (Int × Int)) : List Move :=
  dirs.flatMap fun d => slideMoves g col r c d.1 d.2 7 1

/-- Moves of a pawn that advances by `dir`, has home row `home`, captures
pieces of colour `enemy` and captures en passant from row `epRow`. -/
def pawnMoves (g : Grid) (ep : Int) (r c dir home epRow : Int) (enemy : Color) : List Move :=
  (if inBounds (r + dir) c = true ∧ sq g (r + dir) c = EMPTY then
    ⟨r, c, r + dir, c⟩ ::
      (if r = home ∧ sq g (r + dir + dir) c = EMPTY then [⟨r, c, r + dir + dir, c⟩] else [])
  else [])
  ++ [(-1 : Int), 1].flatMap fun dc =>
    if inBounds (r + dir) (c + dc) = true then
      (if sq g (r + dir) (c + dc) ≠ EMPTY ∧ pieceColor (sq g (r + dir) (c + dc)) = enemy then
        [⟨r, c, r + dir, c + dc⟩] else [])
      ++ (if r = epRow ∧ c + dc = ep ∧ sq g (r + dir) (c + dc) = EMPTY then
        [⟨r, c, r + dir, c + dc⟩] else [])
    else []

/-- Condition of one `castleIf`, without the test that the king is not in check. -/
def castleOk (g : Grid) (flag : Bool) (row : Int) (empties : List Int) (rookCol : Int)
    (rook : Piece) (c1 c2 : Int) (enemy : Color) : Bool :=
  flag && empties.all (fun e => decide (sq g row e = EMPTY)) && decide (sq g row rookCol = rook)
    && !attacked g row c1 enemy && !attacked g row c2 enemy

/-- Moves that `castlingMoves` appends. -/
def castlingList (b : Board) (col : Color) (r c : Int) : List Move :=
  (if (col = WHITE ∧ r = 0 ∧ c = 4) ∧ inCheck b.squares WHITE = false then
    (if castleOk b.squares b.castleWK 0 [5, 6] 7 W_ROOK 5 6 BLACK = true then
      [(⟨0, 4, 0, 6⟩ : Move)] else [])
    ++ (if castleOk b.squares b.castleWQ 0 [3, 2, 1] 0 W_ROOK 3 2 BLACK = true then
      [(⟨0, 4, 0, 2⟩ : Move)] else [])
  else [])
  ++ (if (col = BLACK ∧ r = 7 ∧ c = 4) ∧ inCheck b.squares BLACK = false then
    (if castleOk b.squares b.castleBK 7 [5, 6] 7 B_ROOK 5 6 WHITE = true then
      [(⟨7, 4, 7, 6⟩ : Move)] else [])
    ++ (if castleOk b.squares b.castleBQ 7 [3, 2, 1] 0 B_ROOK 3 2 WHITE = true then
      [(⟨7, 4, 7, 2⟩ : Move)] else [])
  else [])

/-- Moves that `generatePieceMoves` appends for the square `(r, c)`. -/
def pseudo (b : Board) (r c : Int) : List Move :=
  match sq b.squares r c with
  | W_PAWN => pawnMoves b.squares b.enPassantCol r c 1 1 4 BLACK
  | B_PAWN => pawnMoves b.squares b.enPassantCol r c (-1) 6 3 WHITE
  | W_KNIGHT => stepMoves b.squares WHITE r c knightOffsets
  | B_KNIGHT => stepMoves b.squares BLACK r c knightOffsets
  | W_BISHOP => slidesMoves b.squares WHITE r c bishopDirs
  | B_BISHOP => slidesMoves b.squares BLACK r c bishopDirs
  | W_ROOK => slidesMoves b.squares WHITE r c rookDirs
  | B_ROOK => slidesMoves b.squares BLACK r c rookDirs
  | W_QUEEN => slidesMoves b.squares WHITE r c queenDirs
  | B_QUEEN => slidesMoves b.squares BLACK r c queenDirs
  | W_KING => stepMoves b.squares WHITE r c kingOffsets ++ castlingList b WHITE r c
  | B_KING => stepMoves b.squares BLACK r c kingOffsets ++ castlingList b BLACK r c
  | EMPTY => []

/-- The grid that `applyMoveRaw` leaves. -/
def applyGrid (g : Grid) (m : Move) : Grid :=
  let p := sq g m.fromRow m.fromCol
  let g1 :=
    if ((p = W_PAWN ∨ p = B_PAWN) ∧ m.fromCol ≠ m.toCol) ∧ sq g m.toRow m.toCol = EMPTY then
      put g m.fromRow m.toCol EMPTY
    else g
  let g2 :=
    if (p = W_KING ∨ p = B_KING) ∧ |m.toCol - m.fromCol| = 2 then
      (if m.toCol = 6 then put (put g1 m.fromRow 5 (sq g1 m.fromRow 7)) m.fromRow 7 EMPTY
       else put (put g1 m.fromRow 3 (sq g1 m.fromRow 0)) m.fromRow 0 EMPTY)
    else g1
  let g4 := put (put g2 m.toRow m.toCol p) m.fromRow m.fromCol EMPTY
  let g5 := if p = W_PAWN ∧ m.toRow = 7 then put g4 m.toRow m.toCol W_QUEEN else g4
  if p = B_PAWN ∧ m.toRow = 0 then put g5 m.toRow m.toCol B_QUEEN else g5

/-- Value of `getLegalMoves`. -/
def legal (b : Board) (r c : Int) : List Move :=
  (pseudo b r c).filter fun m =>
    !inCheck (applyGrid b.squares m) (pieceColor (sq b.squares r c))

/-- Value of `getAllLegalMoves`. -/
def allLegal (b : Board) : List Move :=
  allSquares.flatMap fun s =>
    if pieceColor (b.squares s.1 s.2) = b.sideToMove then legal b (s.1.val : Int) (s.2.val : Int)
    else []

/-- The state that `makeMove` leaves before its game-end check. -/
def movedBoard (b : Board) (m : Move) : Board :=
  let p := sq b.squares m.fromRow m.fromCol
  { b with
    squares := applyGrid b.squares m
    enPassantCol :=
      if p = B_PAWN ∧ m.fromRow - m.toRow = 2 then m.fromCol
      else if p = W_PAWN ∧ m.toRow - m.fromRow = 2 then m.fromCol
      else -1
    castleWK :=
      if m.toRow = 0 ∧ m.toCol = 7 then false
      else if p = W_ROOK ∧ m.fromRow = 0 ∧ m.fromCol = 7 then false
      else if p = W_KING then false else b.castleWK
    castleWQ :=
      if m.toRow = 0 ∧ m.toCol = 0 then false
      else if p = W_ROOK ∧ m.fromRow = 0 ∧ m.fromCol = 0 then false
      else if p = W_KING then false else b.castleWQ
    castleBK :=
      if m.toRow = 7 ∧ m.toCol = 7 then false
      else if p = B_ROOK ∧ m.fromRow = 7 ∧ m.fromCol = 7 then false
      else if p = B_KING then false else b.castleBK
    castleBQ :=
      if m.toRow = 7 ∧ m.toCol = 0 then false
      else if p = B_ROOK ∧ m.fromRow = 7 ∧ m.fromCol = 0 then false
      else if p = B_KING then false else b.castleBQ
    sideToMove := if b.sideToMove = WHITE then BLACK else WHITE }

/-- The state that `makeMove` leaves. -/
def afterMove (b : Board) (m : Move) : Board :=
  let b2 := movedBoard b m
  if (allLegal b2).isEmpty then
    { b2 with
      gameOver := true
      resultText :=
        if inCheck b2.squares b2.sideToMove then
          (if b2.sideToMove = WHITE then "Black wins by checkmate!"
           else "White wins by checkmate!")
        else "Stalemate — draw!" }
  else b2

/-- The squares at steps `s, ..., k - 1` from `(r, c)` in direction `(dr, dc)` are
inside the grid and empty. -/
def ClearFrom (g : Grid) (r c dr dc s k : Int) : Prop :=
  ∀ j : Int, s ≤ j → j < k →
    inBounds (r + dr * j) (c + dc * j) = true ∧ sq g (r + dr * j) (c + dc * j) = EMPTY

/-- The grids `g` and `g2` hold the piece `k` on the same squares. -/
def SameAt (g g2 : Grid) (k : Piece) : Prop :=
  ∀ r c : Int, sq g2 r c = k ↔ sq g r c = k

/-- Exactly one square of the grid holds `k`. -/
def ExactlyOne (g : Grid) (k : Piece) : Prop :=
  ∃ i j : Fin 8, g i j = k ∧ ∀ i2 j2 : Fin 8, g i2 j2 = k → i2 = i ∧ j2 = j

/-- The colour that `isInCheck` and `makeMove` take as the other side. -/
def otherSide (col : Color) : Color := if col = WHITE then BLACK else WHITE

/-- States reached from `reset` by `makeMove` of moves taken from
`getAllLegalMoves` of the current state. -/
inductive Reachable : Board → Prop
  | start : Reachable reset
  | step {b b2 : Board} {ms : List Move} {m : Move} :
      Reachable b → getAllLegalMoves b = some ms → m ∈ ms → makeMove b m = some b2 →
      Reachable b2

/-- The invariant of play: one king of each colour, a side to move, the side
that has just moved is not in check, and an en-passant target file names the
pawn that has just advanced two rows. -/
structure Inv (b : Board) : Prop where
  whiteKing : ExactlyOne b.squares W_KING
  blackKing : ExactlyOne b.squares B_KING
  side : b.sideToMove = WHITE ∨ b.sideToMove = BLACK
  safe : inCheck b.squares (otherSide b.sideToMove) = false
  epWhite : b.sideToMove = WHITE → inBounds 4 b.enPassantCol = true →
    sq b.squares 4 b.enPassantCol = B_PAWN
  epBlack : b.sideToMove = BLACK → inBounds 3 b.enPassantCol = true →
    sq b.squares 3 b.enPassantCol = W_PAWN

/-! ## Scenarios and auxiliary notions of the specification -/

/-- A sequence of `makeMove` calls. -/
def playMoves : Board → List Move → Option Board
  | b, [] => some b
  | b, m :: ms => (makeMove b m).bind fun b2 => playMoves b2 ms

/-- The test of `getLegalMoves` on one candidate: the move applied to a copy
of the state leaves `col` out of check. -/
def staysSafe (b : Board) (col : Color) (m : Move) : Bool :=
  match applyMoveRaw b m with
  | some copy =>
    (match isInCheck copy col with
     | some chk => !chk
     | none => false)
  | none => false

/-- Fool's mate: f3, e5, g4, Qh4. -/
def foolsMate : List Move := [⟨1, 5, 2, 5⟩, ⟨6, 4, 4, 4⟩, ⟨1, 6, 3, 6⟩, ⟨7, 3, 3, 7⟩]

/-- Black king on `(7, 0)`, white king on `(5, 1)`, white queen on `(6, 3)`. -/
def staleGrid : Grid := fun r c =>
  if r = 7 ∧ c = 0 then B_KING
  else if r = 5 ∧ c = 1 then W_KING
  else if r = 6 ∧ c = 3 then W_QUEEN
  else EMPTY

/-- White to move on `staleGrid`, no castling rights. -/
def staleBoard : Board :=
  { squares := staleGrid
    sideToMove := WHITE
    castleWK := false
    castleWQ := false
    castleBK := false
    castleBQ := false
    enPassantCol := -1
    gameOver := false
    resultText := "" }

/-- Kings and rooks on their home squares, nothing else. -/
def castleGrid : Grid := fun r c =>
  if r = 0 ∧ c = 4 then W_KING
  else if r = 0 ∧ (c = 0 ∨ c = 7) then W_ROOK
  else if r = 7 ∧ c = 4 then B_KING
  else if r = 7 ∧ (c = 0 ∨ c = 7) then B_ROOK
  else EMPTY

/-- White to move on `castleGrid` with all castling rights. -/
def castleBoard : Board := { reset with squares := castleGrid }

/-- No castling right that is cleared in `s` is set in `s2`. -/
def RightsNotRegained (s s2 : Board) : Prop :=
  (s.castleWK = false → s2.castleWK = false) ∧ (s.castleWQ = false → s2.castleWQ = false)
    ∧ (s.castleBK = false → s2.castleBK = false) ∧ (s.castleBQ = false → s2.castleBQ = false)

/-- White pawn on `(6, 3)` next to a black rook on `(7, 4)`, kings on `(0, 4)`
and `(7, 7)`. -/
def promoGrid : Grid := fun r c =>
  if r = 6 ∧ c = 3 then W_PAWN
  else if r = 7 ∧ c = 4 then B_ROOK
  else if r = 0 ∧ c = 4 then W_KING
  else if r = 7 ∧ c = 7 then B_KING
  else EMPTY

/-- White to move on `promoGrid`, no castling rights. -/
def promoBoard : Board := { staleBoard with squares := promoGrid }

/-- A white pawn on `(4, 3)` and nothing else. -/
def sidewaysGrid : Grid := fun r c => if r = 4 ∧ c = 3 then W_PAWN else EMPTY

/-- White to move on `sidewaysGrid`, no castling rights. -/
def sidewaysBoard : Board := { staleBoard with squares := sidewaysGrid }

/-- White pawn on `(4, 3)`, black pawn on `(4, 4)` that has just advanced two
rows, kings on `(0, 4)` and `(7, 4)`. -/
def epGrid : Grid := fun r c =>
  if r = 4 ∧ c = 3 then W_PAWN
  else if r = 4 ∧ c = 4 then B_PAWN
  else if r = 0 ∧ c = 4 then W_KING
  else if r = 7 ∧ c = 4 then B_KING
  else EMPTY

/-- White to move on `epGrid` with en-passant target file 4. -/
def epBoard : Board := { staleBoard with squares := epGrid, enPassantCol := 4 }

/-- `Board::reset` as the state transformer it is: every field of the state
is overwritten (the grid is filled with `EMPTY`, then the back ranks and the
pawn rows are written). -/
def Board.reset (_s : Board) : Board :=
  let g0 : Grid := fun _ _ => EMPTY
  let g1 := (((((((g0.set 0 0 W_ROOK).set 0 1 W_KNIGHT).set 0 2 W_BISHOP).set 0 3 W_QUEEN).set
    0 4 W_KING).set 0 5 W_BISHOP).set 0 6 W_KNIGHT).set 0 7 W_ROOK
  let g2 := idx8.foldl (fun g c => g.set 1 c W_PAWN) g1
  let g3 := (((((((g2.set 7 0 B_ROOK).set 7 1 B_KNIGHT).set 7 2 B_BISHOP).set 7 3 B_QUEEN).set
    7 4 B_KING).set 7 5 B_BISHOP).set 7 6 B_KNIGHT).set 7 7 B_ROOK
  let g4 := idx8.foldl (fun g c => g.set 6 c B_PAWN) g3
  { squares := g4
    sideToMove := WHITE
    castleWK := true
    castleWQ := true
    castleBK := true
    castleBQ := true
    enPassantCol := -1
    gameOver := false
    resultText := "" }

/-- White pawn on its home square `(1, 4)`, black pawn on `(3, 3)`, kings on
`(0, 4)` and `(7, 4)`. -/
def doubleStepGrid : Grid := fun r c =>
  if r = 1 ∧ c = 4 then W_PAWN
  else if r = 3 ∧ c = 3 then B_PAWN
  else if r = 0 ∧ c = 4 then W_KING
  else if r = 7 ∧ c = 4 then B_KING
  else EMPTY

/-- White to move on `doubleStepGrid`, no castling rights. -/
def doubleStepBoard : Board := { staleBoard with squares := doubleStepGrid }

/-- The state of play after `(1,4) -> (3,4)`, `(6,0) -> (5,0)`,
`(3,4) -> (4,4)`, `(6,3) -> (4,3)`: a black pawn has just advanced two rows
to stand beside a white pawn. -/
def enPassantPlay : Board :=
  afterMove (afterMove (afterMove (afterMove reset ⟨1, 4, 3, 4⟩) ⟨6, 0, 5, 0⟩) ⟨3, 4, 4, 4⟩)
    ⟨6, 3, 4, 3⟩

/-! ## Grid access lemmas -/

theorem inBounds_iff (r c : Int) :
    inBounds r c = true ↔ (0 ≤ r ∧ r < 8) ∧ (0 ≤ c ∧ c < 8) := by
  simp [inBounds, and_assoc]

theorem inBounds_false_iff (r c : Int) :
    inBounds r c = false ↔ ¬ ((0 ≤ r ∧ r < 8) ∧ (0 ≤ c ∧ c < 8)) := by
  rw [← inBounds_iff]; simp

theorem rd_eq {g : Grid} {r c : Int} (h : inBounds r c = true) : rd g r c = some (sq g r c) := by
  have h2 := (inBounds_iff r c).1 h
  simp [sq, rd, h2]

theorem rd_none {g : Grid} {r c : Int} (h : inBounds r c = false) : rd g r c = none := by
  have h2 := (inBounds_false_iff r c).1 h
  simp [rd, h2]

theorem sq_out {g : Grid} {r c : Int} (h : inBounds r c = false) : sq g r c = EMPTY := by
  simp [sq, rd_none h]

theorem wr_eq {g : Grid} {r c : Int} (p : Piece) (h : inBounds r c = true) :
    wr g r c p = some (put g r c p) := by
  have h2 := (inBounds_iff r c).1 h
  simp [put, wr, h2]

theorem wr_none {g : Grid} {r c : Int} (p : Piece) (h : inBounds r c = false) :
    wr g r c p = none := by
  have h2 := (inBounds_false_iff r c).1 h
  simp [wr, h2]

theorem sq_cast (g : Grid) (i j : Fin 8) : sq g (i.val : Int) (j.val : Int) = g i j := by
  have hi := i.isLt
  have hj := j.isLt
  have h : ((0 : Int) ≤ (i.val : Int) ∧ (i.val : Int) < 8) ∧ ((0 : Int) ≤ (j.val : Int) ∧ (j.val : Int) < 8) := by
    omega
  simp [sq, rd, h]

theorem inBounds_cast (i j : Fin 8) : inBounds (i.val : Int) (j.val : Int) = true := by
  rw [inBounds_iff]; omega

theorem exists_fin_of_inBounds {r c : Int} (h : inBounds r c = true) :
    ∃ i j : Fin 8, (i.val : Int) = r ∧ (j.val : Int) = c := by
  have h2 := (inBounds_iff r c).1 h
  exact ⟨⟨r.toNat, by omega⟩, ⟨c.toNat, by omega⟩, by simp; omega, by simp; omega⟩

theorem sq_put {g : Grid} {r c : Int} (p : Piece) (h : inBounds r c = true) (r2 c2 : Int) :
    sq (put g r c p) r2 c2 = if r2 = r ∧ c2 = c then p else sq g r2 c2 := by
  have h2 := (inBounds_iff r c).1 h
  by_cases hb : inBounds r2 c2 = true
  · have h3 := (inBounds_iff r2 c2).1 hb
    simp only [sq, put, wr, rd, h2, h3, and_self, dite_true, Option.getD_some, Grid.set, Fin.mk.injEq]
    have e1 : (r2.toNat = r.toNat) ↔ r2 = r := by omega
    have e2 : (c2.toNat = c.toNat) ↔ c2 = c := by omega
    simp only [e1, e2]
  · have hb2 : inBounds r2 c2 = false := by simpa using hb
    have h3 := (inBounds_false_iff r2 c2).1 hb2
    have hne : ¬ (r2 = r ∧ c2 = c) := by
      rintro ⟨rfl, rfl⟩; exact h3 h2
    simp [sq_out hb2, hne]


/-! ## The embedded code computes the functional characterisation -/

theorem holdsAt_eq (g : Grid) (r c : Int) (q : Piece) :
    holdsAt g r c q = some (occupiedBy g r c q) := by
  unfold holdsAt occupiedBy
  by_cases h : inBounds r c = true
  · simp [h, rd_eq h]
  · simp [h]

theorem scanRay_eq (g : Grid) (r c dr dc : Int) (q1 q2 : Piece) (n : Nat) (step : Int) :
    scanRay g r c dr dc q1 q2 n step = some (rayHit g r c dr dc q1 q2 n step) := by
  induction n generalizing step with
  | zero => rfl
  | succ n ih =>
    unfold scanRay rayHit
    by_cases h : inBounds (r + dr * step) (c + dc * step) = true
    · simp only [h, Bool.not_true, Bool.false_eq_true, if_false, rd_eq h, Option.some_bind]
      by_cases he : sq g (r + dr * step) (c + dc * step) = EMPTY
      · simp [he, ih]
      · simp [he]
    · simp [h]

theorem firstHit_eq {α : Type} (f : α → Option Bool) (fp : α → Bool) (xs : List α)
    (h : ∀ x ∈ xs, f x = some (fp x)) : firstHit f xs = some (xs.any fp) := by
  induction xs with
  | nil => rfl
  | cons x xs ih =>
    have hx := h x (List.mem_cons_self _ _)
    have ih2 := ih (fun y hy => h y (List.mem_cons_of_mem _ hy))
    unfold firstHit
    rw [hx]
    cases hfx : fp x <;> simp [ih2, hfx]

theorem ite_some_true (a x : Bool) :
    (if a = true then some true else some x) = some (a || x) := by
  cases a <;> rfl

theorem isSquareAttackedBy_eq (b : Board) (r c : Int) (attacker : Color) :
    isSquareAttackedBy b r c attacker = some (attacked b.squares r c attacker) := by
  unfold isSquareAttackedBy attacked
  simp only []
  rw [firstHit_eq _ _ _ (fun d _ => holdsAt_eq _ _ _ _)]
  rw [firstHit_eq _ _ _ (fun d _ => holdsAt_eq _ _ _ _)]
  rw [firstHit_eq _ _ _ (fun d _ => holdsAt_eq _ _ _ _)]
  rw [firstHit_eq _ _ _ (fun d _ => scanRay_eq _ _ _ _ _ _ _ _ _)]
  rw [firstHit_eq _ _ _ (fun d _ => scanRay_eq _ _ _ _ _ _ _ _ _)]
  simp only [Option.some_bind, ite_some_true, Bool.or_false, Bool.or_assoc]

theorem findKing_eq (b : Board) (col : Color) : findKing b col = kingPos b.squares col := rfl

theorem isInCheck_eq (b : Board) (col : Color) :
    isInCheck b col = some (inCheck b.squares col) := by
  unfold isInCheck inCheck
  simp only [findKing_eq, isSquareAttackedBy_eq]

/-- A loop whose every iteration appends to the vector appends the
concatenation of what the iterations append. -/
theorem foldlM_append {α β : Type} (step : List β → α → Option (List β)) (f : α → List β)
    (h : ∀ acc x, step acc x = some (acc ++ f x)) (xs : List α) (acc : List β) :
    List.foldlM step acc xs = some (acc ++ xs.flatMap f) := by
  induction xs generalizing acc with
  | nil => simp
  | cons x xs ih =>
    rw [List.foldlM_cons, h]
    simp only [bind, Option.some_bind]
    rw [ih]
    simp

theorem addIfValid_eq (b : Board) (col : Color) (r c tr tc : Int) (moves : List Move) :
    addIfValid b col r c tr tc moves = some (moves ++ stepMove b.squares col r c tr tc) := by
  unfold addIfValid stepMove
  by_cases h : inBounds tr tc = true
  · simp only [h, Bool.not_true, Bool.false_eq_true, if_false, rd_eq h, Option.some_bind, true_and]
    by_cases h2 : sq b.squares tr tc ≠ EMPTY ∧ pieceColor (sq b.squares tr tc) = col
    · simp [h2]
    · simp [h2]
  · simp [h]

theorem stepAll_eq (b : Board) (col : Color) (r c : Int) (offs : List (Int × Int))
    (moves : List Move) :
    stepAll b col r c offs moves = some (moves ++ stepMoves b.squares col r c offs) := by
  unfold stepAll stepMoves
  exact foldlM_append (fun acc d => addIfValid b col r c (r + d.1) (c + d.2) acc)
    (fun d => stepMove b.squares col r c (r + d.1) (c + d.2))
    (fun acc d => addIfValid_eq b col r c _ _ acc) offs moves

theorem addSliding_eq (b : Board) (col : Color) (r c dr dc : Int) (n : Nat) (step : Int)
    (moves : List Move) :
    addSliding b col r c dr dc n step moves
      = some (moves ++ slideMoves b.squares col r c dr dc n step) := by
  induction n generalizing step moves with
  | zero => simp [addSliding, slideMoves]
  | succ n ih =>
    unfold addSliding slideMoves
    by_cases h : inBounds (r + dr * step) (c + dc * step) = true
    · simp only [h, Bool.not_true, Bool.false_eq_true, if_false, rd_eq h, Option.some_bind]
      by_cases he : sq b.squares (r + dr * step) (c + dc * step) = EMPTY
      · simp [he, ih]
      · by_cases hc : pieceColor (sq b.squares (r + dr * step) (c + dc * step)) = col
        · simp [he, hc]
        · simp [he, hc]
    · simp [h]

theorem slideAll_eq (b : Board) (col : Color) (r c : Int) (dirs : List (Int × Int))
    (moves : List Move) :
    slideAll b col r c dirs moves = some (moves ++ slidesMoves b.squares col r c dirs) := by
  unfold slideAll slidesMoves
  have h : ∀ (acc : List Move) (d : Int × Int),
      addSliding b col r c d.1 d.2 7 1 acc
        = some (acc ++ slideMoves b.squares col r c d.1 d.2 7 1) :=
    fun acc d => addSliding_eq b col r c d.1 d.2 7 1 acc
  exact foldlM_append _ _ h dirs moves

theorem inBounds_col {r c : Int} (r2 : Int) (h : inBounds r c = true) (h2 : 0 ≤ r2 ∧ r2 < 8) :
    inBounds r2 c = true := by
  rw [inBounds_iff] at *
  omega

/-- The forward part of a pawn block, for a pawn advancing by `dir` from home row `home`. -/
theorem pawnForward_eq (g : Grid) (r c dir home : Int) (moves : List Move)
    (hh : r = home → 0 ≤ r + dir + dir ∧ r + dir + dir < 8) :
    (if inBounds (r + dir) c = true then
      (rd g (r + dir) c).bind fun t =>
        if t = EMPTY then
          if r = home then
            (rd g (r + dir + dir) c).bind fun t2 =>
              if t2 = EMPTY then
                some (moves ++ [(⟨r, c, r + dir, c⟩ : Move)] ++ [⟨r, c, r + dir + dir, c⟩])
              else some (moves ++ [(⟨r, c, r + dir, c⟩ : Move)])
          else some (moves ++ [(⟨r, c, r + dir, c⟩ : Move)])
        else some moves
      else some moves)
      = some (moves ++ (if inBounds (r + dir) c = true ∧ sq g (r + dir) c = EMPTY then
          (⟨r, c, r + dir, c⟩ : Move) ::
            (if r = home ∧ sq g (r + dir + dir) c = EMPTY then
              [(⟨r, c, r + dir + dir, c⟩ : Move)] else [])
        else [])) := by
  by_cases h : inBounds (r + dir) c = true
  · simp only [h, if_true, rd_eq h, Option.some_bind, true_and]
    by_cases he : sq g (r + dir) c = EMPTY
    · simp only [he, if_true]
      by_cases h1 : r = home
      · have hb : inBounds (r + dir + dir) c = true := inBounds_col _ h (hh h1)
        simp only [h1, if_true, true_and]
        rw [h1] at hb
        rw [rd_eq hb]
        by_cases he2 : sq g (home + dir + dir) c = EMPTY
        · simp [he2]
        · simp [he2]
      · simp [h1]
    · simp [he]
  · simp [h]

/-- One iteration of the capture loop of a pawn block. -/
theorem pawnDiag_eq (g : Grid) (ep r c dir epRow dc : Int) (enemy : Color) (acc : List Move) :
    (if (!inBounds (r + dir) (c + dc)) = true then some acc
      else (rd g (r + dir) (c + dc)).bind fun t =>
        some (if r = epRow ∧ c + dc = ep ∧ t = EMPTY then
            (if t ≠ EMPTY ∧ pieceColor t = enemy then acc ++ [(⟨r, c, r + dir, c + dc⟩ : Move)]
              else acc) ++ [⟨r, c, r + dir, c + dc⟩]
          else (if t ≠ EMPTY ∧ pieceColor t = enemy then acc ++ [(⟨r, c, r + dir, c + dc⟩ : Move)]
              else acc)))
      = some (acc ++
        (if inBounds (r + dir) (c + dc) = true then
          (if sq g (r + dir) (c + dc) ≠ EMPTY ∧ pieceColor (sq g (r + dir) (c + dc)) = enemy then
            [(⟨r, c, r + dir, c + dc⟩ : Move)] else [])
          ++ (if r = epRow ∧ c + dc = ep ∧ sq g (r + dir) (c + dc) = EMPTY then
            [(⟨r, c, r + dir, c + dc⟩ : Move)] else [])
        else [])) := by
  by_cases h : inBounds (r + dir) (c + dc) = true
  · simp only [h, Bool.not_true, Bool.false_eq_true, if_false, if_true, rd_eq h, Option.some_bind]
    generalize sq g (r + dir) (c + dc) = t
    by_cases h1 : t = EMPTY <;> by_cases h2 : r = epRow ∧ c + dc = ep <;>
      by_cases h3 : pieceColor t = enemy <;> simp [h1, h2, h3]
  · simp [h]

theorem whitePawnMoves_eq (b : Board) (r c : Int) (moves : List Move) :
    whitePawnMoves b r c moves
      = some (moves ++ pawnMoves b.squares b.enPassantCol r c 1 1 4 BLACK) := by
  unfold whitePawnMoves pawnMoves
  have e2 : r + 2 = r + 1 + 1 := by ring
  simp only [e2]
  rw [pawnForward_eq b.squares r c 1 1 moves (by omega)]
  simp only [Option.some_bind, isBlack, decide_eq_true_eq]
  rw [foldlM_append _ _ (fun acc dc => pawnDiag_eq b.squares b.enPassantCol r c 1 4 dc BLACK acc)]
  simp

theorem blackPawnMoves_eq (b : Board) (r c : Int) (moves : List Move) :
    blackPawnMoves b r c moves
      = some (moves ++ pawnMoves b.squares b.enPassantCol r c (-1) 6 3 WHITE) := by
  unfold blackPawnMoves pawnMoves
  have e1 : r - 1 = r + -1 := by ring
  have e2 : r - 2 = r + -1 + -1 := by ring
  simp only [e1, e2]
  rw [pawnForward_eq b.squares r c (-1) 6 moves (by omega)]
  simp only [Option.some_bind, isWhite, decide_eq_true_eq]
  rw [foldlM_append _ _ (fun acc dc => pawnDiag_eq b.squares b.enPassantCol r c (-1) 3 dc WHITE acc)]
  simp

theorem inBounds_of {r c : Int} (hr : 0 ≤ r ∧ r < 8) (hc : 0 ≤ c ∧ c < 8) :
    inBounds r c = true := (inBounds_iff r c).2 ⟨hr, hc⟩

theorem any_ne_eq_not_all (g : Grid) (row : Int) (empties : List Int) :
    empties.any (fun e => decide (sq g row e ≠ EMPTY))
      = !empties.all (fun e => decide (sq g row e = EMPTY)) := by
  induction empties with
  | nil => rfl
  | cons e es ih =>
    simp only [List.any_cons, List.all_cons, ih]
    by_cases h : sq g row e = EMPTY <;> simp [h]

theorem castleIf_eq (b : Board) (flag : Bool) (row : Int) (empties : List Int) (rookCol : Int)
    (rook : Piece) (c1 c2 : Int) (enemy : Color) (mv : Move) (moves : List Move)
    (hrow : 0 ≤ row ∧ row < 8) (he : ∀ e ∈ empties, 0 ≤ e ∧ e < 8)
    (hr : 0 ≤ rookCol ∧ rookCol < 8) :
    castleIf b flag row empties rookCol rook c1 c2 enemy mv moves
      = some (moves ++
          if castleOk b.squares flag row empties rookCol rook c1 c2 enemy = true then [mv]
          else []) := by
  unfold castleIf castleOk
  have hfirst : firstHit (fun e => (rd b.squares row e).bind fun t => some (decide (t ≠ EMPTY)))
      empties = some (empties.any (fun e => decide (sq b.squares row e ≠ EMPTY))) := by
    apply firstHit_eq
    intro e hmem
    rw [rd_eq (inBounds_of hrow (he e hmem))]
    rfl
  rw [hfirst, rd_eq (inBounds_of hrow hr), isSquareAttackedBy_eq, isSquareAttackedBy_eq,
    any_ne_eq_not_all]
  simp only [Option.some_bind]
  cases flag <;>
    cases empties.all (fun e => decide (sq b.squares row e = EMPTY)) <;>
    cases attacked b.squares row c1 enemy <;>
    cases attacked b.squares row c2 enemy <;>
    by_cases hq : sq b.squares row rookCol = rook <;> simp [hq]

theorem castlingMoves_eq (b : Board) (col : Color) (r c : Int) (moves : List Move) :
    castlingMoves b col r c moves = some (moves ++ castlingList b col r c) := by
  unfold castlingMoves castlingList
  simp only [isInCheck_eq, Option.some_bind]
  rw [castleIf_eq b b.castleWK 0 [5, 6] 7 W_ROOK 5 6 BLACK _ moves (by omega)
    (by intro e he; simp at he; omega) (by omega)]
  simp only [Option.some_bind]
  rw [castleIf_eq b b.castleWQ 0 [3, 2, 1] 0 W_ROOK 3 2 BLACK _ _ (by omega)
    (by intro e he; simp at he; omega) (by omega)]
  by_cases hw : col = WHITE ∧ r = 0 ∧ c = 4
  · have hb : ¬ (col = BLACK ∧ r = 7 ∧ c = 4) := by
      rintro ⟨h1, -, -⟩; rw [hw.1] at h1; cases h1
    cases hc : inCheck b.squares WHITE <;> simp [hw, hb, hc]
  · simp only [hw, if_false, Option.some_bind, false_and, List.nil_append]
    rw [castleIf_eq b b.castleBK 7 [5, 6] 7 B_ROOK 5 6 WHITE _ moves (by omega)
      (by intro e he; simp at he; omega) (by omega)]
    simp only [Option.some_bind]
    rw [castleIf_eq b b.castleBQ 7 [3, 2, 1] 0 B_ROOK 3 2 WHITE _ _ (by omega)
      (by intro e he; simp at he; omega) (by omega)]
    by_cases hb : col = BLACK ∧ r = 7 ∧ c = 4
    · cases hc : inCheck b.squares BLACK <;> simp [hb, hc]
    · simp [hb]

theorem generatePieceMoves_eq (b : Board) (r c : Int) (moves : List Move)
    (h : inBounds r c = true) :
    generatePieceMoves b r c moves = some (moves ++ pseudo b r c) := by
  unfold generatePieceMoves pseudo
  rw [rd_eq h]
  simp only [Option.some_bind]
  cases hp : sq b.squares r c <;>
    simp [pieceColor, Piece.code, whitePawnMoves_eq, blackPawnMoves_eq, stepAll_eq, slideAll_eq,
      castlingMoves_eq]

theorem generatePieceMoves_out (b : Board) (r c : Int) (moves : List Move)
    (h : inBounds r c = false) : generatePieceMoves b r c moves = none := by
  unfold generatePieceMoves
  rw [rd_none h]
  rfl

theorem ite_some {α : Type} (c : Prop) [Decidable c] (x y : α) :
    (if c then some x else some y) = some (if c then x else y) := by
  split <;> rfl

theorem applyMoveRaw_eq (b : Board) (m : Move) (hf : inBounds m.fromRow m.fromCol = true)
    (ht : inBounds m.toRow m.toCol = true) :
    applyMoveRaw b m = some { b with squares := applyGrid b.squares m } := by
  have hf2 := (inBounds_iff _ _).1 hf
  have ht2 := (inBounds_iff _ _).1 ht
  have h1 : inBounds m.fromRow m.toCol = true := inBounds_of hf2.1 ht2.2
  have h5 : inBounds m.fromRow 5 = true := inBounds_of hf2.1 (by omega)
  have h7 : inBounds m.fromRow 7 = true := inBounds_of hf2.1 (by omega)
  have h3 : inBounds m.fromRow 3 = true := inBounds_of hf2.1 (by omega)
  have h0 : inBounds m.fromRow 0 = true := inBounds_of hf2.1 (by omega)
  unfold applyMoveRaw applyGrid
  simp only [rd_eq hf, rd_eq ht, rd_eq h7, rd_eq h0, wr_eq _ hf, wr_eq _ ht, wr_eq _ h1,
    wr_eq _ h5, wr_eq _ h7, wr_eq _ h3, wr_eq _ h0, Option.some_bind, ite_some]
  congr 2
  by_cases ha : (sq b.squares m.fromRow m.fromCol = W_PAWN ∨ sq b.squares m.fromRow m.fromCol = B_PAWN) ∧ m.fromCol ≠ m.toCol
  · simp [ha]
  · simp [ha]

/-! ## Membership in the generated move lists -/

theorem mem_stepMove {g : Grid} {col : Color} {r c tr tc : Int} {m : Move} :
    m ∈ stepMove g col r c tr tc ↔
      inBounds tr tc = true ∧ ¬ (sq g tr tc ≠ EMPTY ∧ pieceColor (sq g tr tc) = col)
        ∧ m = ⟨r, c, tr, tc⟩ := by
  unfold stepMove
  split
  · rename_i h; simp [h.1, h.2]
  · rename_i h
    simp only [List.not_mem_nil, false_iff]
    rintro ⟨h1, h2, -⟩
    exact h ⟨h1, h2⟩

theorem mem_stepMoves {g : Grid} {col : Color} {r c : Int} {offs : List (Int × Int)} {m : Move} :
    m ∈ stepMoves g col r c offs ↔
      ∃ d ∈ offs, inBounds (r + d.1) (c + d.2) = true
        ∧ ¬ (sq g (r + d.1) (c + d.2) ≠ EMPTY ∧ pieceColor (sq g (r + d.1) (c + d.2)) = col)
        ∧ m = ⟨r, c, r + d.1, c + d.2⟩ := by
  unfold stepMoves
  simp only [List.mem_flatMap, mem_stepMove]

theorem clearFrom_self (g : Grid) (r c dr dc s : Int) : ClearFrom g r c dr dc s s := by
  intro j h1 h2; omega

theorem clearFrom_succ {g : Grid} {r c dr dc s k : Int} (hk : s < k) :
    ClearFrom g r c dr dc s k ↔
      (inBounds (r + dr * s) (c + dc * s) = true ∧ sq g (r + dr * s) (c + dc * s) = EMPTY)
        ∧ ClearFrom g r c dr dc (s + 1) k := by
  constructor
  · intro h
    exact ⟨h s (le_refl _) hk, fun j h1 h2 => h j (by omega) h2⟩
  · rintro ⟨h0, h⟩ j h1 h2
    by_cases e : j = s
    · subst e; exact h0
    · exact h j (by omega) h2

theorem mem_slideMoves {g : Grid} {col : Color} {r c dr dc : Int} {n : Nat} {s : Int} {m : Move} :
    m ∈ slideMoves g col r c dr dc n s ↔
      ∃ k : Int, s ≤ k ∧ k < s + n ∧ ClearFrom g r c dr dc s k
        ∧ inBounds (r + dr * k) (c + dc * k) = true
        ∧ (sq g (r + dr * k) (c + dc * k) = EMPTY
            ∨ pieceColor (sq g (r + dr * k) (c + dc * k)) ≠ col)
        ∧ m = ⟨r, c, r + dr * k, c + dc * k⟩ := by
  induction n generalizing s with
  | zero =>
    simp only [slideMoves, List.not_mem_nil, false_iff]
    rintro ⟨k, h1, h2, -⟩
    simp at h2; omega
  | succ n ih =>
    unfold slideMoves
    by_cases hb : inBounds (r + dr * s) (c + dc * s) = true
    · by_cases he : sq g (r + dr * s) (c + dc * s) = EMPTY
      · simp only [hb, he, Bool.not_true, Bool.false_eq_true, if_false, ne_eq, not_true_eq_false,
          List.mem_cons, ih]
        constructor
        · rintro (h | ⟨k, h1, h2, h3, h4, h5, h6⟩)
          · exact ⟨s, le_refl _, by push_cast; omega, clearFrom_self _ _ _ _ _ _, hb, Or.inl he, h⟩
          · exact ⟨k, by omega, by push_cast; omega,
              (clearFrom_succ (by omega)).2 ⟨⟨hb, he⟩, h3⟩, h4, h5, h6⟩
        · rintro ⟨k, h1, h2, h3, h4, h5, h6⟩
          by_cases e : k = s
          · subst e; exact Or.inl h6
          · right
            have hlt : s < k := by omega
            exact ⟨k, by omega, by push_cast at h2; omega,
              ((clearFrom_succ hlt).1 h3).2, h4, h5, h6⟩
      · simp only [hb, he, Bool.not_true, Bool.false_eq_true, if_false, ne_eq, not_false_eq_true,
          if_true]
        constructor
        · intro h
          by_cases hc : pieceColor (sq g (r + dr * s) (c + dc * s)) = col
          · simp [hc] at h
          · simp only [hc, not_false_eq_true, if_true, List.mem_singleton] at h
            exact ⟨s, le_refl _, by push_cast; omega, clearFrom_self _ _ _ _ _ _, hb, Or.inr hc, h⟩
        · rintro ⟨k, h1, h2, h3, h4, h5, h6⟩
          by_cases e : k = s
          · subst e
            rcases h5 with h5 | h5
            · exact absurd h5 he
            · simp [h5, h6]
          · exact absurd (h3 s (le_refl _) (by omega)).2 he
    · simp only [hb, Bool.not_false, if_true, List.not_mem_nil, false_iff]
      rintro ⟨k, h1, h2, h3, h4, h5, h6⟩
      by_cases e : k = s
      · subst e; exact hb h4
      · exact hb (h3 s (le_refl _) (by omega)).1

theorem mem_slidesMoves {g : Grid} {col : Color} {r c : Int} {dirs : List (Int × Int)}
    {m : Move} :
    m ∈ slidesMoves g col r c dirs ↔
      ∃ d ∈ dirs, ∃ k : Int, 1 ≤ k ∧ k < 8 ∧ ClearFrom g r c d.1 d.2 1 k
        ∧ inBounds (r + d.1 * k) (c + d.2 * k) = true
        ∧ (sq g (r + d.1 * k) (c + d.2 * k) = EMPTY
            ∨ pieceColor (sq g (r + d.1 * k) (c + d.2 * k)) ≠ col)
        ∧ m = ⟨r, c, r + d.1 * k, c + d.2 * k⟩ := by
  unfold slidesMoves
  simp only [List.mem_flatMap, mem_slideMoves]
  constructor
  · rintro ⟨d, hd, k, h1, h2, h⟩
    exact ⟨d, hd, k, h1, by push_cast at h2; omega, h⟩
  · rintro ⟨d, hd, k, h1, h2, h⟩
    exact ⟨d, hd, k, h1, by push_cast; omega, h⟩

theorem rayHit_iff {g : Grid} {r c dr dc : Int} {q1 q2 : Piece} {n : Nat} {s : Int}
    (h1 : q1 ≠ EMPTY) (h2 : q2 ≠ EMPTY) :
    rayHit g r c dr dc q1 q2 n s = true ↔
      ∃ k : Int, s ≤ k ∧ k < s + n ∧ ClearFrom g r c dr dc s k
        ∧ inBounds (r + dr * k) (c + dc * k) = true
        ∧ (sq g (r + dr * k) (c + dc * k) = q1 ∨ sq g (r + dr * k) (c + dc * k) = q2) := by
  induction n generalizing s with
  | zero =>
    simp only [rayHit, Bool.false_eq_true, false_iff]
    rintro ⟨k, h1, h2, -⟩
    simp at h2; omega
  | succ n ih =>
    unfold rayHit
    by_cases hb : inBounds (r + dr * s) (c + dc * s) = true
    · by_cases he : sq g (r + dr * s) (c + dc * s) = EMPTY
      · simp only [hb, he, Bool.not_true, Bool.false_eq_true, if_false, ne_eq, not_true_eq_false,
          ih]
        constructor
        · rintro ⟨k, k1, k2, k3, k4, k5⟩
          exact ⟨k, by omega, by push_cast; omega,
            (clearFrom_succ (by omega)).2 ⟨⟨hb, he⟩, k3⟩, k4, k5⟩
        · rintro ⟨k, k1, k2, k3, k4, k5⟩
          by_cases e : k = s
          · subst e
            rcases k5 with k5 | k5
            · exact absurd (he ▸ k5).symm h1
            · exact absurd (he ▸ k5).symm h2
          · have hlt : s < k := by omega
            exact ⟨k, by omega, by push_cast at k2; omega, ((clearFrom_succ hlt).1 k3).2, k4, k5⟩
      · simp only [hb, he, Bool.not_true, Bool.false_eq_true, if_false, ne_eq, not_false_eq_true,
          if_true, Bool.or_eq_true, decide_eq_true_eq]
        constructor
        · intro h
          exact ⟨s, le_refl _, by push_cast; omega, clearFrom_self _ _ _ _ _ _, hb, h⟩
        · rintro ⟨k, k1, k2, k3, k4, k5⟩
          by_cases e : k = s
          · subst e; exact k5
          · exact absurd (k3 s (le_refl _) (by omega)).2 he
    · simp only [hb, Bool.not_false, if_true, Bool.false_eq_true, false_iff]
      rintro ⟨k, k1, k2, k3, k4, k5⟩
      by_cases e : k = s
      · subst e; exact hb k4
      · exact hb (k3 s (le_refl _) (by omega)).1

theorem mem_pawnMoves {g : Grid} {ep r c dir home epRow : Int} {enemy : Color} {m : Move} :
    m ∈ pawnMoves g ep r c dir home epRow enemy ↔
      (inBounds (r + dir) c = true ∧ sq g (r + dir) c = EMPTY ∧ m = ⟨r, c, r + dir, c⟩)
      ∨ (inBounds (r + dir) c = true ∧ sq g (r + dir) c = EMPTY ∧ r = home
          ∧ sq g (r + dir + dir) c = EMPTY ∧ m = ⟨r, c, r + dir + dir, c⟩)
      ∨ (∃ dc : Int, (dc = -1 ∨ dc = 1) ∧ inBounds (r + dir) (c + dc) = true
          ∧ ((sq g (r + dir) (c + dc) ≠ EMPTY ∧ pieceColor (sq g (r + dir) (c + dc)) = enemy)
              ∨ (r = epRow ∧ c + dc = ep ∧ sq g (r + dir) (c + dc) = EMPTY))
          ∧ m = ⟨r, c, r + dir, c + dc⟩) := by
  unfold pawnMoves
  rw [List.mem_append]
  have hfwd : (m ∈ (if inBounds (r + dir) c = true ∧ sq g (r + dir) c = EMPTY then
        (⟨r, c, r + dir, c⟩ : Move) ::
          (if r = home ∧ sq g (r + dir + dir) c = EMPTY then
            [(⟨r, c, r + dir + dir, c⟩ : Move)] else [])
        else [])) ↔
      ((inBounds (r + dir) c = true ∧ sq g (r + dir) c = EMPTY ∧ m = ⟨r, c, r + dir, c⟩)
      ∨ (inBounds (r + dir) c = true ∧ sq g (r + dir) c = EMPTY ∧ r = home
          ∧ sq g (r + dir + dir) c = EMPTY ∧ m = ⟨r, c, r + dir + dir, c⟩)) := by
    by_cases h : inBounds (r + dir) c = true ∧ sq g (r + dir) c = EMPTY
    · by_cases h2 : r = home ∧ sq g (r + dir + dir) c = EMPTY
      · rw [if_pos h, if_pos h2]
        simp only [List.mem_cons, List.mem_singleton, List.not_mem_nil, or_false]
        constructor
        · rintro (hm | hm)
          · exact Or.inl ⟨h.1, h.2, hm⟩
          · exact Or.inr ⟨h.1, h.2, h2.1, h2.2, hm⟩
        · rintro (⟨-, -, hm⟩ | ⟨-, -, -, -, hm⟩)
          · exact Or.inl hm
          · exact Or.inr hm
      · rw [if_pos h, if_neg h2]
        simp only [List.mem_cons, List.not_mem_nil, or_false]
        constructor
        · intro hm; exact Or.inl ⟨h.1, h.2, hm⟩
        · rintro (⟨-, -, hm⟩ | ⟨-, -, h3, h4, -⟩)
          · exact hm
          · exact absurd ⟨h3, h4⟩ h2
    · rw [if_neg h]
      simp only [List.not_mem_nil, false_iff]
      rintro (⟨h1, h2, -⟩ | ⟨h1, h2, -⟩) <;> exact h ⟨h1, h2⟩
  have hdiag : ∀ dc : Int, (m ∈ (if inBounds (r + dir) (c + dc) = true then
        (if sq g (r + dir) (c + dc) ≠ EMPTY ∧ pieceColor (sq g (r + dir) (c + dc)) = enemy then
          [(⟨r, c, r + dir, c + dc⟩ : Move)] else [])
        ++ (if r = epRow ∧ c + dc = ep ∧ sq g (r + dir) (c + dc) = EMPTY then
          [(⟨r, c, r + dir, c + dc⟩ : Move)] else [])
        else [])) ↔
      (inBounds (r + dir) (c + dc) = true
          ∧ ((sq g (r + dir) (c + dc) ≠ EMPTY ∧ pieceColor (sq g (r + dir) (c + dc)) = enemy)
              ∨ (r = epRow ∧ c + dc = ep ∧ sq g (r + dir) (c + dc) = EMPTY))
          ∧ m = ⟨r, c, r + dir, c + dc⟩) := by
    intro dc
    by_cases hb : inBounds (r + dir) (c + dc) = true
    · rw [if_pos hb]
      simp only [List.mem_append, hb, true_and]
      by_cases h1 : sq g (r + dir) (c + dc) ≠ EMPTY ∧ pieceColor (sq g (r + dir) (c + dc)) = enemy
      · by_cases h2 : r = epRow ∧ c + dc = ep ∧ sq g (r + dir) (c + dc) = EMPTY
        · exact absurd h2.2.2 h1.1
        · simp only [if_pos h1, if_neg h2, List.mem_singleton, List.not_mem_nil, or_false]
          constructor
          · intro hm; exact ⟨Or.inl h1, hm⟩
          · intro hm; exact hm.2
      · by_cases h2 : r = epRow ∧ c + dc = ep ∧ sq g (r + dir) (c + dc) = EMPTY
        · simp only [if_neg h1, if_pos h2, List.mem_singleton, List.not_mem_nil, false_or]
          constructor
          · intro hm; exact ⟨Or.inr h2, hm⟩
          · intro hm; exact hm.2
        · simp only [if_neg h1, if_neg h2, List.not_mem_nil, or_false, false_iff]
          rintro ⟨h3 | h3, -⟩
          · exact h1 h3
          · exact h2 h3
    · rw [if_neg hb]
      simp only [List.not_mem_nil, false_iff]
      rintro ⟨h, -⟩; exact hb h
  rw [hfwd]
  simp only [List.mem_flatMap, List.mem_cons, List.mem_singleton, List.not_mem_nil, or_false,
    hdiag]
  constructor
  · rintro (h | ⟨dc, hdc, h⟩)
    · rcases h with h | h
      · exact Or.inl h
      · exact Or.inr (Or.inl h)
    · exact Or.inr (Or.inr ⟨dc, hdc, h⟩)
  · rintro (h | h | ⟨dc, hdc, h⟩)
    · exact Or.inl (Or.inl h)
    · exact Or.inl (Or.inr h)
    · exact Or.inr ⟨dc, hdc, h⟩

theorem mem_castlingList {b : Board} {col : Color} {r c : Int} {m : Move} :
    m ∈ castlingList b col r c ↔
      ((col = WHITE ∧ r = 0 ∧ c = 4) ∧ inCheck b.squares WHITE = false
        ∧ ((castleOk b.squares b.castleWK 0 [5, 6] 7 W_ROOK 5 6 BLACK = true ∧ m = ⟨0, 4, 0, 6⟩)
          ∨ (castleOk b.squares b.castleWQ 0 [3, 2, 1] 0 W_ROOK 3 2 BLACK = true
              ∧ m = ⟨0, 4, 0, 2⟩)))
      ∨ ((col = BLACK ∧ r = 7 ∧ c = 4) ∧ inCheck b.squares BLACK = false
        ∧ ((castleOk b.squares b.castleBK 7 [5, 6] 7 B_ROOK 5 6 WHITE = true ∧ m = ⟨7, 4, 7, 6⟩)
          ∨ (castleOk b.squares b.castleBQ 7 [3, 2, 1] 0 B_ROOK 3 2 WHITE = true
              ∧ m = ⟨7, 4, 7, 2⟩))) := by
  have key : ∀ (P : Prop) [Decidable P] (k1 k2 : Bool) (m1 m2 : Move),
      (m ∈ (if P then (if k1 = true then [m1] else []) ++ (if k2 = true then [m2] else [])
        else [])) ↔ (P ∧ ((k1 = true ∧ m = m1) ∨ (k2 = true ∧ m = m2))) := by
    intro P _ k1 k2 m1 m2
    by_cases hP : P <;> cases k1 <;> cases k2 <;> simp [hP]
  unfold castlingList
  rw [List.mem_append, key, key]
  simp only [and_assoc]

theorem castleOk_iff {g : Grid} {flag : Bool} {row : Int} {empties : List Int} {rookCol : Int}
    {rook : Piece} {c1 c2 : Int} {enemy : Color} :
    castleOk g flag row empties rookCol rook c1 c2 enemy = true ↔
      flag = true ∧ (∀ e ∈ empties, sq g row e = EMPTY) ∧ sq g row rookCol = rook
        ∧ attacked g row c1 enemy = false ∧ attacked g row c2 enemy = false := by
  unfold castleOk
  simp [and_assoc]

theorem pieceColor_ne_none_iff {p : Piece} : pieceColor p ≠ NONE ↔ p ≠ EMPTY := by
  cases p <;> simp [pieceColor, Piece.code]

/-- Every generated move starts on the square asked for and ends inside the grid. -/
theorem pseudo_inBounds {b : Board} {r c : Int} {m : Move} (hb : inBounds r c = true)
    (hm : m ∈ pseudo b r c) :
    m.fromRow = r ∧ m.fromCol = c ∧ inBounds m.toRow m.toCol = true := by
  have hb2 := (inBounds_iff r c).1 hb
  have step : ∀ col offs, m ∈ stepMoves b.squares col r c offs →
      m.fromRow = r ∧ m.fromCol = c ∧ inBounds m.toRow m.toCol = true := by
    intro col offs h
    obtain ⟨d, -, h1, -, rfl⟩ := mem_stepMoves.1 h
    exact ⟨rfl, rfl, h1⟩
  have slide : ∀ col dirs, m ∈ slidesMoves b.squares col r c dirs →
      m.fromRow = r ∧ m.fromCol = c ∧ inBounds m.toRow m.toCol = true := by
    intro col dirs h
    obtain ⟨d, -, k, -, -, -, h1, -, rfl⟩ := mem_slidesMoves.1 h
    exact ⟨rfl, rfl, h1⟩
  have pawn : ∀ dir home epRow enemy, (home = 1 ∧ dir = 1 ∨ home = 6 ∧ dir = -1) →
      m ∈ pawnMoves b.squares b.enPassantCol r c dir home epRow enemy →
      m.fromRow = r ∧ m.fromCol = c ∧ inBounds m.toRow m.toCol = true := by
    intro dir home epRow enemy hd h
    rcases mem_pawnMoves.1 h with ⟨h1, -, rfl⟩ | ⟨h1, -, h2, -, rfl⟩ | ⟨dc, -, h1, -, rfl⟩
    · exact ⟨rfl, rfl, h1⟩
    · refine ⟨rfl, rfl, ?_⟩
      show inBounds (r + dir + dir) c = true
      exact inBounds_col _ h1 (by omega)
    · exact ⟨rfl, rfl, h1⟩
  have castle : ∀ col, m ∈ castlingList b col r c →
      m.fromRow = r ∧ m.fromCol = c ∧ inBounds m.toRow m.toCol = true := by
    intro col h
    rcases mem_castlingList.1 h with ⟨⟨-, hr, hc⟩, -, h2⟩ | ⟨⟨-, hr, hc⟩, -, h2⟩
    · rcases h2 with ⟨-, rfl⟩ | ⟨-, rfl⟩ <;> exact ⟨hr.symm, hc.symm, by decide⟩
    · rcases h2 with ⟨-, rfl⟩ | ⟨-, rfl⟩ <;> exact ⟨hr.symm, hc.symm, by decide⟩
  unfold pseudo at hm
  split at hm
  · exact pawn _ _ _ _ (Or.inl ⟨rfl, rfl⟩) hm
  · exact pawn _ _ _ _ (Or.inr ⟨rfl, rfl⟩) hm
  · exact step _ _ hm
  · exact step _ _ hm
  · exact slide _ _ hm
  · exact slide _ _ hm
  · exact slide _ _ hm
  · exact slide _ _ hm
  · exact slide _ _ hm
  · exact slide _ _ hm
  · rcases List.mem_append.1 hm with h | h
    · exact step _ _ h
    · exact castle _ h
  · rcases List.mem_append.1 hm with h | h
    · exact step _ _ h
    · exact castle _ h
  · cases hm

theorem legalLoop_eq (b : Board) (col : Color) (ms : List Move) (acc : List Move)
    (h : ∀ m ∈ ms, inBounds m.fromRow m.fromCol = true ∧ inBounds m.toRow m.toCol = true) :
    legalLoop b col ms acc
      = some (acc ++ ms.filter fun m => !inCheck (applyGrid b.squares m) col) := by
  induction ms generalizing acc with
  | nil => simp [legalLoop]
  | cons m ms ih =>
    have hm := h m (List.mem_cons_self _ _)
    unfold legalLoop
    rw [applyMoveRaw_eq b m hm.1 hm.2]
    simp only [Option.some_bind, isInCheck_eq]
    rw [ih _ (fun x hx => h x (List.mem_cons_of_mem _ hx))]
    cases hc : inCheck (applyGrid b.squares m) col <;> simp [List.filter_cons, hc]

theorem getLegalMoves_eq (b : Board) (r c : Int) (h : inBounds r c = true) :
    getLegalMoves b r c = some (legal b r c) := by
  unfold getLegalMoves legal
  rw [generatePieceMoves_eq b r c [] h, rd_eq h]
  simp only [Option.some_bind, List.nil_append]
  rw [legalLoop_eq]
  · simp
  · intro m hm
    obtain ⟨h1, h2, h3⟩ := pseudo_inBounds h hm
    rw [h1, h2]
    exact ⟨h, h3⟩

theorem getLegalMoves_out (b : Board) (r c : Int) (h : inBounds r c = false) :
    getLegalMoves b r c = none := by
  unfold getLegalMoves
  rw [generatePieceMoves_out b r c [] h]
  rfl

theorem getAllLegalMoves_eq (b : Board) : getAllLegalMoves b = some (allLegal b) := by
  have h : ∀ (acc : List Move) (s : Fin 8 × Fin 8),
      (if pieceColor (b.squares s.1 s.2) = b.sideToMove then
        (getLegalMoves b (s.1.val : Int) (s.2.val : Int)).bind fun moves => some (acc ++ moves)
      else some acc)
      = some (acc ++ (if pieceColor (b.squares s.1 s.2) = b.sideToMove then
          legal b (s.1.val : Int) (s.2.val : Int) else [])) := by
    intro acc s
    rw [getLegalMoves_eq b _ _ (inBounds_cast s.1 s.2)]
    split <;> simp
  have key := foldlM_append _ _ h allSquares []
  rw [List.nil_append] at key
  exact key

theorem makeMove_eq (b : Board) (m : Move) (hf : inBounds m.fromRow m.fromCol = true)
    (ht : inBounds m.toRow m.toCol = true) : makeMove b m = some (afterMove b m) := by
  unfold makeMove
  rw [rd_eq hf, applyMoveRaw_eq b m hf ht]
  simp only [Option.some_bind, getAllLegalMoves_eq, isInCheck_eq]
  rw [ite_some]
  rfl

/-! ## Attack detection against move generation -/

theorem occupiedBy_iff {g : Grid} {r c : Int} {q : Piece} :
    occupiedBy g r c q = true ↔ inBounds r c = true ∧ sq g r c = q := by
  simp [occupiedBy]

theorem attacked_iff {g : Grid} {r c : Int} {a : Color} :
    attacked g r c a = true ↔
      (∃ d ∈ knightOffsets, inBounds (r + d.1) (c + d.2) = true
          ∧ sq g (r + d.1) (c + d.2) = (if a = WHITE then W_KNIGHT else B_KNIGHT))
      ∨ (∃ dc : Int, (dc = -1 ∨ dc = 1)
          ∧ inBounds (r + (if a = WHITE then -1 else 1)) (c + dc) = true
          ∧ sq g (r + (if a = WHITE then -1 else 1)) (c + dc)
              = (if a = WHITE then W_PAWN else B_PAWN))
      ∨ (∃ d ∈ kingOffsets, inBounds (r + d.1) (c + d.2) = true
          ∧ sq g (r + d.1) (c + d.2) = (if a = WHITE then W_KING else B_KING))
      ∨ (∃ d ∈ straightDirs, rayHit g r c d.1 d.2 (if a = WHITE then W_ROOK else B_ROOK)
          (if a = WHITE then W_QUEEN else B_QUEEN) 7 1 = true)
      ∨ (∃ d ∈ diagDirs, rayHit g r c d.1 d.2 (if a = WHITE then W_BISHOP else B_BISHOP)
          (if a = WHITE then W_QUEEN else B_QUEEN) 7 1 = true) := by
  unfold attacked
  simp only [Bool.or_eq_true, List.any_eq_true, occupiedBy_iff, List.mem_cons,
    List.mem_singleton, List.not_mem_nil, or_false, or_assoc]

theorem clearFrom_reverse {g : Grid} {r c dr dc k : Int} (h : ClearFrom g r c dr dc 1 k) :
    ClearFrom g (r + dr * k) (c + dc * k) (-dr) (-dc) 1 k := by
  intro j h1 h2
  have h3 := h (k - j) (by omega) (by omega)
  have e1 : r + dr * k + -dr * j = r + dr * (k - j) := by ring
  have e2 : c + dc * k + -dc * j = c + dc * (k - j) := by ring
  rw [e1, e2]
  exact h3

theorem reverse_back (r dr k : Int) : r + dr * k + -dr * k = r := by ring

/-- A ray scan from `(r, c)` that ends on a piece `q` at distance `k` is a
sliding move of that piece back onto `(r, c)`. -/
theorem slide_of_ray {g : Grid} {col : Color} {r c : Int} {d : Int × Int} {k : Int}
    {dirs : List (Int × Int)} (hd : ((-d.1, -d.2) : Int × Int) ∈ dirs)
    (hk1 : 1 ≤ k) (hk2 : k < 8) (hclear : ClearFrom g r c d.1 d.2 1 k)
    (hb : inBounds r c = true) (hcol : pieceColor (sq g r c) ≠ col) :
    (⟨r + d.1 * k, c + d.2 * k, r, c⟩ : Move)
      ∈ slidesMoves g col (r + d.1 * k) (c + d.2 * k) dirs := by
  rw [mem_slidesMoves]
  refine ⟨(-d.1, -d.2), hd, k, hk1, hk2, clearFrom_reverse hclear, ?_, ?_, ?_⟩
  · simp only [reverse_back]; exact hb
  · simp only [reverse_back]; exact Or.inr hcol
  · simp only [reverse_back]

/-- A sliding move onto an occupied square `(r, c)` is found by the ray scan
from `(r, c)` in the opposite direction. -/
theorem ray_of_slide {g : Grid} {r0 c0 : Int} {d : Int × Int} {k : Int} (q1 q2 : Piece)
    (h1 : q1 ≠ EMPTY) (h2 : q2 ≠ EMPTY)
    (hk1 : 1 ≤ k) (hk2 : k < 8) (hclear : ClearFrom g r0 c0 d.1 d.2 1 k)
    (hb : inBounds r0 c0 = true) (hq : sq g r0 c0 = q1 ∨ sq g r0 c0 = q2) :
    rayHit g (r0 + d.1 * k) (c0 + d.2 * k) (-d.1) (-d.2) q1 q2 7 1 = true := by
  rw [rayHit_iff h1 h2]
  refine ⟨k, hk1, by push_cast; omega, clearFrom_reverse hclear, ?_, ?_⟩
  · simp only [reverse_back]; exact hb
  · simp only [reverse_back]; exact hq

theorem neg_mem_knightOffsets : ∀ d ∈ knightOffsets, ((-d.1, -d.2) : Int × Int) ∈ knightOffsets := by
  decide

theorem neg_mem_kingOffsets : ∀ d ∈ kingOffsets, ((-d.1, -d.2) : Int × Int) ∈ kingOffsets := by
  decide

theorem neg_straight_rook : ∀ d ∈ straightDirs, ((-d.1, -d.2) : Int × Int) ∈ rookDirs := by
  decide

theorem neg_straight_queen : ∀ d ∈ straightDirs, ((-d.1, -d.2) : Int × Int) ∈ queenDirs := by
  decide

theorem neg_diag_bishop : ∀ d ∈ diagDirs, ((-d.1, -d.2) : Int × Int) ∈ bishopDirs := by
  decide

theorem neg_diag_queen : ∀ d ∈ diagDirs, ((-d.1, -d.2) : Int × Int) ∈ queenDirs := by
  decide

theorem neg_rook_straight : ∀ d ∈ rookDirs, ((-d.1, -d.2) : Int × Int) ∈ straightDirs := by
  decide

theorem neg_bishop_diag : ∀ d ∈ bishopDirs, ((-d.1, -d.2) : Int × Int) ∈ diagDirs := by
  decide

theorem neg_queen_dirs : ∀ d ∈ queenDirs,
    ((-d.1, -d.2) : Int × Int) ∈ straightDirs ∨ ((-d.1, -d.2) : Int × Int) ∈ diagDirs := by
  decide

theorem back_of_step {g : Grid} {col : Color} {r0 c0 : Int} {offs : List (Int × Int)}
    {m : Move} (hm : m ∈ stepMoves g col r0 c0 offs) (hb : inBounds r0 c0 = true) :
    ∃ d ∈ offs, inBounds (m.toRow + -d.1) (m.toCol + -d.2) = true
      ∧ sq g (m.toRow + -d.1) (m.toCol + -d.2) = sq g r0 c0 := by
  obtain ⟨d, hd, -, -, rfl⟩ := mem_stepMoves.1 hm
  refine ⟨d, hd, ?_, ?_⟩
  · have e1 : r0 + d.1 + -d.1 = r0 := by ring
    have e2 : c0 + d.2 + -d.2 = c0 := by ring
    simp only [e1, e2]; exact hb
  · have e1 : r0 + d.1 + -d.1 = r0 := by ring
    have e2 : c0 + d.2 + -d.2 = c0 := by ring
    simp only [e1, e2]

theorem back_of_slide {g : Grid} {col : Color} {r0 c0 : Int} {dirs : List (Int × Int)}
    {m : Move} (q1 q2 : Piece) (hm : m ∈ slidesMoves g col r0 c0 dirs)
    (hb : inBounds r0 c0 = true) (h1 : q1 ≠ EMPTY) (h2 : q2 ≠ EMPTY)
    (hq : sq g r0 c0 = q1 ∨ sq g r0 c0 = q2) :
    ∃ d ∈ dirs, rayHit g m.toRow m.toCol (-d.1) (-d.2) q1 q2 7 1 = true := by
  obtain ⟨d, hd, k, hk1, hk2, hclear, -, -, rfl⟩ := mem_slidesMoves.1 hm
  exact ⟨d, hd, ray_of_slide q1 q2 h1 h2 hk1 hk2 hclear hb hq⟩

theorem pieceColor_empty : pieceColor EMPTY = NONE := rfl

/-- A pawn move onto an occupied square is a diagonal capture. -/
theorem back_of_pawn {g : Grid} {ep r0 c0 dir home epRow : Int} {enemy : Color} {m : Move}
    (hm : m ∈ pawnMoves g ep r0 c0 dir home epRow enemy)
    (ht : sq g m.toRow m.toCol ≠ EMPTY) :
    ∃ dc : Int, (dc = -1 ∨ dc = 1) ∧ m.toRow + -dir = r0 ∧ m.toCol + dc = c0
      ∧ pieceColor (sq g m.toRow m.toCol) = enemy := by
  rcases mem_pawnMoves.1 hm with ⟨-, h, rfl⟩ | ⟨-, -, -, h, rfl⟩ | ⟨dc, hdc, -, h, rfl⟩
  · exact absurd h ht
  · exact absurd h ht
  · rcases h with ⟨-, h⟩ | ⟨-, -, h⟩
    · refine ⟨-dc, ?_, ?_, ?_, h⟩
      · rcases hdc with rfl | rfl <;> simp
      · show r0 + dir + -dir = r0; ring
      · show c0 + dc + -dc = c0; ring
    · exact absurd h ht

theorem castling_target_empty {b : Board} {col : Color} {r c : Int} {m : Move}
    (hm : m ∈ castlingList b col r c) : sq b.squares m.toRow m.toCol = EMPTY := by
  rcases mem_castlingList.1 hm with ⟨-, -, h⟩ | ⟨-, -, h⟩
  · rcases h with ⟨h, rfl⟩ | ⟨h, rfl⟩
    · exact (castleOk_iff.1 h).2.1 6 (by simp)
    · exact (castleOk_iff.1 h).2.1 2 (by simp)
  · rcases h with ⟨h, rfl⟩ | ⟨h, rfl⟩
    · exact (castleOk_iff.1 h).2.1 6 (by simp)
    · exact (castleOk_iff.1 h).2.1 2 (by simp)

/-- A generated move onto an occupied square is seen by the attack detection
for the colour of the moving piece. -/
theorem attacked_of_pseudo {b : Board} {r0 c0 : Int} {m : Move} (hb : inBounds r0 c0 = true)
    (hm : m ∈ pseudo b r0 c0) (ht : sq b.squares m.toRow m.toCol ≠ EMPTY) :
    attacked b.squares m.toRow m.toCol (pieceColor (sq b.squares r0 c0)) = true := by
  rw [attacked_iff]
  have hstep : ∀ col offs K, m ∈ stepMoves b.squares col r0 c0 offs → sq b.squares r0 c0 = K →
      (∀ d ∈ offs, ((-d.1, -d.2) : Int × Int) ∈ offs) →
      ∃ d ∈ offs, inBounds (m.toRow + d.1) (m.toCol + d.2) = true
        ∧ sq b.squares (m.toRow + d.1) (m.toCol + d.2) = K := by
    intro col offs K h hK hneg
    obtain ⟨d, hd, h1, h2⟩ := back_of_step h hb
    exact ⟨(-d.1, -d.2), hneg d hd, h1, h2.trans hK⟩
  unfold pseudo at hm
  split at hm <;> rename_i hq
  · -- white pawn
    obtain ⟨dc, hdc, h1, h2, -⟩ := back_of_pawn hm ht
    right; left
    refine ⟨dc, hdc, ?_⟩
    simp only [hq, pieceColor, Piece.code]
    simp only [show ((1:ℕ) ≥ 1 ∧ (1:ℕ) ≤ 6) by omega, if_true, h1, h2, hb, hq, and_self]
  · -- black pawn
    obtain ⟨dc, hdc, h1, h2, -⟩ := back_of_pawn hm ht
    right; left
    refine ⟨dc, hdc, ?_⟩
    have h1b : m.toRow + 1 = r0 := by simpa using h1
    simp [hq, pieceColor, Piece.code, h1b, h2, hb]
  · left
    simpa [hq, pieceColor, Piece.code] using hstep _ _ _ hm hq neg_mem_knightOffsets
  · left
    simpa [hq, pieceColor, Piece.code] using hstep _ _ _ hm hq neg_mem_knightOffsets
  · right; right; right; right
    obtain ⟨d, hd, h⟩ := back_of_slide W_BISHOP W_QUEEN hm hb (by decide)
      (by decide) (Or.inl hq)
    exact ⟨(-d.1, -d.2), neg_bishop_diag d hd, by simpa [hq, pieceColor, Piece.code] using h⟩
  · right; right; right; right
    obtain ⟨d, hd, h⟩ := back_of_slide B_BISHOP B_QUEEN hm hb (by decide)
      (by decide) (Or.inl hq)
    exact ⟨(-d.1, -d.2), neg_bishop_diag d hd, by simpa [hq, pieceColor, Piece.code] using h⟩
  · right; right; right; left
    obtain ⟨d, hd, h⟩ := back_of_slide W_ROOK W_QUEEN hm hb (by decide)
      (by decide) (Or.inl hq)
    exact ⟨(-d.1, -d.2), neg_rook_straight d hd, by simpa [hq, pieceColor, Piece.code] using h⟩
  · right; right; right; left
    obtain ⟨d, hd, h⟩ := back_of_slide B_ROOK B_QUEEN hm hb (by decide)
      (by decide) (Or.inl hq)
    exact ⟨(-d.1, -d.2), neg_rook_straight d hd, by simpa [hq, pieceColor, Piece.code] using h⟩
  · obtain ⟨d, hd, k, hk1, hk2, hclear, -, -, rfl⟩ := mem_slidesMoves.1 hm
    have key := ray_of_slide (d := d) W_ROOK W_QUEEN (by decide) (by decide)
      hk1 hk2 hclear hb (Or.inr hq)
    have key2 := ray_of_slide (d := d) W_BISHOP W_QUEEN (by decide) (by decide)
      hk1 hk2 hclear hb (Or.inr hq)
    rcases neg_queen_dirs d hd with hs | hs
    · right; right; right; left
      exact ⟨(-d.1, -d.2), hs, by simpa [hq, pieceColor, Piece.code] using key⟩
    · right; right; right; right
      exact ⟨(-d.1, -d.2), hs, by simpa [hq, pieceColor, Piece.code] using key2⟩
  · obtain ⟨d, hd, k, hk1, hk2, hclear, -, -, rfl⟩ := mem_slidesMoves.1 hm
    have key := ray_of_slide (d := d) B_ROOK B_QUEEN (by decide) (by decide)
      hk1 hk2 hclear hb (Or.inr hq)
    have key2 := ray_of_slide (d := d) B_BISHOP B_QUEEN (by decide) (by decide)
      hk1 hk2 hclear hb (Or.inr hq)
    rcases neg_queen_dirs d hd with hs | hs
    · right; right; right; left
      exact ⟨(-d.1, -d.2), hs, by simpa [hq, pieceColor, Piece.code] using key⟩
    · right; right; right; right
      exact ⟨(-d.1, -d.2), hs, by simpa [hq, pieceColor, Piece.code] using key2⟩
  · rcases List.mem_append.1 hm with h | h
    · right; right; left
      simpa [hq, pieceColor, Piece.code] using hstep _ _ _ h hq neg_mem_kingOffsets
    · exact absurd (castling_target_empty h) ht
  · rcases List.mem_append.1 hm with h | h
    · right; right; left
      simpa [hq, pieceColor, Piece.code] using hstep _ _ _ h hq neg_mem_kingOffsets
    · exact absurd (castling_target_empty h) ht
  · cases hm

theorem step_of_back {g : Grid} {col : Color} {r c : Int} {d : Int × Int}
    {offs : List (Int × Int)} (hd : ((-d.1, -d.2) : Int × Int) ∈ offs)
    (hb : inBounds r c = true)
    (hne : ¬ (sq g r c ≠ EMPTY ∧ pieceColor (sq g r c) = col)) :
    (⟨r + d.1, c + d.2, r, c⟩ : Move) ∈ stepMoves g col (r + d.1) (c + d.2) offs := by
  rw [mem_stepMoves]
  have e1 : r + d.1 + -d.1 = r := by ring
  have e2 : c + d.2 + -d.2 = c := by ring
  refine ⟨(-d.1, -d.2), hd, ?_, ?_, ?_⟩
  · simp only [e1, e2]; exact hb
  · simp only [e1, e2]; exact hne
  · simp only [e1, e2]

theorem pawn_of_back {g : Grid} {ep r c dir home epRow dc : Int} {enemy : Color}
    (hdc : dc = -1 ∨ dc = 1) (hb : inBounds r c = true) (ht : sq g r c ≠ EMPTY)
    (hcol : pieceColor (sq g r c) = enemy) :
    (⟨r + -dir, c + dc, r, c⟩ : Move) ∈ pawnMoves g ep (r + -dir) (c + dc) dir home epRow enemy := by
  rw [mem_pawnMoves]
  right; right
  have e1 : r + -dir + dir = r := by ring
  have e2 : c + dc + -dc = c := by ring
  refine ⟨-dc, ?_, ?_, ?_, ?_⟩
  · rcases hdc with rfl | rfl <;> simp
  · simp only [e1, e2]; exact hb
  · simp only [e1, e2]; exact Or.inl ⟨ht, hcol⟩
  · simp only [e1, e2]

theorem color_cases (p : Piece) :
    p = EMPTY ∨ pieceColor p = WHITE ∨ pieceColor p = BLACK := by
  cases p <;> simp [pieceColor, Piece.code]

/-- An attack that the detection reports on an occupied square of the other
colour is a generated move of an attacker-coloured piece onto that square. -/
theorem pseudo_of_attacked {b : Board} {r c : Int} {a : Color} (ha : a = WHITE ∨ a = BLACK)
    (hb : inBounds r c = true) (ht : sq b.squares r c ≠ EMPTY)
    (hne : pieceColor (sq b.squares r c) ≠ a) (h : attacked b.squares r c a = true) :
    ∃ r0 c0 : Int, inBounds r0 c0 = true ∧ pieceColor (sq b.squares r0 c0) = a
      ∧ (⟨r0, c0, r, c⟩ : Move) ∈ pseudo b r0 c0 := by
  have hne2 : ¬ (sq b.squares r c ≠ EMPTY ∧ pieceColor (sq b.squares r c) = a) :=
    fun h => hne h.2
  have slide : ∀ (d : Int × Int) (dirs : List (Int × Int)) (k : Int),
      ((-d.1, -d.2) : Int × Int) ∈ dirs → 1 ≤ k → k < 8 → ClearFrom b.squares r c d.1 d.2 1 k →
      (⟨r + d.1 * k, c + d.2 * k, r, c⟩ : Move)
        ∈ slidesMoves b.squares a (r + d.1 * k) (c + d.2 * k) dirs :=
    fun d dirs k hd hk1 hk2 hclear => slide_of_ray hd hk1 hk2 hclear hb hne
  rcases attacked_iff.1 h with ⟨d, hd, h1, h2⟩ | ⟨dc, hdc, h1, h2⟩ | ⟨d, hd, h1, h2⟩
    | ⟨d, hd, h1⟩ | ⟨d, hd, h1⟩
  · -- a knight
    refine ⟨r + d.1, c + d.2, h1, ?_, ?_⟩
    · rcases ha with rfl | rfl <;> simp at h2 <;> simp [h2, pieceColor, Piece.code]
    · have hmem := @step_of_back b.squares a r c d _ (neg_mem_knightOffsets d hd) hb hne2
      rcases ha with rfl | rfl <;> simp at h2 <;> simp only [pseudo, h2] <;> exact hmem
  · -- a pawn
    rcases ha with rfl | rfl
    · simp only [if_true] at h1 h2
      refine ⟨r + -1, c + dc, h1, by simp [h2, pieceColor, Piece.code], ?_⟩
      have hcol : pieceColor (sq b.squares r c) = BLACK := by
        rcases color_cases (sq b.squares r c) with h | h | h
        · exact absurd h ht
        · exact absurd h hne
        · exact h
      have hmem := @pawn_of_back b.squares b.enPassantCol r c 1 1 4 dc BLACK hdc hb ht hcol
      simp only [pseudo, h2]
      exact hmem
    · simp only [show ¬ (BLACK = WHITE) by decide, if_false] at h1 h2
      refine ⟨r + 1, c + dc, h1, by simp [h2, pieceColor, Piece.code], ?_⟩
      have hcol : pieceColor (sq b.squares r c) = WHITE := by
        rcases color_cases (sq b.squares r c) with h | h | h
        · exact absurd h ht
        · exact h
        · exact absurd h hne
      have hmem := @pawn_of_back b.squares b.enPassantCol r c (-1) 6 3 dc WHITE hdc hb ht hcol
      simp only [neg_neg] at hmem
      simp only [pseudo, h2]
      exact hmem
  · -- a king
    refine ⟨r + d.1, c + d.2, h1, ?_, ?_⟩
    · rcases ha with rfl | rfl <;> simp at h2 <;> simp [h2, pieceColor, Piece.code]
    · have hmem := @step_of_back b.squares a r c d _ (neg_mem_kingOffsets d hd) hb hne2
      rcases ha with rfl | rfl <;> simp at h2 <;> simp only [pseudo, h2] <;>
        exact List.mem_append_left _ hmem
  · -- a rook or queen on a rank or file
    obtain ⟨k, hk1, hk2, hclear, hkb, hq⟩ :=
      (rayHit_iff (by split <;> decide) (by split <;> decide)).1 h1
    have hk3 : k < 8 := by push_cast at hk2; omega
    refine ⟨r + d.1 * k, c + d.2 * k, hkb, ?_, ?_⟩
    · rcases ha with rfl | rfl <;> simp at hq <;> rcases hq with hq | hq <;>
        simp [hq, pieceColor, Piece.code]
    · rcases ha with rfl | rfl <;> simp at hq <;> rcases hq with hq | hq <;>
        simp only [pseudo, hq]
      · exact slide d _ k (neg_straight_rook d hd) hk1 hk3 hclear
      · exact slide d _ k (neg_straight_queen d hd) hk1 hk3 hclear
      · exact slide d _ k (neg_straight_rook d hd) hk1 hk3 hclear
      · exact slide d _ k (neg_straight_queen d hd) hk1 hk3 hclear
  · -- a bishop or queen on a diagonal
    obtain ⟨k, hk1, hk2, hclear, hkb, hq⟩ :=
      (rayHit_iff (by split <;> decide) (by split <;> decide)).1 h1
    have hk3 : k < 8 := by push_cast at hk2; omega
    refine ⟨r + d.1 * k, c + d.2 * k, hkb, ?_, ?_⟩
    · rcases ha with rfl | rfl <;> simp at hq <;> rcases hq with hq | hq <;>
        simp [hq, pieceColor, Piece.code]
    · rcases ha with rfl | rfl <;> simp at hq <;> rcases hq with hq | hq <;>
        simp only [pseudo, hq]
      · exact slide d _ k (neg_diag_bishop d hd) hk1 hk3 hclear
      · exact slide d _ k (neg_diag_queen d hd) hk1 hk3 hclear
      · exact slide d _ k (neg_diag_bishop d hd) hk1 hk3 hclear
      · exact slide d _ k (neg_diag_queen d hd) hk1 hk3 hclear

/-! ## Kings under move application -/

theorem sameAt_refl (g : Grid) (k : Piece) : SameAt g g k := fun _ _ => Iff.rfl

theorem sameAt_put {g g1 : Grid} {k : Piece} {r c : Int} {x : Piece} (h : SameAt g g1 k)
    (hb : inBounds r c = true) (h1 : sq g r c ≠ k) (h2 : x ≠ k) :
    SameAt g (put g1 r c x) k := by
  intro r2 c2
  rw [sq_put x hb]
  by_cases e : r2 = r ∧ c2 = c
  · rw [if_pos e]
    obtain ⟨rfl, rfl⟩ := e
    exact ⟨fun hx => absurd hx h2, fun hx => absurd hx h1⟩
  · rw [if_neg e]
    exact h r2 c2

theorem sameAt_ite {g ga gb : Grid} {k : Piece} (P : Prop) [Decidable P]
    (ha : P → SameAt g ga k) (hb : ¬ P → SameAt g gb k) :
    SameAt g (if P then ga else gb) k := by
  split
  · exact ha ‹_›
  · exact hb ‹_›

theorem exactlyOne_of_sameAt {g g2 : Grid} {k : Piece} (h : SameAt g g2 k)
    (h1 : ExactlyOne g k) : ExactlyOne g2 k := by
  obtain ⟨i, j, hij, huniq⟩ := h1
  refine ⟨i, j, ?_, ?_⟩
  · have := (h (i.val : Int) (j.val : Int)).2 (by rw [sq_cast]; exact hij)
    rwa [sq_cast] at this
  · intro i2 j2 h2
    apply huniq
    have := (h (i2.val : Int) (j2.val : Int)).1 (by rw [sq_cast]; exact h2)
    rwa [sq_cast] at this

/-- Applying a move whose mover is not `k`, that does not land on `k`, and
whose side effects (en-passant removal, rook relocation) do not touch `k`,
leaves `k` on the same squares. -/
theorem applyGrid_sameAt {g : Grid} {m : Move} {k : Piece}
    (hf : inBounds m.fromRow m.fromCol = true) (ht : inBounds m.toRow m.toCol = true)
    (hk : k = W_KING ∨ k = B_KING)
    (hp : sq g m.fromRow m.fromCol ≠ k) (hto : sq g m.toRow m.toCol ≠ k)
    (hep : ((sq g m.fromRow m.fromCol = W_PAWN ∨ sq g m.fromRow m.fromCol = B_PAWN)
        ∧ m.fromCol ≠ m.toCol) ∧ sq g m.toRow m.toCol = EMPTY → sq g m.fromRow m.toCol ≠ k)
    (hc6 : (sq g m.fromRow m.fromCol = W_KING ∨ sq g m.fromRow m.fromCol = B_KING)
        ∧ |m.toCol - m.fromCol| = 2 → m.toCol = 6 →
        sq g m.fromRow 5 ≠ k ∧ sq g m.fromRow 7 ≠ k)
    (hc2 : (sq g m.fromRow m.fromCol = W_KING ∨ sq g m.fromRow m.fromCol = B_KING)
        ∧ |m.toCol - m.fromCol| = 2 → m.toCol ≠ 6 →
        sq g m.fromRow 3 ≠ k ∧ sq g m.fromRow 0 ≠ k) :
    SameAt g (applyGrid g m) k := by
  have hf2 := (inBounds_iff _ _).1 hf
  have ht2 := (inBounds_iff _ _).1 ht
  have b1 : inBounds m.fromRow m.toCol = true := inBounds_of hf2.1 ht2.2
  have b5 : inBounds m.fromRow 5 = true := inBounds_of hf2.1 (by omega)
  have b7 : inBounds m.fromRow 7 = true := inBounds_of hf2.1 (by omega)
  have b3 : inBounds m.fromRow 3 = true := inBounds_of hf2.1 (by omega)
  have b0 : inBounds m.fromRow 0 = true := inBounds_of hf2.1 (by omega)
  have hE : EMPTY ≠ k := by rcases hk with rfl | rfl <;> decide
  have hWQ : W_QUEEN ≠ k := by rcases hk with rfl | rfl <;> decide
  have hBQ : B_QUEEN ≠ k := by rcases hk with rfl | rfl <;> decide
  unfold applyGrid
  simp only []
  have s1 : SameAt g (if ((sq g m.fromRow m.fromCol = W_PAWN ∨ sq g m.fromRow m.fromCol = B_PAWN)
      ∧ m.fromCol ≠ m.toCol) ∧ sq g m.toRow m.toCol = EMPTY then put g m.fromRow m.toCol EMPTY
      else g) k :=
    sameAt_ite _ (fun h => sameAt_put (sameAt_refl g k) b1 (hep h) hE) (fun _ => sameAt_refl g k)
  generalize (if ((sq g m.fromRow m.fromCol = W_PAWN ∨ sq g m.fromRow m.fromCol = B_PAWN)
      ∧ m.fromCol ≠ m.toCol) ∧ sq g m.toRow m.toCol = EMPTY then put g m.fromRow m.toCol EMPTY
      else g) = g1 at s1 ⊢
  have s2 : SameAt g (if (sq g m.fromRow m.fromCol = W_KING ∨ sq g m.fromRow m.fromCol = B_KING)
      ∧ |m.toCol - m.fromCol| = 2 then
        (if m.toCol = 6 then put (put g1 m.fromRow 5 (sq g1 m.fromRow 7)) m.fromRow 7 EMPTY
         else put (put g1 m.fromRow 3 (sq g1 m.fromRow 0)) m.fromRow 0 EMPTY)
      else g1) k := by
    refine sameAt_ite _ (fun hc => sameAt_ite _ (fun h6 => ?_) (fun h6 => ?_)) (fun _ => s1)
    · obtain ⟨hc5, hc7⟩ := hc6 hc h6
      exact sameAt_put (sameAt_put s1 b5 hc5 (fun h => hc7 ((s1 _ _).1 h))) b7 hc7 hE
    · obtain ⟨hc3, hc0⟩ := hc2 hc h6
      exact sameAt_put (sameAt_put s1 b3 hc3 (fun h => hc0 ((s1 _ _).1 h))) b0 hc0 hE
  generalize (if (sq g m.fromRow m.fromCol = W_KING ∨ sq g m.fromRow m.fromCol = B_KING)
      ∧ |m.toCol - m.fromCol| = 2 then
        (if m.toCol = 6 then put (put g1 m.fromRow 5 (sq g1 m.fromRow 7)) m.fromRow 7 EMPTY
         else put (put g1 m.fromRow 3 (sq g1 m.fromRow 0)) m.fromRow 0 EMPTY)
      else g1) = g2 at s2 ⊢
  have s4 : SameAt g (put (put g2 m.toRow m.toCol (sq g m.fromRow m.fromCol))
      m.fromRow m.fromCol EMPTY) k :=
    sameAt_put (sameAt_put s2 ht hto hp) hf hp hE
  generalize (put (put g2 m.toRow m.toCol (sq g m.fromRow m.fromCol))
      m.fromRow m.fromCol EMPTY) = g4 at s4 ⊢
  have s5 : SameAt g (if sq g m.fromRow m.fromCol = W_PAWN ∧ m.toRow = 7 then
      put g4 m.toRow m.toCol W_QUEEN else g4) k :=
    sameAt_ite _ (fun _ => sameAt_put s4 ht hto hWQ) (fun _ => s4)
  generalize (if sq g m.fromRow m.fromCol = W_PAWN ∧ m.toRow = 7 then
      put g4 m.toRow m.toCol W_QUEEN else g4) = g5 at s5 ⊢
  exact sameAt_ite _ (fun _ => sameAt_put s5 ht hto hBQ) (fun _ => s5)

/-- Applying a move of the only `k` (a king) leaves `k` on the destination
square and nowhere else. -/
theorem applyGrid_kingMove {g : Grid} {m : Move} {k : Piece}
    (hf : inBounds m.fromRow m.fromCol = true) (ht : inBounds m.toRow m.toCol = true)
    (hk : k = W_KING ∨ k = B_KING) (hp : sq g m.fromRow m.fromCol = k)
    (hne : ¬ (m.toRow = m.fromRow ∧ m.toCol = m.fromCol))
    (huniq : ∀ r c : Int, sq g r c = k → r = m.fromRow ∧ c = m.fromCol)
    (hc : |m.toCol - m.fromCol| = 2 → m.fromCol = 4) :
    ∀ r c : Int, sq (applyGrid g m) r c = k ↔ r = m.toRow ∧ c = m.toCol := by
  have hf2 := (inBounds_iff _ _).1 hf
  have b5 : inBounds m.fromRow 5 = true := inBounds_of hf2.1 (by omega)
  have b7 : inBounds m.fromRow 7 = true := inBounds_of hf2.1 (by omega)
  have b3 : inBounds m.fromRow 3 = true := inBounds_of hf2.1 (by omega)
  have b0 : inBounds m.fromRow 0 = true := inBounds_of hf2.1 (by omega)
  have hE : EMPTY ≠ k := by rcases hk with rfl | rfl <;> decide
  have hnp : ¬ (k = W_PAWN ∨ k = B_PAWN) := by rcases hk with rfl | rfl <;> decide
  have hnw : ¬ (k = W_PAWN) := fun h => hnp (Or.inl h)
  have hnb : ¬ (k = B_PAWN) := fun h => hnp (Or.inr h)
  have off : ∀ x : Int, m.fromCol = 4 → x ≠ 4 → sq g m.fromRow x ≠ k := by
    intro x h4 hx h
    have := (huniq _ _ h).2
    omega
  unfold applyGrid
  simp only [hp, hnp, hnw, hnb, false_and, if_false, hk, true_and, or_self]
  have s2 : SameAt g (if |m.toCol - m.fromCol| = 2 then
        (if m.toCol = 6 then put (put g m.fromRow 5 (sq g m.fromRow 7)) m.fromRow 7 EMPTY
         else put (put g m.fromRow 3 (sq g m.fromRow 0)) m.fromRow 0 EMPTY)
      else g) k := by
    refine sameAt_ite _ (fun h2 => sameAt_ite _ (fun _ => ?_) (fun _ => ?_))
      (fun _ => sameAt_refl g k)
    · exact sameAt_put (sameAt_put (sameAt_refl g k) b5 (off 5 (hc h2) (by omega))
        (off 7 (hc h2) (by omega))) b7 (off 7 (hc h2) (by omega)) hE
    · exact sameAt_put (sameAt_put (sameAt_refl g k) b3 (off 3 (hc h2) (by omega))
        (off 0 (hc h2) (by omega))) b0 (off 0 (hc h2) (by omega)) hE
  generalize (if |m.toCol - m.fromCol| = 2 then
        (if m.toCol = 6 then put (put g m.fromRow 5 (sq g m.fromRow 7)) m.fromRow 7 EMPTY
         else put (put g m.fromRow 3 (sq g m.fromRow 0)) m.fromRow 0 EMPTY)
      else g) = g2 at s2 ⊢
  intro r c
  rw [sq_put _ hf, sq_put _ ht]
  by_cases e1 : r = m.fromRow ∧ c = m.fromCol
  · rw [if_pos e1]
    constructor
    · intro h; exact absurd h hE
    · rintro ⟨h1, h2⟩
      have h3 := e1.1
      have h4 := e1.2
      exact absurd (And.intro (by omega) (by omega)) hne
  · rw [if_neg e1]
    by_cases e2 : r = m.toRow ∧ c = m.toCol
    · rw [if_pos e2]; exact ⟨fun _ => e2, fun _ => rfl⟩
    · rw [if_neg e2]
      constructor
      · intro h; exact absurd (huniq r c ((s2 r c).1 h)) e1
      · intro h; exact absurd h e2

/-! ## Shape of the generated moves -/

theorem offs_king_small : ∀ d ∈ kingOffsets,
    (d.1 ≠ 0 ∨ d.2 ≠ 0) ∧ -1 ≤ d.2 ∧ d.2 ≤ 1 := by decide

theorem offs_knight_nonzero : ∀ d ∈ knightOffsets, d.1 ≠ 0 := by decide

theorem dirs_queen_unit : ∀ d ∈ queenDirs,
    (d.1 = -1 ∨ d.1 = 0 ∨ d.1 = 1) ∧ (d.2 = -1 ∨ d.2 = 0 ∨ d.2 = 1) ∧ (d.1 ≠ 0 ∨ d.2 ≠ 0) := by
  decide

theorem dirs_rook_sub : ∀ d ∈ rookDirs, d ∈ queenDirs := by decide

theorem dirs_bishop_sub : ∀ d ∈ bishopDirs, d ∈ queenDirs := by decide

theorem slide_ne {r c k : Int} {d : Int × Int} (hd : d ∈ queenDirs) (hk : 1 ≤ k) :
    ¬ (r + d.1 * k = r ∧ c + d.2 * k = c) := by
  obtain ⟨h1, h2, h3⟩ := dirs_queen_unit d hd
  rintro ⟨e1, e2⟩
  rcases h1 with h1 | h1 | h1 <;> rcases h2 with h2 | h2 | h2 <;> rw [h1] at e1 <;> rw [h2] at e2 <;>
    omega

/-- No generated move stays on its square. -/
theorem pseudo_moves {b : Board} {r c : Int} {m : Move} (hm : m ∈ pseudo b r c) :
    ¬ (m.toRow = r ∧ m.toCol = c) := by
  have hstepK : ∀ col, m ∈ stepMoves b.squares col r c kingOffsets →
      ¬ (m.toRow = r ∧ m.toCol = c) := by
    intro col h
    obtain ⟨d, hd, -, -, rfl⟩ := mem_stepMoves.1 h
    have := (offs_king_small d hd).1
    rintro ⟨e1, e2⟩
    simp only at e1 e2
    rcases this with h | h <;> omega
  have hstepN : ∀ col, m ∈ stepMoves b.squares col r c knightOffsets →
      ¬ (m.toRow = r ∧ m.toCol = c) := by
    intro col h
    obtain ⟨d, hd, -, -, rfl⟩ := mem_stepMoves.1 h
    have := offs_knight_nonzero d hd
    rintro ⟨e1, e2⟩
    simp only at e1 e2
    omega
  have hslide : ∀ col dirs, (∀ d ∈ dirs, d ∈ queenDirs) → m ∈ slidesMoves b.squares col r c dirs →
      ¬ (m.toRow = r ∧ m.toCol = c) := by
    intro col dirs hsub h
    obtain ⟨d, hd, k, hk1, -, -, -, -, rfl⟩ := mem_slidesMoves.1 h
    exact slide_ne (hsub d hd) hk1
  have hpawn : ∀ dir home epRow enemy, (dir = 1 ∨ dir = -1) →
      m ∈ pawnMoves b.squares b.enPassantCol r c dir home epRow enemy →
      ¬ (m.toRow = r ∧ m.toCol = c) := by
    intro dir home epRow enemy hdir h
    rcases mem_pawnMoves.1 h with ⟨-, -, rfl⟩ | ⟨-, -, -, -, rfl⟩ | ⟨dc, -, -, -, rfl⟩ <;>
      rintro ⟨e1, e2⟩ <;> simp only at e1 e2 <;> omega
  have hcastle : ∀ col, m ∈ castlingList b col r c → ¬ (m.toRow = r ∧ m.toCol = c) := by
    intro col h
    rcases mem_castlingList.1 h with ⟨⟨-, hr, hc⟩, -, h2⟩ | ⟨⟨-, hr, hc⟩, -, h2⟩ <;>
      rcases h2 with ⟨-, rfl⟩ | ⟨-, rfl⟩ <;> rintro ⟨e1, e2⟩ <;> simp only at e1 e2 <;> omega
  unfold pseudo at hm
  split at hm
  · exact hpawn _ _ _ _ (Or.inl rfl) hm
  · exact hpawn _ _ _ _ (Or.inr rfl) hm
  · exact hstepN _ hm
  · exact hstepN _ hm
  · exact hslide _ _ dirs_bishop_sub hm
  · exact hslide _ _ dirs_bishop_sub hm
  · exact hslide _ _ dirs_rook_sub hm
  · exact hslide _ _ dirs_rook_sub hm
  · exact hslide _ _ (fun _ h => h) hm
  · exact hslide _ _ (fun _ h => h) hm
  · rcases List.mem_append.1 hm with h | h
    · exact hstepK _ h
    · exact hcastle _ h
  · rcases List.mem_append.1 hm with h | h
    · exact hstepK _ h
    · exact hcastle _ h
  · cases hm

/-- No generated move lands on a piece of the mover's colour. -/
theorem pseudo_target {b : Board} {r c : Int} {m : Move} (hm : m ∈ pseudo b r c) :
    pieceColor (sq b.squares m.toRow m.toCol) ≠ pieceColor (sq b.squares r c) := by
  have hstep : ∀ col offs, col ≠ NONE → m ∈ stepMoves b.squares col r c offs →
      pieceColor (sq b.squares m.toRow m.toCol) ≠ col := by
    intro col offs hcol h
    obtain ⟨d, -, -, h2, rfl⟩ := mem_stepMoves.1 h
    intro h3
    apply h2
    refine ⟨?_, h3⟩
    intro h4
    simp only at h3
    rw [h4] at h3
    exact hcol h3.symm
  have hslide : ∀ col dirs, col ≠ NONE → m ∈ slidesMoves b.squares col r c dirs →
      pieceColor (sq b.squares m.toRow m.toCol) ≠ col := by
    intro col dirs hcol h
    obtain ⟨d, -, k, -, -, -, -, h2, rfl⟩ := mem_slidesMoves.1 h
    rcases h2 with h2 | h2
    · simp only [h2]; exact fun h => hcol h.symm
    · exact h2
  have hpawn : ∀ dir home epRow enemy col, col ≠ NONE → enemy ≠ col →
      m ∈ pawnMoves b.squares b.enPassantCol r c dir home epRow enemy →
      pieceColor (sq b.squares m.toRow m.toCol) ≠ col := by
    intro dir home epRow enemy col hcol hen h
    rcases mem_pawnMoves.1 h with ⟨-, h2, rfl⟩ | ⟨-, -, -, h2, rfl⟩ | ⟨dc, -, -, h2, rfl⟩
    · simp only [h2]; exact fun h => hcol h.symm
    · simp only [h2]; exact fun h => hcol h.symm
    · rcases h2 with ⟨-, h2⟩ | ⟨-, -, h2⟩
      · simp only [h2]; exact hen
      · simp only [h2]; exact fun h => hcol h.symm
  have hcastle : ∀ col, col ≠ NONE → m ∈ castlingList b col r c →
      pieceColor (sq b.squares m.toRow m.toCol) ≠ col := by
    intro col hcol h
    rw [castling_target_empty h]
    exact fun h => hcol h.symm
  unfold pseudo at hm
  split at hm <;> rename_i hq <;> rw [hq]
  · exact hpawn _ _ _ _ _ (by decide) (by decide) hm
  · exact hpawn _ _ _ _ _ (by decide) (by decide) hm
  · exact hstep _ _ (by decide) hm
  · exact hstep _ _ (by decide) hm
  · exact hslide _ _ (by decide) hm
  · exact hslide _ _ (by decide) hm
  · exact hslide _ _ (by decide) hm
  · exact hslide _ _ (by decide) hm
  · exact hslide _ _ (by decide) hm
  · exact hslide _ _ (by decide) hm
  · rcases List.mem_append.1 hm with h | h
    · exact hstep _ _ (by decide) h
    · exact hcastle _ (by decide) h
  · rcases List.mem_append.1 hm with h | h
    · exact hstep _ _ (by decide) h
    · exact hcastle _ (by decide) h
  · cases hm

/-- A generated pawn move that changes column onto an empty square is the
en-passant move. -/
theorem pseudo_enPassant {b : Board} {r c : Int} {m : Move} (hm : m ∈ pseudo b r c)
    (hp : sq b.squares r c = W_PAWN ∨ sq b.squares r c = B_PAWN) (hcol : c ≠ m.toCol)
    (he : sq b.squares m.toRow m.toCol = EMPTY) :
    m.toCol = b.enPassantCol
      ∧ ((sq b.squares r c = W_PAWN ∧ r = 4) ∨ (sq b.squares r c = B_PAWN ∧ r = 3)) := by
  have hpawn : ∀ dir home epRow enemy,
      m ∈ pawnMoves b.squares b.enPassantCol r c dir home epRow enemy →
      m.toCol = b.enPassantCol ∧ r = epRow := by
    intro dir home epRow enemy h
    rcases mem_pawnMoves.1 h with ⟨-, -, rfl⟩ | ⟨-, -, -, -, rfl⟩ | ⟨dc, -, -, h2, rfl⟩
    · exact absurd rfl hcol
    · exact absurd rfl hcol
    · rcases h2 with ⟨h2, -⟩ | ⟨h2, h3, -⟩
      · exact absurd he h2
      · exact ⟨h3, h2⟩
  rcases hp with hp | hp
  · simp only [pseudo, hp] at hm
    obtain ⟨h1, h2⟩ := hpawn _ _ _ _ hm
    exact ⟨h1, Or.inl ⟨hp, h2⟩⟩
  · simp only [pseudo, hp] at hm
    obtain ⟨h1, h2⟩ := hpawn _ _ _ _ hm
    exact ⟨h1, Or.inr ⟨hp, h2⟩⟩

/-- A generated pawn move over two rows is the double step from the home row. -/
theorem pseudo_doubleStep {b : Board} {r c : Int} {m : Move} (hm : m ∈ pseudo b r c) :
    (sq b.squares r c = W_PAWN → m.toRow - r = 2 → r = 1 ∧ m.toCol = c)
      ∧ (sq b.squares r c = B_PAWN → r - m.toRow = 2 → r = 6 ∧ m.toCol = c) := by
  constructor
  · intro hp h2
    simp only [pseudo, hp] at hm
    rcases mem_pawnMoves.1 hm with ⟨-, -, rfl⟩ | ⟨-, -, h, -, rfl⟩ | ⟨dc, -, -, -, rfl⟩
    · simp only at h2; omega
    · exact ⟨h, rfl⟩
    · simp only at h2; omega
  · intro hp h2
    simp only [pseudo, hp] at hm
    rcases mem_pawnMoves.1 hm with ⟨-, -, rfl⟩ | ⟨-, -, h, -, rfl⟩ | ⟨dc, -, -, -, rfl⟩
    · simp only at h2; omega
    · exact ⟨h, rfl⟩
    · simp only at h2; omega

/-- A generated king move over two columns is a castling move: the king
stands on column 4, the square next to it is empty and the rook of its colour
is in the corner. -/
theorem pseudo_castle {b : Board} {r c : Int} {m : Move} (hm : m ∈ pseudo b r c)
    (hp : sq b.squares r c = W_KING ∨ sq b.squares r c = B_KING)
    (h2 : |m.toCol - c| = 2) :
    c = 4 ∧ m.toRow = r
      ∧ ((m.toCol = 6 ∧ sq b.squares r 5 = EMPTY ∧ sq b.squares r 6 = EMPTY
            ∧ (sq b.squares r 7 = W_ROOK ∨ sq b.squares r 7 = B_ROOK))
        ∨ (m.toCol = 2 ∧ sq b.squares r 3 = EMPTY ∧ sq b.squares r 2 = EMPTY
            ∧ sq b.squares r 1 = EMPTY
            ∧ (sq b.squares r 0 = W_ROOK ∨ sq b.squares r 0 = B_ROOK))) := by
  have hstep : ∀ col, m ∈ stepMoves b.squares col r c kingOffsets → False := by
    intro col h
    obtain ⟨d, hd, -, -, rfl⟩ := mem_stepMoves.1 h
    have := (offs_king_small d hd).2
    simp only at h2
    rw [abs_eq (by norm_num)] at h2
    omega
  have hcastle : ∀ col, m ∈ castlingList b col r c →
      c = 4 ∧ m.toRow = r
      ∧ ((m.toCol = 6 ∧ sq b.squares r 5 = EMPTY ∧ sq b.squares r 6 = EMPTY
            ∧ (sq b.squares r 7 = W_ROOK ∨ sq b.squares r 7 = B_ROOK))
        ∨ (m.toCol = 2 ∧ sq b.squares r 3 = EMPTY ∧ sq b.squares r 2 = EMPTY
            ∧ sq b.squares r 1 = EMPTY
            ∧ (sq b.squares r 0 = W_ROOK ∨ sq b.squares r 0 = B_ROOK))) := by
    intro col h
    rcases mem_castlingList.1 h with ⟨⟨-, hr, hc⟩, -, h3⟩ | ⟨⟨-, hr, hc⟩, -, h3⟩
    · subst hr
      rcases h3 with ⟨h3, rfl⟩ | ⟨h3, rfl⟩
      · obtain ⟨-, h5, h6, -, -⟩ := castleOk_iff.1 h3
        exact ⟨hc, rfl, Or.inl ⟨rfl, h5 5 (by simp), h5 6 (by simp), Or.inl h6⟩⟩
      · obtain ⟨-, h5, h6, -, -⟩ := castleOk_iff.1 h3
        exact ⟨hc, rfl, Or.inr ⟨rfl, h5 3 (by simp), h5 2 (by simp), h5 1 (by simp), Or.inl h6⟩⟩
    · subst hr
      rcases h3 with ⟨h3, rfl⟩ | ⟨h3, rfl⟩
      · obtain ⟨-, h5, h6, -, -⟩ := castleOk_iff.1 h3
        exact ⟨hc, rfl, Or.inl ⟨rfl, h5 5 (by simp), h5 6 (by simp), Or.inr h6⟩⟩
      · obtain ⟨-, h5, h6, -, -⟩ := castleOk_iff.1 h3
        exact ⟨hc, rfl, Or.inr ⟨rfl, h5 3 (by simp), h5 2 (by simp), h5 1 (by simp), Or.inr h6⟩⟩
  rcases hp with hp | hp
  · simp only [pseudo, hp] at hm
    rcases List.mem_append.1 hm with h | h
    · exact (hstep _ h).elim
    · exact hcastle _ h
  · simp only [pseudo, hp] at hm
    rcases List.mem_append.1 hm with h | h
    · exact (hstep _ h).elim
    · exact hcastle _ h

/-! ## The invariant of play -/

theorem mem_allSquares : ∀ s : Fin 8 × Fin 8, s ∈ allSquares := by decide

theorem kingPos_of_unique {g : Grid} {col : Color} {i j : Fin 8}
    (h : g i j = (if col = WHITE then W_KING else B_KING))
    (huniq : ∀ i2 j2 : Fin 8, g i2 j2 = (if col = WHITE then W_KING else B_KING) →
      i2 = i ∧ j2 = j) :
    kingPos g col = ((i.val : Int), (j.val : Int)) := by
  unfold kingPos
  cases hfind : allSquares.find?
      (fun s => decide (g s.1 s.2 = (if col = WHITE then W_KING else B_KING))) with
  | none =>
    rw [List.find?_eq_none] at hfind
    have := hfind (i, j) (mem_allSquares _)
    simp [h] at this
  | some s =>
    have hs := List.find?_some hfind
    simp only [decide_eq_true_eq] at hs
    obtain ⟨h1, h2⟩ := huniq s.1 s.2 hs
    simp only [h1, h2]

theorem otherSide_otherSide {s : Color} (h : s = WHITE ∨ s = BLACK) :
    otherSide (otherSide s) = s := by
  rcases h with rfl | rfl <;> rfl

theorem exactlyOne_int {g : Grid} {k : Piece} (hk : k ≠ EMPTY) (h : ExactlyOne g k)
    {r c r2 c2 : Int} (h1 : sq g r c = k) (h2 : sq g r2 c2 = k) : r2 = r ∧ c2 = c := by
  obtain ⟨i, j, -, huniq⟩ := h
  have b1 : inBounds r c = true := by
    by_contra hb
    rw [sq_out (by simpa using hb)] at h1
    exact hk h1.symm
  have b2 : inBounds r2 c2 = true := by
    by_contra hb
    rw [sq_out (by simpa using hb)] at h2
    exact hk h2.symm
  obtain ⟨x, y, rfl, rfl⟩ := exists_fin_of_inBounds b1
  obtain ⟨x2, y2, rfl, rfl⟩ := exists_fin_of_inBounds b2
  rw [sq_cast] at h1 h2
  obtain ⟨e1, e2⟩ := huniq x y h1
  obtain ⟨e3, e4⟩ := huniq x2 y2 h2
  subst e1 e2 e3 e4
  exact ⟨rfl, rfl⟩

/-- While the side that has just moved is not in check, no generated move of
the side to move lands on its king. -/
theorem no_king_capture {b : Board} (hinv : Inv b) {r c : Int} {m : Move}
    (hb : inBounds r c = true) (hm : m ∈ pseudo b r c)
    (hside : pieceColor (sq b.squares r c) = b.sideToMove) :
    sq b.squares m.toRow m.toCol
      ≠ (if otherSide b.sideToMove = WHITE then W_KING else B_KING) := by
  intro hto
  have hne : sq b.squares m.toRow m.toCol ≠ EMPTY := by
    rw [hto]; split <;> decide
  have hatt := attacked_of_pseudo hb hm hne
  rw [hside] at hatt
  have hone : ExactlyOne b.squares (if otherSide b.sideToMove = WHITE then W_KING else B_KING) := by
    split
    · exact hinv.whiteKing
    · exact hinv.blackKing
  obtain ⟨-, -, hbt⟩ := pseudo_inBounds hb hm
  obtain ⟨i, j, hi, hj⟩ := exists_fin_of_inBounds hbt
  have hpos : kingPos b.squares (otherSide b.sideToMove) = (m.toRow, m.toCol) := by
    rw [← hi, ← hj]
    apply kingPos_of_unique
    · rw [← sq_cast b.squares i j, hi, hj]; exact hto
    · intro i2 j2 h2
      have := exactlyOne_int (by split <;> decide) hone hto
        (by rw [sq_cast]; exact h2 : sq b.squares (i2.val : Int) (j2.val : Int) = _)
      rw [← hi, ← hj] at this
      exact ⟨Fin.ext (by omega), Fin.ext (by omega)⟩
  have hsafe := hinv.safe
  unfold inCheck at hsafe
  rw [hpos] at hsafe
  have hos : (if otherSide b.sideToMove = WHITE then BLACK else WHITE) = b.sideToMove :=
    otherSide_otherSide hinv.side
  simp only [hos] at hsafe
  rw [hatt] at hsafe
  cases hsafe

theorem mem_legal {b : Board} {r c : Int} {m : Move} :
    m ∈ legal b r c ↔
      m ∈ pseudo b r c ∧ inCheck (applyGrid b.squares m) (pieceColor (sq b.squares r c)) = false := by
  unfold legal
  simp [List.mem_filter]

theorem mem_allLegal {b : Board} {m : Move} :
    m ∈ allLegal b ↔
      ∃ i j : Fin 8, pieceColor (b.squares i j) = b.sideToMove
        ∧ m ∈ legal b (i.val : Int) (j.val : Int) := by
  unfold allLegal
  rw [List.mem_flatMap]
  constructor
  · rintro ⟨s, -, hs⟩
    by_cases h : pieceColor (b.squares s.1 s.2) = b.sideToMove
    · rw [if_pos h] at hs; exact ⟨s.1, s.2, h, hs⟩
    · rw [if_neg h] at hs; cases hs
  · rintro ⟨i, j, h, hm⟩
    exact ⟨(i, j), mem_allSquares _, by rw [if_pos h]; exact hm⟩

theorem exactlyOne_of_iff {g : Grid} {k : Piece} {r c : Int} (hb : inBounds r c = true)
    (h : ∀ r2 c2 : Int, sq g r2 c2 = k ↔ r2 = r ∧ c2 = c) : ExactlyOne g k := by
  obtain ⟨i, j, rfl, rfl⟩ := exists_fin_of_inBounds hb
  refine ⟨i, j, ?_, ?_⟩
  · rw [← sq_cast g i j]; exact (h _ _).2 ⟨rfl, rfl⟩
  · intro i2 j2 h2
    rw [← sq_cast g i2 j2] at h2
    obtain ⟨e1, e2⟩ := (h _ _).1 h2
    exact ⟨Fin.ext (by omega), Fin.ext (by omega)⟩

/-- A generated move of the side to move keeps exactly one king of each colour. -/
theorem kings_step {b : Board} (hinv : Inv b) {r c : Int} {m : Move}
    (hb : inBounds r c = true) (hside : pieceColor (sq b.squares r c) = b.sideToMove)
    (hm : m ∈ pseudo b r c) {k : Piece} (hk : k = W_KING ∨ k = B_KING) :
    ExactlyOne (applyGrid b.squares m) k := by
  obtain ⟨hfr, hfc, hbt⟩ := pseudo_inBounds hb hm
  have hne := pseudo_moves hm
  have htarget := pseudo_target hm
  subst hfr hfc
  have hone : ExactlyOne b.squares k := by
    rcases hk with rfl | rfl
    · exact hinv.whiteKing
    · exact hinv.blackKing
  have hkE : k ≠ EMPTY := by rcases hk with rfl | rfl <;> decide
  by_cases hp : sq b.squares m.fromRow m.fromCol = k
  · -- the king itself moves
    refine exactlyOne_of_iff hbt (applyGrid_kingMove hb hbt hk hp hne ?_ ?_)
    · intro r2 c2 h2
      exact exactlyOne_int hkE hone hp h2
    · intro h2
      exact (pseudo_castle hm (by rw [hp]; exact hk) h2).1
  · -- another piece moves
    refine exactlyOne_of_sameAt (applyGrid_sameAt hb hbt hk hp ?_ ?_ ?_ ?_) hone
    · -- the destination does not hold the king
      intro hto
      by_cases hcol : pieceColor k = b.sideToMove
      · apply htarget
        rw [hto, hcol, hside]
      · have hkk : k = (if otherSide b.sideToMove = WHITE then W_KING else B_KING) := by
          rcases hinv.side with hs | hs <;> rcases hk with rfl | rfl <;>
            simp [hs, otherSide, pieceColor, Piece.code] at hcol ⊢
        rw [hkk] at hto
        exact no_king_capture hinv hb hm hside hto
    · -- the pawn removed en passant
      rintro ⟨⟨hpawn, hcol⟩, hempty⟩
      obtain ⟨hep, hrow⟩ := pseudo_enPassant hm hpawn hcol hempty
      have hbt2 := (inBounds_iff _ _).1 hbt
      rcases hrow with ⟨hw, h4⟩ | ⟨hbp, h3⟩
      · have hs : b.sideToMove = WHITE := by rw [← hside, hw]; rfl
        have := hinv.epWhite hs (by rw [← hep]; exact inBounds_of (by omega) hbt2.2)
        rw [h4, hep, this]
        rcases hk with rfl | rfl <;> decide
      · have hs : b.sideToMove = BLACK := by rw [← hside, hbp]; rfl
        have := hinv.epBlack hs (by rw [← hep]; exact inBounds_of (by omega) hbt2.2)
        rw [h3, hep, this]
        rcases hk with rfl | rfl <;> decide
    · -- the rook of king-side castling
      rintro ⟨hking, h2⟩ h6
      obtain ⟨-, -, h⟩ := pseudo_castle hm hking h2
      rcases h with ⟨-, h5, -, h7⟩ | ⟨h, -⟩
      · refine ⟨by rw [h5]; exact hkE.symm, ?_⟩
        rcases h7 with h7 | h7 <;> rw [h7] <;> rcases hk with rfl | rfl <;> decide
      · omega
    · -- the rook of queen-side castling
      rintro ⟨hking, h2⟩ h6
      obtain ⟨-, -, h⟩ := pseudo_castle hm hking h2
      rcases h with ⟨h, -⟩ | ⟨-, h3, -, -, h0⟩
      · exact absurd h h6
      · refine ⟨by rw [h3]; exact hkE.symm, ?_⟩
        rcases h0 with h0 | h0 <;> rw [h0] <;> rcases hk with rfl | rfl <;> decide

theorem afterMove_squares (b : Board) (m : Move) :
    (afterMove b m).squares = applyGrid b.squares m := by
  unfold afterMove
  simp only []
  split <;> rfl

theorem afterMove_side (b : Board) (m : Move) :
    (afterMove b m).sideToMove = otherSide b.sideToMove := by
  unfold afterMove
  simp only []
  split <;> rfl

theorem afterMove_ep (b : Board) (m : Move) :
    (afterMove b m).enPassantCol =
      (if sq b.squares m.fromRow m.fromCol = B_PAWN ∧ m.fromRow - m.toRow = 2 then m.fromCol
       else if sq b.squares m.fromRow m.fromCol = W_PAWN ∧ m.toRow - m.fromRow = 2 then m.fromCol
       else -1) := by
  unfold afterMove
  simp only []
  split <;> rfl

/-- The piece that `applyMoveRaw` leaves on the destination square. -/
theorem applyGrid_to {g : Grid} {m : Move} (hf : inBounds m.fromRow m.fromCol = true)
    (ht : inBounds m.toRow m.toCol = true)
    (hne : ¬ (m.toRow = m.fromRow ∧ m.toCol = m.fromCol)) :
    sq (applyGrid g m) m.toRow m.toCol =
      (if sq g m.fromRow m.fromCol = B_PAWN ∧ m.toRow = 0 then B_QUEEN
       else if sq g m.fromRow m.fromCol = W_PAWN ∧ m.toRow = 7 then W_QUEEN
       else sq g m.fromRow m.fromCol) := by
  unfold applyGrid
  simp only []
  generalize (if (sq g m.fromRow m.fromCol = W_KING ∨ sq g m.fromRow m.fromCol = B_KING)
      ∧ |m.toCol - m.fromCol| = 2 then _ else _) = g2
  by_cases hB : sq g m.fromRow m.fromCol = B_PAWN ∧ m.toRow = 0
  · rw [if_pos hB, if_pos hB, sq_put _ ht]
    simp
  · rw [if_neg hB, if_neg hB]
    by_cases hW : sq g m.fromRow m.fromCol = W_PAWN ∧ m.toRow = 7
    · rw [if_pos hW, if_pos hW, sq_put _ ht]
      simp
    · rw [if_neg hW, if_neg hW, sq_put _ hf, if_neg hne, sq_put _ ht]
      simp

theorem inv_reset : Inv reset where
  whiteKing := ⟨0, 4, rfl, by decide⟩
  blackKing := ⟨7, 4, rfl, by decide⟩
  side := Or.inl rfl
  safe := by decide!
  epWhite := fun _ h => absurd h (by decide)
  epBlack := fun h _ => absurd h (by decide)

/-- A legal move keeps the invariant of play. -/
theorem inv_step {b : Board} (hinv : Inv b) {m : Move} (hm : m ∈ allLegal b) :
    Inv (afterMove b m) := by
  obtain ⟨i, j, hside, hleg⟩ := mem_allLegal.1 hm
  obtain ⟨hps, hsafe⟩ := mem_legal.1 hleg
  have hb := inBounds_cast i j
  rw [← sq_cast b.squares i j] at hside
  obtain ⟨hfr, hfc, hbt⟩ := pseudo_inBounds hb hps
  have hne := pseudo_moves hps
  have hdouble := pseudo_doubleStep hps
  rw [← hfr, ← hfc] at hb hside hsafe hne hdouble
  have hbt2 := (inBounds_iff _ _).1 hbt
  have hos : otherSide b.sideToMove = WHITE ∨ otherSide b.sideToMove = BLACK := by
    rcases hinv.side with h | h <;> simp [h, otherSide]
  have hto := applyGrid_to (g := b.squares) hb hbt hne
  refine ⟨?_, ?_, ?_, ?_, ?_, ?_⟩
  · rw [afterMove_squares]
    exact kings_step hinv (inBounds_cast i j) (by rw [hfr, hfc] at hside; exact hside) hps
      (Or.inl rfl)
  · rw [afterMove_squares]
    exact kings_step hinv (inBounds_cast i j) (by rw [hfr, hfc] at hside; exact hside) hps
      (Or.inr rfl)
  · rw [afterMove_side]; exact hos
  · rw [afterMove_squares, afterMove_side, otherSide_otherSide hinv.side, ← hside]
    exact hsafe
  · rw [afterMove_squares, afterMove_side, afterMove_ep]
    intro hs hin
    have hsb : b.sideToMove = BLACK := by
      rcases hinv.side with h | h
      · rw [h] at hs; cases hs
      · exact h
    by_cases h1 : sq b.squares m.fromRow m.fromCol = B_PAWN ∧ m.fromRow - m.toRow = 2
    · rw [if_pos h1]
      obtain ⟨h6, hc⟩ := hdouble.2 h1.1 h1.2
      have h4 : m.toRow = 4 := by omega
      rw [h4, hc] at hto
      rw [hto, h1.1]
      simp [h4]
    · rw [if_neg h1] at hin ⊢
      by_cases h2 : sq b.squares m.fromRow m.fromCol = W_PAWN ∧ m.toRow - m.fromRow = 2
      · rw [← hside, h2.1] at hsb
        cases hsb
      · rw [if_neg h2] at hin
        exact absurd hin (by decide)
  · rw [afterMove_squares, afterMove_side, afterMove_ep]
    intro hs hin
    have hsb : b.sideToMove = WHITE := by
      rcases hinv.side with h | h
      · exact h
      · rw [h] at hs; cases hs
    by_cases h1 : sq b.squares m.fromRow m.fromCol = B_PAWN ∧ m.fromRow - m.toRow = 2
    · rw [← hside, h1.1] at hsb
      cases hsb
    · rw [if_neg h1] at hin ⊢
      by_cases h2 : sq b.squares m.fromRow m.fromCol = W_PAWN ∧ m.toRow - m.fromRow = 2
      · rw [if_pos h2]
        obtain ⟨h6, hc⟩ := hdouble.1 h2.1 h2.2
        have h4 : m.toRow = 3 := by omega
        rw [h4, hc] at hto
        rw [hto, h2.1]
        simp [h4]
      · rw [if_neg h2] at hin
        exact absurd hin (by decide)

/-- Every state of play satisfies the invariant. -/
theorem inv_of_reachable {b : Board} (h : Reachable b) : Inv b := by
  induction h with
  | start => exact inv_reset
  | @step b0 b2 ms m _ hall hm hmake ih =>
    rw [getAllLegalMoves_eq] at hall
    cases hall
    obtain ⟨i, j, -, hleg⟩ := mem_allLegal.1 hm
    obtain ⟨hps, -⟩ := mem_legal.1 hleg
    obtain ⟨hfr, hfc, hbt⟩ := pseudo_inBounds (inBounds_cast i j) hps
    have hbf : inBounds m.fromRow m.fromCol = true := by
      rw [hfr, hfc]; exact inBounds_cast i j
    rw [makeMove_eq _ _ hbf hbt] at hmake
    cases hmake
    exact inv_step ih hm

/-! ## Properties stated by the specification -/

theorem rd_some {g : Grid} {r c : Int} {p : Piece} (h : rd g r c = some p) :
    inBounds r c = true ∧ sq g r c = p := by
  by_cases hb : inBounds r c = true
  · rw [rd_eq hb] at h
    exact ⟨hb, Option.some.inj h⟩
  · rw [rd_none (by simpa using hb)] at h
    cases h

theorem rd_some_iff {g : Grid} {r c : Int} {p : Piece} :
    rd g r c = some p ↔ inBounds r c = true ∧ sq g r c = p := by
  constructor
  · exact rd_some
  · rintro ⟨hb, rfl⟩; exact rd_eq hb

/-- C1: on every board and for every square inside the grid, `getLegalMoves`
returns a list, and `makeMove` of any move of that list leaves a state in
which the colour of the piece that stood on the square is not in check. -/
theorem legal_move_keeps_own_king_safe (b : Board) (r c : Int) (hb : inBounds r c = true) :
    ∃ (ms : List Move) (p : Piece), getLegalMoves b r c = some ms ∧ rd b.squares r c = some p
      ∧ ∀ m ∈ ms, ∃ b2 : Board, makeMove b m = some b2
          ∧ isInCheck b2 (pieceColor p) = some false := by
  refine ⟨legal b r c, sq b.squares r c, getLegalMoves_eq b r c hb, rd_eq hb, ?_⟩
  intro m hm
  obtain ⟨hps, hsafe⟩ := mem_legal.1 hm
  obtain ⟨hfr, hfc, hbt⟩ := pseudo_inBounds hb hps
  have hbf : inBounds m.fromRow m.fromCol = true := by rw [hfr, hfc]; exact hb
  refine ⟨afterMove b m, makeMove_eq b m hbf hbt, ?_⟩
  rw [isInCheck_eq, afterMove_squares, hsafe]

theorem legal_move_keeps_own_king_safe_witness :
    inBounds 1 4 = true
      ∧ ∃ (ms : List Move) (p : Piece), getLegalMoves reset 1 4 = some ms
          ∧ rd reset.squares 1 4 = some p
          ∧ ∀ m ∈ ms, ∃ b2 : Board, makeMove reset m = some b2
              ∧ isInCheck b2 (pieceColor p) = some false :=
  ⟨by decide, legal_move_keeps_own_king_safe reset 1 4 (by decide)⟩

/-- C2: every state reached from `reset` by `makeMove` of moves taken from
`getAllLegalMoves` has exactly one white king and exactly one black king on
its grid. -/
theorem reachable_one_king_each (b : Board) (h : Reachable b) :
    ExactlyOne b.squares W_KING ∧ ExactlyOne b.squares B_KING :=
  ⟨(inv_of_reachable h).whiteKing, (inv_of_reachable h).blackKing⟩

theorem reachable_one_king_each_witness :
    Reachable (afterMove reset ⟨1, 4, 3, 4⟩)
      ∧ ExactlyOne (afterMove reset ⟨1, 4, 3, 4⟩).squares W_KING
      ∧ ExactlyOne (afterMove reset ⟨1, 4, 3, 4⟩).squares B_KING :=
  have hr : Reachable (afterMove reset ⟨1, 4, 3, 4⟩) :=
    @Reachable.step reset _ (allLegal reset) ⟨1, 4, 3, 4⟩ Reachable.start
      (getAllLegalMoves_eq reset) (by decide!) (makeMove_eq reset _ (by decide) (by decide))
  ⟨hr, reachable_one_king_each _ hr⟩

/-- C3: for an attacker colour white or black and a square inside the grid
that holds a piece of the other colour, `isSquareAttackedBy` returns a value,
and it is `true` exactly when some square holding a piece of the attacker's
colour has a generated pseudo-legal move whose destination is that square. -/
theorem attacked_iff_pseudo_capture (b : Board) (r c : Int) (attacker : Color) (p : Piece)
    (ha : attacker = WHITE ∨ attacker = BLACK) (hp : rd b.squares r c = some p)
    (hopp : pieceColor p = otherSide attacker) :
    ∃ v : Bool, isSquareAttackedBy b r c attacker = some v
      ∧ (v = true ↔ ∃ (r0 c0 : Int) (q : Piece) (ms : List Move) (m : Move),
            rd b.squares r0 c0 = some q ∧ pieceColor q = attacker
              ∧ generatePieceMoves b r0 c0 [] = some ms ∧ m ∈ ms
              ∧ m.toRow = r ∧ m.toCol = c) := by
  obtain ⟨hb, hsq⟩ := rd_some hp
  have hne : pieceColor (sq b.squares r c) ≠ attacker := by
    rw [hsq, hopp]; rcases ha with rfl | rfl <;> decide
  have ht : sq b.squares r c ≠ EMPTY := by
    intro h
    rw [hsq] at h
    rw [h] at hopp
    rcases ha with rfl | rfl <;> cases hopp
  refine ⟨attacked b.squares r c attacker, isSquareAttackedBy_eq b r c attacker, ?_⟩
  constructor
  · intro h
    obtain ⟨r0, c0, hb0, hcol, hm⟩ := pseudo_of_attacked ha hb ht hne h
    refine ⟨r0, c0, sq b.squares r0 c0, pseudo b r0 c0, ⟨r0, c0, r, c⟩, rd_eq hb0, hcol, ?_, hm,
      rfl, rfl⟩
    rw [generatePieceMoves_eq b r0 c0 [] hb0, List.nil_append]
  · rintro ⟨r0, c0, q, ms, m, hq, hcol, hgen, hm, rfl, rfl⟩
    obtain ⟨hb0, hsq0⟩ := rd_some hq
    rw [generatePieceMoves_eq b r0 c0 [] hb0, List.nil_append] at hgen
    cases hgen
    have := attacked_of_pseudo hb0 hm ht
    rw [hsq0, hcol] at this
    exact this

theorem attacked_iff_pseudo_capture_witness :
    (WHITE = WHITE ∨ WHITE = BLACK) ∧ rd staleGrid 7 0 = some B_KING
      ∧ pieceColor B_KING = otherSide WHITE
      ∧ ∃ v : Bool, isSquareAttackedBy staleBoard 7 0 WHITE = some v
          ∧ (v = true ↔ ∃ (r0 c0 : Int) (q : Piece) (ms : List Move) (m : Move),
                rd staleBoard.squares r0 c0 = some q ∧ pieceColor q = WHITE
                  ∧ generatePieceMoves staleBoard r0 c0 [] = some ms ∧ m ∈ ms
                  ∧ m.toRow = 7 ∧ m.toCol = 0) :=
  ⟨Or.inl rfl, by decide, by decide,
    attacked_iff_pseudo_capture staleBoard 7 0 WHITE B_KING (Or.inl rfl) (by decide) (by decide)⟩

theorem staysSafe_iff (b : Board) (col : Color) (m : Move) :
    staysSafe b col m = true ↔
      ∃ copy : Board, applyMoveRaw b m = some copy ∧ isInCheck copy col = some false := by
  unfold staysSafe
  cases h1 : applyMoveRaw b m with
  | none => simp
  | some copy =>
    cases h2 : isInCheck copy col with
    | none => simp [h2]
    | some chk => cases chk <;> simp [h2]

/-- C4: for a square inside the grid holding `p`, `getLegalMoves` returns the
pseudo-legal moves generated for the square, in their order, filtered by the
test that the move applied by `applyMoveRaw` to a copy of the state leaves
the colour of `p` out of check. -/
theorem getLegalMoves_filters_pseudo (b : Board) (r c : Int) (p : Piece)
    (hp : rd b.squares r c = some p) :
    ∃ ps : List Move, generatePieceMoves b r c [] = some ps
      ∧ getLegalMoves b r c = some (ps.filter (staysSafe b (pieceColor p)))
      ∧ ∀ m : Move, m ∈ ps.filter (staysSafe b (pieceColor p)) ↔
          m ∈ ps ∧ ∃ copy : Board, applyMoveRaw b m = some copy
            ∧ isInCheck copy (pieceColor p) = some false := by
  obtain ⟨hb, hsq⟩ := rd_some hp
  refine ⟨pseudo b r c, by rw [generatePieceMoves_eq b r c [] hb, List.nil_append], ?_, ?_⟩
  · rw [getLegalMoves_eq b r c hb]
    unfold legal
    congr 1
    apply List.filter_congr
    intro m hm
    obtain ⟨hfr, hfc, hbt⟩ := pseudo_inBounds hb hm
    have hbf : inBounds m.fromRow m.fromCol = true := by rw [hfr, hfc]; exact hb
    unfold staysSafe
    rw [applyMoveRaw_eq b m hbf hbt]
    simp only [isInCheck_eq, hsq]
  · intro m
    rw [List.mem_filter, staysSafe_iff]

theorem getLegalMoves_filters_pseudo_witness :
    rd reset.squares 0 1 = some W_KNIGHT
      ∧ ∃ ps : List Move, generatePieceMoves reset 0 1 [] = some ps
          ∧ getLegalMoves reset 0 1 = some (ps.filter (staysSafe reset (pieceColor W_KNIGHT)))
          ∧ ∀ m : Move, m ∈ ps.filter (staysSafe reset (pieceColor W_KNIGHT)) ↔
              m ∈ ps ∧ ∃ copy : Board, applyMoveRaw reset m = some copy
                ∧ isInCheck copy (pieceColor W_KNIGHT) = some false :=
  ⟨by decide, getLegalMoves_filters_pseudo reset 0 1 W_KNIGHT (by decide)⟩

theorem attacked_false_iff (b : Board) (r c : Int) (a : Color) :
    isSquareAttackedBy b r c a = some false ↔ attacked b.squares r c a = false := by
  rw [isSquareAttackedBy_eq]; simp

theorem inCheck_false_iff (b : Board) (col : Color) :
    isInCheck b col = some false ↔ inCheck b.squares col = false := by
  rw [isInCheck_eq]; simp

theorem rd_iff_sq {g : Grid} {r c : Int} {p : Piece} (hb : inBounds r c = true) :
    rd g r c = some p ↔ sq g r c = p := by
  rw [rd_eq hb]; simp

/-- Which two-column moves the move list of a king holds. -/
theorem king_two_columns {b : Board} {r c : Int} {m : Move}
    (hp : sq b.squares r c = W_KING ∨ sq b.squares r c = B_KING) :
    (m ∈ pseudo b r c ∧ |m.toCol - m.fromCol| = 2) ↔
      m ∈ castlingList b (pieceColor (sq b.squares r c)) r c := by
  have hstep : ∀ col, m ∈ stepMoves b.squares col r c kingOffsets →
      ¬ |m.toCol - m.fromCol| = 2 := by
    intro col h
    obtain ⟨d, hd, -, -, rfl⟩ := mem_stepMoves.1 h
    have := (offs_king_small d hd).2
    intro h2
    simp only at h2
    rw [abs_eq (by norm_num)] at h2
    omega
  have hcastle : ∀ col, m ∈ castlingList b col r c → |m.toCol - m.fromCol| = 2 := by
    intro col h
    rcases mem_castlingList.1 h with ⟨-, -, h3⟩ | ⟨-, -, h3⟩ <;>
      rcases h3 with ⟨-, rfl⟩ | ⟨-, rfl⟩ <;> decide
  rcases hp with hp | hp
  · simp only [pseudo, hp, List.mem_append]
    have hc : pieceColor W_KING = WHITE := rfl
    rw [hc]
    constructor
    · rintro ⟨h | h, h2⟩
      · exact absurd h2 (hstep _ h)
      · exact h
    · intro h; exact ⟨Or.inr h, hcastle _ h⟩
  · simp only [pseudo, hp, List.mem_append]
    have hc : pieceColor B_KING = BLACK := rfl
    rw [hc]
    constructor
    · rintro ⟨h | h, h2⟩
      · exact absurd h2 (hstep _ h)
      · exact h
    · intro h; exact ⟨Or.inr h, hcastle _ h⟩

/-- C5: a king move of two columns is generated exactly under the castling
conditions.  For the white king on `(0, 4)` the move to `(0, 6)` is generated
iff `castleWK` is set, `(0, 5)` and `(0, 6)` are empty, `(0, 7)` holds a white
rook, white is not in check and neither `(0, 5)` nor `(0, 6)` is attacked by
black; the move to `(0, 2)` iff `castleWQ` is set, `(0, 1)`, `(0, 2)`, `(0, 3)`
are empty, `(0, 0)` holds a white rook, white is not in check and neither
`(0, 3)` nor `(0, 2)` is attacked by black; the same for the black king on
`(7, 4)` with `castleBK`, `castleBQ` on row 7; and every two-column move
generated for a king is one of these four moves of a king on its home square. -/
theorem castling_generated_iff (b : Board) :
    (rd b.squares 0 4 = some W_KING →
      ∃ ms : List Move, generatePieceMoves b 0 4 [] = some ms
        ∧ ((⟨0, 4, 0, 6⟩ : Move) ∈ ms ↔
            b.castleWK = true ∧ rd b.squares 0 5 = some EMPTY ∧ rd b.squares 0 6 = some EMPTY
              ∧ rd b.squares 0 7 = some W_ROOK ∧ isInCheck b WHITE = some false
              ∧ isSquareAttackedBy b 0 5 BLACK = some false
              ∧ isSquareAttackedBy b 0 6 BLACK = some false)
        ∧ ((⟨0, 4, 0, 2⟩ : Move) ∈ ms ↔
            b.castleWQ = true ∧ rd b.squares 0 1 = some EMPTY ∧ rd b.squares 0 2 = some EMPTY
              ∧ rd b.squares 0 3 = some EMPTY
              ∧ rd b.squares 0 0 = some W_ROOK ∧ isInCheck b WHITE = some false
              ∧ isSquareAttackedBy b 0 3 BLACK = some false
              ∧ isSquareAttackedBy b 0 2 BLACK = some false))
    ∧ (rd b.squares 7 4 = some B_KING →
      ∃ ms : List Move, generatePieceMoves b 7 4 [] = some ms
        ∧ ((⟨7, 4, 7, 6⟩ : Move) ∈ ms ↔
            b.castleBK = true ∧ rd b.squares 7 5 = some EMPTY ∧ rd b.squares 7 6 = some EMPTY
              ∧ rd b.squares 7 7 = some B_ROOK ∧ isInCheck b BLACK = some false
              ∧ isSquareAttackedBy b 7 5 WHITE = some false
              ∧ isSquareAttackedBy b 7 6 WHITE = some false)
        ∧ ((⟨7, 4, 7, 2⟩ : Move) ∈ ms ↔
            b.castleBQ = true ∧ rd b.squares 7 1 = some EMPTY ∧ rd b.squares 7 2 = some EMPTY
              ∧ rd b.squares 7 3 = some EMPTY
              ∧ rd b.squares 7 0 = some B_ROOK ∧ isInCheck b BLACK = some false
              ∧ isSquareAttackedBy b 7 3 WHITE = some false
              ∧ isSquareAttackedBy b 7 2 WHITE = some false))
    ∧ (∀ (r c : Int) (p : Piece) (ms : List Move) (m : Move),
        rd b.squares r c = some p → (p = W_KING ∨ p = B_KING) →
        generatePieceMoves b r c [] = some ms → m ∈ ms → |m.toCol - m.fromCol| = 2 →
        (p = W_KING ∧ r = 0 ∧ c = 4 ∧ (m = ⟨0, 4, 0, 6⟩ ∨ m = ⟨0, 4, 0, 2⟩))
          ∨ (p = B_KING ∧ r = 7 ∧ c = 4 ∧ (m = ⟨7, 4, 7, 6⟩ ∨ m = ⟨7, 4, 7, 2⟩))) := by
  have b05 : inBounds 0 5 = true := by decide
  have b06 : inBounds 0 6 = true := by decide
  have b07 : inBounds 0 7 = true := by decide
  have b01 : inBounds 0 1 = true := by decide
  have b02 : inBounds 0 2 = true := by decide
  have b03 : inBounds 0 3 = true := by decide
  have b00 : inBounds 0 0 = true := by decide
  have b75 : inBounds 7 5 = true := by decide
  have b76 : inBounds 7 6 = true := by decide
  have b77 : inBounds 7 7 = true := by decide
  have b71 : inBounds 7 1 = true := by decide
  have b72 : inBounds 7 2 = true := by decide
  have b73 : inBounds 7 3 = true := by decide
  have b70 : inBounds 7 0 = true := by decide
  refine ⟨?_, ?_, ?_⟩
  · intro hk
    obtain ⟨hb, hsq⟩ := rd_some hk
    refine ⟨pseudo b 0 4, by rw [generatePieceMoves_eq b 0 4 [] hb, List.nil_append], ?_, ?_⟩
    · have h := @king_two_columns b 0 4 ⟨0, 4, 0, 6⟩ (Or.inl hsq)
      have h2 : |(⟨0, 4, 0, 6⟩ : Move).toCol - (⟨0, 4, 0, 6⟩ : Move).fromCol| = 2 := by decide
      simp only [h2, and_true] at h
      rw [h, hsq, mem_castlingList]
      simp only [rd_iff_sq b05, rd_iff_sq b06, rd_iff_sq b07, attacked_false_iff,
        inCheck_false_iff, castleOk_iff, List.mem_cons, List.mem_singleton, List.not_mem_nil,
        or_false, forall_eq_or_imp, forall_eq]
      have hc : pieceColor W_KING = WHITE := rfl
      simp [hc]
      tauto
    · have h := @king_two_columns b 0 4 ⟨0, 4, 0, 2⟩ (Or.inl hsq)
      have h2 : |(⟨0, 4, 0, 2⟩ : Move).toCol - (⟨0, 4, 0, 2⟩ : Move).fromCol| = 2 := by decide
      simp only [h2, and_true] at h
      rw [h, hsq, mem_castlingList]
      simp only [rd_iff_sq b01, rd_iff_sq b02, rd_iff_sq b03, rd_iff_sq b00, attacked_false_iff,
        inCheck_false_iff, castleOk_iff, List.mem_cons, List.mem_singleton, List.not_mem_nil,
        or_false, forall_eq_or_imp, forall_eq]
      have hc : pieceColor W_KING = WHITE := rfl
      simp [hc]
      tauto
  · intro hk
    obtain ⟨hb, hsq⟩ := rd_some hk
    refine ⟨pseudo b 7 4, by rw [generatePieceMoves_eq b 7 4 [] hb, List.nil_append], ?_, ?_⟩
    · have h := @king_two_columns b 7 4 ⟨7, 4, 7, 6⟩ (Or.inr hsq)
      have h2 : |(⟨7, 4, 7, 6⟩ : Move).toCol - (⟨7, 4, 7, 6⟩ : Move).fromCol| = 2 := by decide
      simp only [h2, and_true] at h
      rw [h, hsq, mem_castlingList]
      simp only [rd_iff_sq b75, rd_iff_sq b76, rd_iff_sq b77, attacked_false_iff,
        inCheck_false_iff, castleOk_iff, List.mem_cons, List.mem_singleton, List.not_mem_nil,
        or_false, forall_eq_or_imp, forall_eq]
      have hc : pieceColor B_KING = BLACK := rfl
      simp [hc]
      tauto
    · have h := @king_two_columns b 7 4 ⟨7, 4, 7, 2⟩ (Or.inr hsq)
      have h2 : |(⟨7, 4, 7, 2⟩ : Move).toCol - (⟨7, 4, 7, 2⟩ : Move).fromCol| = 2 := by decide
      simp only [h2, and_true] at h
      rw [h, hsq, mem_castlingList]
      simp only [rd_iff_sq b71, rd_iff_sq b72, rd_iff_sq b73, rd_iff_sq b70, attacked_false_iff,
        inCheck_false_iff, castleOk_iff, List.mem_cons, List.mem_singleton, List.not_mem_nil,
        or_false, forall_eq_or_imp, forall_eq]
      have hc : pieceColor B_KING = BLACK := rfl
      simp [hc]
      tauto
  · intro r c p ms m hp hk hgen hm h2
    obtain ⟨hb, hsq⟩ := rd_some hp
    rw [generatePieceMoves_eq b r c [] hb, List.nil_append] at hgen
    cases hgen
    have h := (@king_two_columns b r c m (by rw [hsq]; exact hk)).1 ⟨hm, h2⟩
    rw [hsq] at h
    rcases mem_castlingList.1 h with ⟨⟨hcol, hr, hc⟩, -, h3⟩ | ⟨⟨hcol, hr, hc⟩, -, h3⟩
    · left
      refine ⟨?_, hr, hc, ?_⟩
      · rcases hk with rfl | rfl
        · rfl
        · cases hcol
      · rcases h3 with ⟨-, h3⟩ | ⟨-, h3⟩
        · exact Or.inl h3
        · exact Or.inr h3
    · right
      refine ⟨?_, hr, hc, ?_⟩
      · rcases hk with rfl | rfl
        · cases hcol
        · rfl
      · rcases h3 with ⟨-, h3⟩ | ⟨-, h3⟩
        · exact Or.inl h3
        · exact Or.inr h3

theorem castling_generated_iff_witness :
    rd castleBoard.squares 0 4 = some W_KING
      ∧ ∃ ms : List Move, generatePieceMoves castleBoard 0 4 [] = some ms
          ∧ (⟨0, 4, 0, 6⟩ : Move) ∈ ms ∧ (⟨0, 4, 0, 2⟩ : Move) ∈ ms := by
  have hk : rd castleBoard.squares 0 4 = some W_KING := by decide
  obtain ⟨ms, hgen, h6, h2⟩ := (castling_generated_iff castleBoard).1 hk
  exact ⟨hk, ms, hgen, h6.2 (by decide!), h2.2 (by decide!)⟩

/-- C6: on the state that `reset` produces `getAllLegalMoves` returns exactly
20 moves, and so it does on the same grid with black to move. -/
theorem start_position_twenty_moves :
    (getAllLegalMoves reset).map List.length = some 20
      ∧ (getAllLegalMoves { reset with sideToMove := BLACK }).map List.length = some 20 := by
  decide!

/-- C7: after fool's mate (f3, e5, g4, Qh4 played by `makeMove` from `reset`)
the game is over, white is to move, has no legal move and is in check, and
`resultText` names Black as the winner by checkmate. -/
theorem fools_mate_is_checkmate :
    (playMoves reset [⟨1, 5, 2, 5⟩, ⟨6, 4, 4, 4⟩, ⟨1, 6, 3, 6⟩, ⟨7, 3, 3, 7⟩]).map
        (fun b => (b.gameOver, b.sideToMove, getAllLegalMoves b, isInCheck b WHITE, b.resultText))
      = some (true, WHITE, some [], some true, "Black wins by checkmate!") := by
  decide!

theorem allLegal_congr {b b2 : Board} (h1 : b2.squares = b.squares)
    (h2 : b2.sideToMove = b.sideToMove) (h3 : b2.castleWK = b.castleWK)
    (h4 : b2.castleWQ = b.castleWQ) (h5 : b2.castleBK = b.castleBK)
    (h6 : b2.castleBQ = b.castleBQ) (h7 : b2.enPassantCol = b.enPassantCol) :
    allLegal b2 = allLegal b := by
  unfold allLegal legal pseudo castlingList
  simp only [h1, h2, h3, h4, h5, h6, h7]

theorem allLegal_afterMove (b : Board) (m : Move) :
    allLegal (afterMove b m) = allLegal (movedBoard b m) := by
  apply allLegal_congr <;> (unfold afterMove; simp only []; split <;> rfl)

theorem some_nil_iff (ms : List Move) : some ms = some [] ↔ ms.isEmpty = true := by
  cases ms <;> simp

/-- C8: for a move with both squares inside the grid `makeMove` returns a
state; its `gameOver` is true exactly when `gameOver` was true before or
`getAllLegalMoves` of the returned state is empty; a true `gameOver` stays. -/
theorem makeMove_gameOver (s : Board) (m : Move) (hf : inBounds m.fromRow m.fromCol = true)
    (ht : inBounds m.toRow m.toCol = true) :
    ∃ s2 : Board, makeMove s m = some s2
      ∧ (s2.gameOver = true ↔ s.gameOver = true ∨ getAllLegalMoves s2 = some [])
      ∧ (s.gameOver = true → s2.gameOver = true) := by
  refine ⟨afterMove s m, makeMove_eq s m hf ht, ?_⟩
  rw [getAllLegalMoves_eq, some_nil_iff, allLegal_afterMove]
  have key : (afterMove s m).gameOver = true ↔
      s.gameOver = true ∨ (allLegal (movedBoard s m)).isEmpty = true := by
    unfold afterMove
    simp only []
    by_cases h : (allLegal (movedBoard s m)).isEmpty = true
    · rw [if_pos h]
      exact ⟨fun _ => Or.inr h, fun _ => rfl⟩
    · rw [if_neg h]
      have hg : (movedBoard s m).gameOver = s.gameOver := rfl
      rw [hg]
      exact ⟨fun hs => Or.inl hs, fun hs => hs.elim id (fun he => absurd he h)⟩
  exact ⟨key, fun h => key.2 (Or.inl h)⟩

theorem makeMove_gameOver_witness :
    inBounds (⟨6, 3, 6, 2⟩ : Move).fromRow (⟨6, 3, 6, 2⟩ : Move).fromCol = true
      ∧ inBounds (⟨6, 3, 6, 2⟩ : Move).toRow (⟨6, 3, 6, 2⟩ : Move).toCol = true
      ∧ ∃ s2 : Board, makeMove staleBoard ⟨6, 3, 6, 2⟩ = some s2
          ∧ (s2.gameOver = true ↔ staleBoard.gameOver = true ∨ getAllLegalMoves s2 = some [])
          ∧ (staleBoard.gameOver = true → s2.gameOver = true) :=
  ⟨by decide, by decide, makeMove_gameOver staleBoard ⟨6, 3, 6, 2⟩ (by decide) (by decide)⟩

/-- C9, as the specification words it, fails: in the stalemate scenario the
side to move has no legal move and is not in check, and `resultText` is not
the string `Stalemate — draw`. -/
theorem resultText_not_as_specified :
    (makeMove staleBoard ⟨6, 3, 6, 2⟩).map
        (fun b => (getAllLegalMoves b, isInCheck b b.sideToMove,
          decide (b.resultText = "Stalemate — draw")))
      = some (some [], some false, false) := by
  decide!

/-- C9, amended: whenever `makeMove` leaves the new side to move without a
legal move, `resultText` is `White wins by checkmate!` if the new side is in
check and white moved, `Black wins by checkmate!` if the new side is in check
and black moved, and `Stalemate — draw!` if the new side is not in check. -/
theorem makeMove_resultText (s : Board) (m : Move) (hf : inBounds m.fromRow m.fromCol = true)
    (ht : inBounds m.toRow m.toCol = true) :
    ∃ s2 : Board, makeMove s m = some s2
      ∧ (getAllLegalMoves s2 = some [] →
          (isInCheck s2 s2.sideToMove = some true → s.sideToMove = WHITE →
              s2.resultText = "White wins by checkmate!")
          ∧ (isInCheck s2 s2.sideToMove = some true → s.sideToMove = BLACK →
              s2.resultText = "Black wins by checkmate!")
          ∧ (isInCheck s2 s2.sideToMove = some false →
              s2.resultText = "Stalemate — draw!")) := by
  refine ⟨afterMove s m, makeMove_eq s m hf ht, ?_⟩
  rw [getAllLegalMoves_eq, some_nil_iff, allLegal_afterMove, isInCheck_eq, afterMove_squares,
    afterMove_side]
  intro h
  have hs : (movedBoard s m).squares = applyGrid s.squares m := rfl
  have hside : (movedBoard s m).sideToMove = otherSide s.sideToMove := rfl
  have hres : (afterMove s m).resultText =
      (if inCheck (applyGrid s.squares m) (otherSide s.sideToMove) = true then
        (if otherSide s.sideToMove = WHITE then "Black wins by checkmate!"
         else "White wins by checkmate!")
       else "Stalemate — draw!") := by
    unfold afterMove
    simp only []
    rw [if_pos h, hs, hside]
  rw [hres]
  refine ⟨?_, ?_, ?_⟩
  · intro hc hw
    have hc2 : inCheck (applyGrid s.squares m) (otherSide s.sideToMove) = true := by
      simpa using hc
    rw [if_pos hc2, hw]
    rfl
  · intro hc hb
    have hc2 : inCheck (applyGrid s.squares m) (otherSide s.sideToMove) = true := by
      simpa using hc
    rw [if_pos hc2, hb]
    rfl
  · intro hc
    have hc2 : inCheck (applyGrid s.squares m) (otherSide s.sideToMove) = false := by
      simpa using hc
    rw [hc2]
    rfl

theorem makeMove_resultText_witness :
    inBounds (⟨6, 3, 6, 2⟩ : Move).fromRow (⟨6, 3, 6, 2⟩ : Move).fromCol = true
      ∧ inBounds (⟨6, 3, 6, 2⟩ : Move).toRow (⟨6, 3, 6, 2⟩ : Move).toCol = true
      ∧ (makeMove staleBoard ⟨6, 3, 6, 2⟩).map
          (fun b => (b.gameOver, getAllLegalMoves b, isInCheck b BLACK, b.resultText))
        = some (true, some [], some false, "Stalemate — draw!")
      ∧ ∃ s2 : Board, makeMove staleBoard ⟨6, 3, 6, 2⟩ = some s2
          ∧ (getAllLegalMoves s2 = some [] →
              (isInCheck s2 s2.sideToMove = some true → staleBoard.sideToMove = WHITE →
                  s2.resultText = "White wins by checkmate!")
              ∧ (isInCheck s2 s2.sideToMove = some true → staleBoard.sideToMove = BLACK →
                  s2.resultText = "Black wins by checkmate!")
              ∧ (isInCheck s2 s2.sideToMove = some false →
                  s2.resultText = "Stalemate — draw!")) :=
  ⟨by decide, by decide, by decide!,
    makeMove_resultText staleBoard ⟨6, 3, 6, 2⟩ (by decide) (by decide)⟩

theorem applyMoveRaw_out (b : Board) (m : Move)
    (h : ¬ (inBounds m.fromRow m.fromCol = true ∧ inBounds m.toRow m.toCol = true)) :
    applyMoveRaw b m = none := by
  unfold applyMoveRaw
  by_cases hf : inBounds m.fromRow m.fromCol = true
  · have ht : inBounds m.toRow m.toCol = false := by
      by_contra hc
      exact h ⟨hf, by simpa using hc⟩
    rw [rd_eq hf, rd_none ht]
    simp only [Option.some_bind, Option.none_bind]
    generalize sq b.squares m.fromRow m.fromCol = p
    cases h1 : (if (p = W_PAWN ∨ p = B_PAWN) ∧ m.fromCol ≠ m.toCol then (none : Option Grid)
        else some b.squares) with
    | none => rfl
    | some g1 =>
      simp only [Option.some_bind]
      cases h2 : (if (p = W_KING ∨ p = B_KING) ∧ |m.toCol - m.fromCol| = 2 then
          if m.toCol = 6 then
            (rd g1 m.fromRow 7).bind fun rook => (wr g1 m.fromRow 5 rook).bind fun g =>
              wr g m.fromRow 7 EMPTY
          else
            (rd g1 m.fromRow 0).bind fun rook => (wr g1 m.fromRow 3 rook).bind fun g =>
              wr g m.fromRow 0 EMPTY
        else some g1) with
      | none => rfl
      | some g2 =>
        simp only [Option.some_bind, wr_none _ ht, Option.none_bind]
  · rw [rd_none (by simpa using hf)]
    rfl

theorem makeMove_some {s s2 : Board} {m : Move} (h : makeMove s m = some s2) :
    inBounds m.fromRow m.fromCol = true ∧ inBounds m.toRow m.toCol = true := by
  by_contra hc
  unfold makeMove at h
  rw [applyMoveRaw_out s m hc] at h
  cases hr : rd s.squares m.fromRow m.fromCol <;> rw [hr] at h <;> cases h

theorem afterMove_rights (s : Board) (m : Move) : RightsNotRegained s (afterMove s m) := by
  have h : RightsNotRegained s (movedBoard s m) := by
    unfold RightsNotRegained movedBoard
    simp only []
    refine ⟨?_, ?_, ?_, ?_⟩ <;> intro h <;> rw [h] <;> simp
  unfold afterMove
  simp only []
  split
  · exact h
  · exact h

theorem rightsNotRegained_trans {a b c : Board} (h1 : RightsNotRegained a b)
    (h2 : RightsNotRegained b c) : RightsNotRegained a c :=
  ⟨fun h => h2.1 (h1.1 h), fun h => h2.2.1 (h1.2.1 h), fun h => h2.2.2.1 (h1.2.2.1 h),
    fun h => h2.2.2.2 (h1.2.2.2 h)⟩

theorem makeMove_rights {s s2 : Board} {m : Move} (h : makeMove s m = some s2) :
    RightsNotRegained s s2 := by
  obtain ⟨hf, ht⟩ := makeMove_some h
  rw [makeMove_eq s m hf ht] at h
  cases h
  exact afterMove_rights s m

/-- C10: castling rights never come back.  `makeMove` returns a state for
every move with both squares inside the grid; whatever the move, a castling
flag that is false before `makeMove` is false after it; and so it is after
any sequence of `makeMove` calls. -/
theorem castling_rights_monotone (s : Board) :
    (∀ m : Move, inBounds m.fromRow m.fromCol = true → inBounds m.toRow m.toCol = true →
        ∃ s2 : Board, makeMove s m = some s2)
      ∧ (∀ (m : Move) (s2 : Board), makeMove s m = some s2 → RightsNotRegained s s2)
      ∧ (∀ (ms : List Move) (s2 : Board), playMoves s ms = some s2 → RightsNotRegained s s2) := by
  refine ⟨fun m hf ht => ⟨afterMove s m, makeMove_eq s m hf ht⟩, fun m s2 h => makeMove_rights h,
    ?_⟩
  intro ms
  induction ms generalizing s with
  | nil =>
    intro s2 h
    cases h
    exact ⟨id, id, id, id⟩
  | cons m ms ih =>
    intro s2 h
    unfold playMoves at h
    cases h1 : makeMove s m with
    | none => rw [h1] at h; cases h
    | some s1 =>
      rw [h1] at h
      exact rightsNotRegained_trans (makeMove_rights h1) (ih s1 s2 h)

theorem castling_rights_monotone_witness :
    (∃ s2 : Board, playMoves staleBoard [⟨5, 1, 5, 0⟩, ⟨7, 0, 7, 1⟩] = some s2)
      ∧ ∀ s2 : Board, playMoves staleBoard [⟨5, 1, 5, 0⟩, ⟨7, 0, 7, 1⟩] = some s2 →
          RightsNotRegained staleBoard s2 :=
  ⟨⟨_, by
      unfold playMoves
      rw [makeMove_eq _ _ (by decide) (by decide)]
      simp only [Option.some_bind]
      unfold playMoves
      rw [makeMove_eq _ _ (by decide) (by decide)]
      rfl⟩,
    fun s2 h => (castling_rights_monotone staleBoard).2.2 _ s2 h⟩

theorem afterMove_flags (s : Board) (m : Move) :
    (afterMove s m).castleWK = (movedBoard s m).castleWK
      ∧ (afterMove s m).castleWQ = (movedBoard s m).castleWQ
      ∧ (afterMove s m).castleBK = (movedBoard s m).castleBK
      ∧ (afterMove s m).castleBQ = (movedBoard s m).castleBQ := by
  unfold afterMove
  simp only []
  split <;> exact ⟨rfl, rfl, rfl, rfl⟩

/-- The value of one castling flag after `makeMove`, for a flag with king
`k`, rook `rk` and home corner `(hr, hc)`. -/
theorem flag_after_iff (flag : Bool) (p k rk : Piece) (m : Move) (hr hc : Int) :
    (if m.toRow = hr ∧ m.toCol = hc then false
      else if p = rk ∧ m.fromRow = hr ∧ m.fromCol = hc then false
      else if p = k then false else flag) = true ↔
      flag = true ∧ p ≠ k ∧ ¬ (p = rk ∧ m.fromRow = hr ∧ m.fromCol = hc)
        ∧ ¬ (m.toRow = hr ∧ m.toCol = hc) := by
  by_cases h1 : m.toRow = hr ∧ m.toCol = hc
  · rw [if_pos h1]
    constructor
    · intro h; cases h
    · rintro ⟨-, -, -, h⟩; exact absurd h1 h
  · rw [if_neg h1]
    by_cases h2 : p = rk ∧ m.fromRow = hr ∧ m.fromCol = hc
    · rw [if_pos h2]
      constructor
      · intro h; cases h
      · rintro ⟨-, -, h, -⟩; exact absurd h2 h
    · rw [if_neg h2]
      by_cases h3 : p = k
      · rw [if_pos h3]
        constructor
        · intro h; cases h
        · rintro ⟨-, h, -, -⟩; exact absurd h3 h
      · rw [if_neg h3]
        exact ⟨fun h => ⟨h, h3, h2, h1⟩, fun h => h.1⟩

/-- C11: for a move with both squares inside the grid and `p` the piece on
its source, each castling flag is true after `makeMove` exactly when it was
true before, `p` is not the king of the flag's colour, `p` is not the rook of
that colour leaving the flag's home corner, and the destination is not that
home corner. -/
theorem castling_flags_after_move (s : Board) (m : Move)
    (hf : inBounds m.fromRow m.fromCol = true) (ht : inBounds m.toRow m.toCol = true) :
    ∃ (s2 : Board) (p : Piece), makeMove s m = some s2
      ∧ rd s.squares m.fromRow m.fromCol = some p
      ∧ (s2.castleWK = true ↔ s.castleWK = true ∧ p ≠ W_KING
          ∧ ¬ (p = W_ROOK ∧ m.fromRow = 0 ∧ m.fromCol = 7) ∧ ¬ (m.toRow = 0 ∧ m.toCol = 7))
      ∧ (s2.castleWQ = true ↔ s.castleWQ = true ∧ p ≠ W_KING
          ∧ ¬ (p = W_ROOK ∧ m.fromRow = 0 ∧ m.fromCol = 0) ∧ ¬ (m.toRow = 0 ∧ m.toCol = 0))
      ∧ (s2.castleBK = true ↔ s.castleBK = true ∧ p ≠ B_KING
          ∧ ¬ (p = B_ROOK ∧ m.fromRow = 7 ∧ m.fromCol = 7) ∧ ¬ (m.toRow = 7 ∧ m.toCol = 7))
      ∧ (s2.castleBQ = true ↔ s.castleBQ = true ∧ p ≠ B_KING
          ∧ ¬ (p = B_ROOK ∧ m.fromRow = 7 ∧ m.fromCol = 0) ∧ ¬ (m.toRow = 7 ∧ m.toCol = 0)) := by
  obtain ⟨h1, h2, h3, h4⟩ := afterMove_flags s m
  refine ⟨afterMove s m, sq s.squares m.fromRow m.fromCol, makeMove_eq s m hf ht, rd_eq hf,
    ?_, ?_, ?_, ?_⟩
  · rw [h1]; exact flag_after_iff _ _ _ _ _ _ _
  · rw [h2]; exact flag_after_iff _ _ _ _ _ _ _
  · rw [h3]; exact flag_after_iff _ _ _ _ _ _ _
  · rw [h4]; exact flag_after_iff _ _ _ _ _ _ _

theorem castling_flags_after_move_witness :
    inBounds (⟨0, 1, 2, 2⟩ : Move).fromRow (⟨0, 1, 2, 2⟩ : Move).fromCol = true
      ∧ inBounds (⟨0, 1, 2, 2⟩ : Move).toRow (⟨0, 1, 2, 2⟩ : Move).toCol = true
      ∧ ∃ (s2 : Board) (p : Piece), makeMove reset ⟨0, 1, 2, 2⟩ = some s2
          ∧ rd reset.squares 0 1 = some p ∧ s2.castleWK = true ∧ s2.castleWQ = true
          ∧ s2.castleBK = true ∧ s2.castleBQ = true := by
  obtain ⟨s2, p, h1, h2, h3, h4, h5, h6⟩ :=
    castling_flags_after_move reset ⟨0, 1, 2, 2⟩ (by decide) (by decide)
  have hp : p = W_KNIGHT := by
    have : rd reset.squares 0 1 = some W_KNIGHT := by decide
    rw [h2] at this
    exact Option.some.inj this
  subst hp
  exact ⟨by decide, by decide, s2, W_KNIGHT, h1, h2, h3.2 (by decide), h4.2 (by decide),
    h5.2 (by decide), h6.2 (by decide)⟩

/-- C12: for a move with both squares inside the grid and `p` the piece on
its source, the en-passant target file after `makeMove` is the source column
if `p` is a white pawn advancing two rows or a black pawn advancing two rows,
and unset (`-1`) otherwise, whatever it was before. -/
theorem enPassant_after_move (s : Board) (m : Move)
    (hf : inBounds m.fromRow m.fromCol = true) (ht : inBounds m.toRow m.toCol = true) :
    ∃ (s2 : Board) (p : Piece), makeMove s m = some s2
      ∧ rd s.squares m.fromRow m.fromCol = some p
      ∧ s2.enPassantCol =
          (if (p = W_PAWN ∧ m.toRow - m.fromRow = 2) ∨ (p = B_PAWN ∧ m.fromRow - m.toRow = 2)
            then m.fromCol else -1) := by
  refine ⟨afterMove s m, sq s.squares m.fromRow m.fromCol, makeMove_eq s m hf ht, rd_eq hf, ?_⟩
  rw [afterMove_ep]
  by_cases h1 : sq s.squares m.fromRow m.fromCol = B_PAWN ∧ m.fromRow - m.toRow = 2
  · rw [if_pos h1, if_pos (Or.inr h1)]
  · rw [if_neg h1]
    by_cases h2 : sq s.squares m.fromRow m.fromCol = W_PAWN ∧ m.toRow - m.fromRow = 2
    · rw [if_pos h2, if_pos (Or.inl h2)]
    · rw [if_neg h2, if_neg (fun h => h.elim h2 h1)]

theorem enPassant_after_move_witness :
    inBounds (⟨1, 4, 3, 4⟩ : Move).fromRow (⟨1, 4, 3, 4⟩ : Move).fromCol = true
      ∧ inBounds (⟨1, 4, 3, 4⟩ : Move).toRow (⟨1, 4, 3, 4⟩ : Move).toCol = true
      ∧ ∃ (s2 : Board) (p : Piece), makeMove reset ⟨1, 4, 3, 4⟩ = some s2
          ∧ rd reset.squares 1 4 = some p
          ∧ s2.enPassantCol =
              (if (p = W_PAWN ∧ (3 : Int) - 1 = 2) ∨ (p = B_PAWN ∧ (1 : Int) - 3 = 2)
                then 4 else -1) :=
  ⟨by decide, by decide, enPassant_after_move reset ⟨1, 4, 3, 4⟩ (by decide) (by decide)⟩

/-! ## Pawn moves -/

theorem pawnMoves_sublist (g : Grid) (ep r c dir home epRow : Int) (enemy : Color) :
    List.Sublist (pawnMoves g ep r c dir home epRow enemy)
      [⟨r, c, r + dir, c⟩, ⟨r, c, r + dir + dir, c⟩, ⟨r, c, r + dir, c + -1⟩,
        ⟨r, c, r + dir, c + 1⟩] := by
  unfold pawnMoves
  simp only [List.flatMap_cons, List.flatMap_nil, List.append_nil]
  have hA : List.Sublist
      (if inBounds (r + dir) c = true ∧ sq g (r + dir) c = EMPTY then
        (⟨r, c, r + dir, c⟩ : Move) ::
          (if r = home ∧ sq g (r + dir + dir) c = EMPTY then
            [(⟨r, c, r + dir + dir, c⟩ : Move)] else [])
      else [])
      [(⟨r, c, r + dir, c⟩ : Move), ⟨r, c, r + dir + dir, c⟩] := by
    split
    · split
      · exact List.Sublist.refl _
      · exact List.Sublist.cons₂ _ (List.nil_sublist _)
    · exact List.nil_sublist _
  have hB : ∀ dc : Int, List.Sublist
      (if inBounds (r + dir) (c + dc) = true then
        (if sq g (r + dir) (c + dc) ≠ EMPTY ∧ pieceColor (sq g (r + dir) (c + dc)) = enemy then
          [(⟨r, c, r + dir, c + dc⟩ : Move)] else [])
        ++ (if r = epRow ∧ c + dc = ep ∧ sq g (r + dir) (c + dc) = EMPTY then
          [(⟨r, c, r + dir, c + dc⟩ : Move)] else [])
      else [])
      [(⟨r, c, r + dir, c + dc⟩ : Move)] := by
    intro dc
    split
    · by_cases h1 : sq g (r + dir) (c + dc) ≠ EMPTY
          ∧ pieceColor (sq g (r + dir) (c + dc)) = enemy
      · have h2 : ¬ (r = epRow ∧ c + dc = ep ∧ sq g (r + dir) (c + dc) = EMPTY) :=
          fun h => h1.1 h.2.2
        rw [if_pos h1, if_neg h2, List.append_nil]
      · rw [if_neg h1, List.nil_append]
        split
        · exact List.Sublist.refl _
        · exact List.nil_sublist _
    · exact List.nil_sublist _
  exact List.Sublist.append hA (List.Sublist.append (hB (-1)) (hB 1))

/-- No move occurs twice in the list generated for a pawn. -/
theorem pawnMoves_nodup (g : Grid) (ep r c dir home epRow : Int) (enemy : Color)
    (hdir : dir = 1 ∨ dir = -1) : (pawnMoves g ep r c dir home epRow enemy).Nodup := by
  apply List.Nodup.sublist (pawnMoves_sublist g ep r c dir home epRow enemy)
  simp only [List.nodup_cons, List.mem_cons, List.mem_singleton, Move.mk.injEq,
    List.not_mem_nil, List.nodup_nil, true_and, and_true, not_false_eq_true, or_false]
  omega

theorem rd_empty_iff {g : Grid} {r c : Int} :
    rd g r c = some EMPTY ↔ inBounds r c = true ∧ sq g r c = EMPTY := rd_some_iff

theorem rd_color_iff {g : Grid} {r c : Int} {col : Color} (hcol : col ≠ NONE) :
    (∃ t : Piece, rd g r c = some t ∧ pieceColor t = col) ↔
      inBounds r c = true ∧ sq g r c ≠ EMPTY ∧ pieceColor (sq g r c) = col := by
  constructor
  · rintro ⟨t, ht, hc⟩
    obtain ⟨hb, rfl⟩ := rd_some ht
    refine ⟨hb, ?_, hc⟩
    intro he
    rw [he] at hc
    exact hcol hc.symm
  · rintro ⟨hb, -, hc⟩
    exact ⟨_, rd_eq hb, hc⟩

/-- Membership in the list generated for a pawn, in terms of grid reads. -/
theorem mem_pawnMoves_rd {g : Grid} {ep r c dir home epRow : Int} {enemy : Color} {m : Move}
    (hen : enemy ≠ NONE)
    (hhome : r = home → 0 ≤ r + dir + dir ∧ r + dir + dir < 8) :
    m ∈ pawnMoves g ep r c dir home epRow enemy ↔
      (m = ⟨r, c, r + dir, c⟩ ∧ rd g (r + dir) c = some EMPTY)
      ∨ (m = ⟨r, c, r + dir + dir, c⟩ ∧ r = home ∧ rd g (r + dir) c = some EMPTY
          ∧ rd g (r + dir + dir) c = some EMPTY)
      ∨ (∃ dc : Int, (dc = -1 ∨ dc = 1) ∧ m = ⟨r, c, r + dir, c + dc⟩
          ∧ ∃ t : Piece, rd g (r + dir) (c + dc) = some t ∧ pieceColor t = enemy)
      ∨ (∃ dc : Int, (dc = -1 ∨ dc = 1) ∧ m = ⟨r, c, r + dir, c + dc⟩
          ∧ rd g (r + dir) (c + dc) = some EMPTY ∧ r = epRow ∧ c + dc = ep) := by
  rw [mem_pawnMoves]
  simp only [rd_empty_iff, rd_color_iff hen]
  constructor
  · rintro (⟨h1, h2, h3⟩ | ⟨h1, h2, h3, h4, h5⟩ | ⟨dc, hdc, h1, h2 | h2, h3⟩)
    · exact Or.inl ⟨h3, h1, h2⟩
    · exact Or.inr (Or.inl ⟨h5, h3, ⟨h1, h2⟩, inBounds_col _ h1 (hhome h3), h4⟩)
    · exact Or.inr (Or.inr (Or.inl ⟨dc, hdc, h3, h1, h2⟩))
    · exact Or.inr (Or.inr (Or.inr ⟨dc, hdc, h3, ⟨h1, h2.2.2⟩, h2.1, h2.2.1⟩))
  · rintro (⟨h3, h1, h2⟩ | ⟨h5, h3, ⟨h1, h2⟩, -, h4⟩ | ⟨dc, hdc, h3, h1, h2⟩
      | ⟨dc, hdc, h3, ⟨h1, h2⟩, h4, h5⟩)
    · exact Or.inl ⟨h1, h2, h3⟩
    · exact Or.inr (Or.inl ⟨h1, h2, h3, h4, h5⟩)
    · exact Or.inr (Or.inr ⟨dc, hdc, h1, Or.inl h2, h3⟩)
    · exact Or.inr (Or.inr ⟨dc, hdc, h1, Or.inr ⟨h4, h5, h2⟩, h3⟩)

/-- C14: the moves generated for a pawn.  For a white pawn on `(r, c)` they
are exactly: `(r+1, c)` if inside the grid and empty; `(r+2, c)` if `r = 1`
and `(2, c)`, `(3, c)` are empty; `(r+1, c±1)` if inside the grid and holding
a black piece; `(r+1, c±1)` if inside the grid, empty, `r = 4` and the column
is the en-passant target file; each at most once.  For a black pawn the same
mirrored (rows decreasing, home row 6, en-passant row 3, white pieces).  With
the en-passant target file unset no pawn move changes column onto an empty
square. -/
theorem pawn_moves_exact (b : Board) (r c : Int) :
    (rd b.squares r c = some W_PAWN →
      ∃ ps : List Move, generatePieceMoves b r c [] = some ps ∧ ps.Nodup
        ∧ ∀ m : Move, m ∈ ps ↔
          (m = ⟨r, c, r + 1, c⟩ ∧ rd b.squares (r + 1) c = some EMPTY)
          ∨ (m = ⟨r, c, r + 2, c⟩ ∧ r = 1 ∧ rd b.squares 2 c = some EMPTY
              ∧ rd b.squares 3 c = some EMPTY)
          ∨ (∃ dc : Int, (dc = -1 ∨ dc = 1) ∧ m = ⟨r, c, r + 1, c + dc⟩
              ∧ ∃ t : Piece, rd b.squares (r + 1) (c + dc) = some t ∧ pieceColor t = BLACK)
          ∨ (∃ dc : Int, (dc = -1 ∨ dc = 1) ∧ m = ⟨r, c, r + 1, c + dc⟩
              ∧ rd b.squares (r + 1) (c + dc) = some EMPTY ∧ r = 4
              ∧ c + dc = b.enPassantCol))
    ∧ (rd b.squares r c = some B_PAWN →
      ∃ ps : List Move, generatePieceMoves b r c [] = some ps ∧ ps.Nodup
        ∧ ∀ m : Move, m ∈ ps ↔
          (m = ⟨r, c, r - 1, c⟩ ∧ rd b.squares (r - 1) c = some EMPTY)
          ∨ (m = ⟨r, c, r - 2, c⟩ ∧ r = 6 ∧ rd b.squares 5 c = some EMPTY
              ∧ rd b.squares 4 c = some EMPTY)
          ∨ (∃ dc : Int, (dc = -1 ∨ dc = 1) ∧ m = ⟨r, c, r - 1, c + dc⟩
              ∧ ∃ t : Piece, rd b.squares (r - 1) (c + dc) = some t ∧ pieceColor t = WHITE)
          ∨ (∃ dc : Int, (dc = -1 ∨ dc = 1) ∧ m = ⟨r, c, r - 1, c + dc⟩
              ∧ rd b.squares (r - 1) (c + dc) = some EMPTY ∧ r = 3
              ∧ c + dc = b.enPassantCol))
    ∧ (b.enPassantCol = -1 →
      ∀ (p : Piece) (ps : List Move) (m : Move), rd b.squares r c = some p →
        (p = W_PAWN ∨ p = B_PAWN) → generatePieceMoves b r c [] = some ps → m ∈ ps →
        m.fromCol ≠ m.toCol → rd b.squares m.toRow m.toCol ≠ some EMPTY) := by
  refine ⟨?_, ?_, ?_⟩
  · intro hp
    obtain ⟨hb, hsq⟩ := rd_some hp
    refine ⟨pseudo b r c, by rw [generatePieceMoves_eq b r c [] hb, List.nil_append], ?_, ?_⟩
    · simp only [pseudo, hsq]
      exact pawnMoves_nodup _ _ _ _ _ _ _ _ (Or.inl rfl)
    · intro m
      simp only [pseudo, hsq]
      rw [mem_pawnMoves_rd (by decide) (by omega)]
      have e2 : r + 1 + 1 = r + 2 := by ring
      simp only [e2]
      constructor
      · rintro (h | ⟨h1, h2, h3, h4⟩ | h | h)
        · exact Or.inl h
        · subst h2
          exact Or.inr (Or.inl ⟨h1, rfl, h3, h4⟩)
        · exact Or.inr (Or.inr (Or.inl h))
        · exact Or.inr (Or.inr (Or.inr h))
      · rintro (h | ⟨h1, h2, h3, h4⟩ | h | h)
        · exact Or.inl h
        · subst h2
          exact Or.inr (Or.inl ⟨h1, rfl, h3, h4⟩)
        · exact Or.inr (Or.inr (Or.inl h))
        · exact Or.inr (Or.inr (Or.inr h))
  · intro hp
    obtain ⟨hb, hsq⟩ := rd_some hp
    refine ⟨pseudo b r c, by rw [generatePieceMoves_eq b r c [] hb, List.nil_append], ?_, ?_⟩
    · simp only [pseudo, hsq]
      exact pawnMoves_nodup _ _ _ _ _ _ _ _ (Or.inr rfl)
    · intro m
      simp only [pseudo, hsq]
      rw [mem_pawnMoves_rd (by decide) (by omega)]
      have e1 : r + -1 = r - 1 := by ring
      have e2 : r - 1 + -1 = r - 2 := by ring
      simp only [e1, e2]
      constructor
      · rintro (h | ⟨h1, h2, h3, h4⟩ | h | h)
        · exact Or.inl h
        · subst h2
          exact Or.inr (Or.inl ⟨h1, rfl, h3, h4⟩)
        · exact Or.inr (Or.inr (Or.inl h))
        · exact Or.inr (Or.inr (Or.inr h))
      · rintro (h | ⟨h1, h2, h3, h4⟩ | h | h)
        · exact Or.inl h
        · subst h2
          exact Or.inr (Or.inl ⟨h1, rfl, h3, h4⟩)
        · exact Or.inr (Or.inr (Or.inl h))
        · exact Or.inr (Or.inr (Or.inr h))
  · intro hep p ps m hp hpawn hgen hm hcol hempty
    obtain ⟨hb, hsq⟩ := rd_some hp
    rw [generatePieceMoves_eq b r c [] hb, List.nil_append] at hgen
    cases hgen
    obtain ⟨hfr, hfc, hbt⟩ := pseudo_inBounds hb hm
    obtain ⟨-, he⟩ := rd_some hempty
    rw [hfc] at hcol
    obtain ⟨h1, -⟩ := pseudo_enPassant hm (by rw [hsq]; exact hpawn) hcol he
    have hbt2 := (inBounds_iff _ _).1 hbt
    omega

theorem pawn_moves_exact_witness :
    rd reset.squares 1 4 = some W_PAWN
      ∧ ∃ ps : List Move, generatePieceMoves reset 1 4 [] = some ps ∧ ps.Nodup
          ∧ (⟨1, 4, 2, 4⟩ : Move) ∈ ps ∧ (⟨1, 4, 3, 4⟩ : Move) ∈ ps := by
  have hp : rd reset.squares 1 4 = some W_PAWN := by decide
  obtain ⟨ps, h1, h2, h3⟩ := (pawn_moves_exact reset 1 4).1 hp
  exact ⟨hp, ps, h1, h2, (h3 _).2 (Or.inl ⟨rfl, by decide⟩),
    (h3 _).2 (Or.inr (Or.inl ⟨rfl, rfl, by decide, by decide⟩))⟩

/-! ## The grid after `applyMoveRaw` -/

theorem sq_ite (P : Prop) [Decidable P] (ga gb : Grid) (i j : Int) :
    sq (if P then ga else gb) i j = if P then sq ga i j else sq gb i j := by
  split <;> rfl

/-- The grid after `applyMoveRaw`, square by square, for a move with both
squares inside the grid. -/
theorem sq_applyGrid {g : Grid} {m : Move} (hf : inBounds m.fromRow m.fromCol = true)
    (ht : inBounds m.toRow m.toCol = true) (i j : Int) :
    sq (applyGrid g m) i j =
      (if sq g m.fromRow m.fromCol = B_PAWN ∧ m.toRow = 0 ∧ i = m.toRow ∧ j = m.toCol then B_QUEEN
       else if sq g m.fromRow m.fromCol = W_PAWN ∧ m.toRow = 7 ∧ i = m.toRow ∧ j = m.toCol
         then W_QUEEN
       else if i = m.fromRow ∧ j = m.fromCol then EMPTY
       else if i = m.toRow ∧ j = m.toCol then sq g m.fromRow m.fromCol
       else if ((sq g m.fromRow m.fromCol = W_KING ∨ sq g m.fromRow m.fromCol = B_KING)
           ∧ |m.toCol - m.fromCol| = 2) ∧ m.toCol = 6 ∧ i = m.fromRow ∧ j = 7 then EMPTY
       else if ((sq g m.fromRow m.fromCol = W_KING ∨ sq g m.fromRow m.fromCol = B_KING)
           ∧ |m.toCol - m.fromCol| = 2) ∧ m.toCol = 6 ∧ i = m.fromRow ∧ j = 5
         then sq g m.fromRow 7
       else if ((sq g m.fromRow m.fromCol = W_KING ∨ sq g m.fromRow m.fromCol = B_KING)
           ∧ |m.toCol - m.fromCol| = 2) ∧ m.toCol ≠ 6 ∧ i = m.fromRow ∧ j = 0 then EMPTY
       else if ((sq g m.fromRow m.fromCol = W_KING ∨ sq g m.fromRow m.fromCol = B_KING)
           ∧ |m.toCol - m.fromCol| = 2) ∧ m.toCol ≠ 6 ∧ i = m.fromRow ∧ j = 3
         then sq g m.fromRow 0
       else if (((sq g m.fromRow m.fromCol = W_PAWN ∨ sq g m.fromRow m.fromCol = B_PAWN)
           ∧ m.fromCol ≠ m.toCol) ∧ sq g m.toRow m.toCol = EMPTY)
           ∧ i = m.fromRow ∧ j = m.toCol then EMPTY
       else sq g i j) := by
  have hf2 := (inBounds_iff _ _).1 hf
  have ht2 := (inBounds_iff _ _).1 ht
  have b1 : inBounds m.fromRow m.toCol = true := inBounds_of hf2.1 ht2.2
  have b5 : inBounds m.fromRow 5 = true := inBounds_of hf2.1 (by omega)
  have b7 : inBounds m.fromRow 7 = true := inBounds_of hf2.1 (by omega)
  have b3 : inBounds m.fromRow 3 = true := inBounds_of hf2.1 (by omega)
  have b0 : inBounds m.fromRow 0 = true := inBounds_of hf2.1 (by omega)
  unfold applyGrid
  simp only [sq_ite, sq_put _ hf, sq_put _ ht, sq_put _ b1, sq_put _ b5, sq_put _ b7,
    sq_put _ b3, sq_put _ b0]
  generalize sq g m.fromRow m.fromCol = p
  by_cases hk : p = W_KING ∨ p = B_KING
  · have hnW : p ≠ W_PAWN := by rcases hk with rfl | rfl <;> decide
    have hnB : p ≠ B_PAWN := by rcases hk with rfl | rfl <;> decide
    simp only [hk, hnW, hnB, false_and, if_false, or_self, true_and]
    split_ifs <;> first | rfl | omega
  · by_cases hW : p = W_PAWN
    · subst hW
      simp only [show ¬ (W_PAWN = W_KING ∨ W_PAWN = B_KING) by decide,
        show ¬ (W_PAWN = B_PAWN) by decide, false_and, if_false, true_and, true_or]
      split_ifs <;> first | rfl | omega | simp_all
    · by_cases hB : p = B_PAWN
      · subst hB
        simp only [show ¬ (B_PAWN = W_KING ∨ B_PAWN = B_KING) by decide,
          show ¬ (B_PAWN = W_PAWN) by decide, false_and, if_false, true_and, or_true]
        split_ifs <;> first | rfl | omega | simp_all
      · simp only [hk, hW, hB, false_and, if_false, or_self]

theorem rd_congr {g g2 : Grid} {i j : Int} (h : sq g2 i j = sq g i j) :
    rd g2 i j = rd g i j := by
  by_cases hb : inBounds i j = true
  · rw [rd_eq hb, rd_eq hb, h]
  · rw [rd_none (by simpa using hb), rd_none (by simpa using hb)]

/-- C15: for a move with both squares inside the grid, if the source holds a
white pawn and the destination row is 7, the destination holds a white queen
after `applyMoveRaw` and after `makeMove`; if the source holds a black pawn
and the destination row is 0, it holds a black queen; whatever stood on the
destination before. -/
theorem promotion_to_queen (b : Board) (m : Move) (hf : inBounds m.fromRow m.fromCol = true)
    (ht : inBounds m.toRow m.toCol = true) :
    ∃ b2 s2 : Board, applyMoveRaw b m = some b2 ∧ makeMove b m = some s2
      ∧ (rd b.squares m.fromRow m.fromCol = some W_PAWN → m.toRow = 7 →
          rd b2.squares m.toRow m.toCol = some W_QUEEN
            ∧ rd s2.squares m.toRow m.toCol = some W_QUEEN)
      ∧ (rd b.squares m.fromRow m.fromCol = some B_PAWN → m.toRow = 0 →
          rd b2.squares m.toRow m.toCol = some B_QUEEN
            ∧ rd s2.squares m.toRow m.toCol = some B_QUEEN) := by
  refine ⟨_, afterMove b m, applyMoveRaw_eq b m hf ht, makeMove_eq b m hf ht, ?_, ?_⟩
  · intro hp h7
    obtain ⟨-, hsq⟩ := rd_some hp
    have key : sq (applyGrid b.squares m) m.toRow m.toCol = W_QUEEN := by
      rw [sq_applyGrid hf ht, hsq]
      simp [h7]
    rw [afterMove_squares]
    exact ⟨by rw [rd_eq ht, key], by rw [rd_eq ht, key]⟩
  · intro hp h0
    obtain ⟨-, hsq⟩ := rd_some hp
    have key : sq (applyGrid b.squares m) m.toRow m.toCol = B_QUEEN := by
      rw [sq_applyGrid hf ht, hsq]
      simp [h0]
    rw [afterMove_squares]
    exact ⟨by rw [rd_eq ht, key], by rw [rd_eq ht, key]⟩

theorem promotion_to_queen_witness :
    inBounds (⟨6, 3, 7, 4⟩ : Move).fromRow (⟨6, 3, 7, 4⟩ : Move).fromCol = true
      ∧ inBounds (⟨6, 3, 7, 4⟩ : Move).toRow (⟨6, 3, 7, 4⟩ : Move).toCol = true
      ∧ rd promoBoard.squares 6 3 = some W_PAWN
      ∧ ∃ b2 s2 : Board, applyMoveRaw promoBoard ⟨6, 3, 7, 4⟩ = some b2
          ∧ makeMove promoBoard ⟨6, 3, 7, 4⟩ = some s2
          ∧ rd b2.squares 7 4 = some W_QUEEN ∧ rd s2.squares 7 4 = some W_QUEEN := by
  obtain ⟨b2, s2, h1, h2, h3, -⟩ :=
    promotion_to_queen promoBoard ⟨6, 3, 7, 4⟩ (by decide) (by decide)
  have hp : rd promoBoard.squares 6 3 = some W_PAWN := by decide
  exact ⟨by decide, by decide, hp, b2, s2, h1, h2, h3 hp rfl⟩

/-- The grid after king-side castling of the king `k` on `(R, 4)`. -/
theorem applyGrid_castle_short {g : Grid} {R : Int} {k : Piece} (hR : 0 ≤ R ∧ R < 8)
    (hk : k = W_KING ∨ k = B_KING) (h4 : sq g R 4 = k) (i j : Int) :
    sq (applyGrid g ⟨R, 4, R, 6⟩) i j =
      (if i = R ∧ j = 4 then EMPTY else if i = R ∧ j = 6 then k
       else if i = R ∧ j = 7 then EMPTY else if i = R ∧ j = 5 then sq g R 7 else sq g i j) := by
  have hf : inBounds (⟨R, 4, R, 6⟩ : Move).fromRow (⟨R, 4, R, 6⟩ : Move).fromCol = true :=
    inBounds_of hR (by show (0 : Int) ≤ 4 ∧ (4 : Int) < 8; omega)
  have ht : inBounds (⟨R, 4, R, 6⟩ : Move).toRow (⟨R, 4, R, 6⟩ : Move).toCol = true :=
    inBounds_of hR (by show (0 : Int) ≤ 6 ∧ (6 : Int) < 8; omega)
  have hnW : k ≠ W_PAWN := by rcases hk with rfl | rfl <;> decide
  have hnB : k ≠ B_PAWN := by rcases hk with rfl | rfl <;> decide
  rw [sq_applyGrid hf ht]
  simp only [h4, hnW, hnB, hk, false_and, if_false, or_self, true_and,
    show |(6 : Int) - 4| = 2 by decide, not_true_eq_false, ne_eq]

/-- The grid after queen-side castling of the king `k` on `(R, 4)`. -/
theorem applyGrid_castle_long {g : Grid} {R : Int} {k : Piece} (hR : 0 ≤ R ∧ R < 8)
    (hk : k = W_KING ∨ k = B_KING) (h4 : sq g R 4 = k) (i j : Int) :
    sq (applyGrid g ⟨R, 4, R, 2⟩) i j =
      (if i = R ∧ j = 4 then EMPTY else if i = R ∧ j = 2 then k
       else if i = R ∧ j = 0 then EMPTY else if i = R ∧ j = 3 then sq g R 0 else sq g i j) := by
  have hf : inBounds (⟨R, 4, R, 2⟩ : Move).fromRow (⟨R, 4, R, 2⟩ : Move).fromCol = true :=
    inBounds_of hR (by show (0 : Int) ≤ 4 ∧ (4 : Int) < 8; omega)
  have ht : inBounds (⟨R, 4, R, 2⟩ : Move).toRow (⟨R, 4, R, 2⟩ : Move).toCol = true :=
    inBounds_of hR (by show (0 : Int) ≤ 2 ∧ (2 : Int) < 8; omega)
  have hnW : k ≠ W_PAWN := by rcases hk with rfl | rfl <;> decide
  have hnB : k ≠ B_PAWN := by rcases hk with rfl | rfl <;> decide
  rw [sq_applyGrid hf ht]
  simp only [h4, hnW, hnB, hk, false_and, if_false, or_self, true_and,
    show |(2 : Int) - 4| = 2 by decide, show ¬ ((2 : Int) = 6) by decide, not_false_eq_true,
    ne_eq]

/-- What `applyMoveRaw` leaves after king-side castling on row `R`. -/
theorem castle_short_result (b : Board) (R : Int) (k rook : Piece) (hR : 0 ≤ R ∧ R < 8)
    (hk : k = W_KING ∨ k = B_KING) (h4 : sq b.squares R 4 = k) (h7 : sq b.squares R 7 = rook) :
    ∃ b2 : Board, applyMoveRaw b ⟨R, 4, R, 6⟩ = some b2
      ∧ rd b2.squares R 6 = some k ∧ rd b2.squares R 5 = some rook
      ∧ rd b2.squares R 4 = some EMPTY ∧ rd b2.squares R 7 = some EMPTY
      ∧ ∀ i j : Int, ¬ (i = R ∧ (j = 4 ∨ j = 5 ∨ j = 6 ∨ j = 7)) →
          rd b2.squares i j = rd b.squares i j := by
  have hb : ∀ x : Int, 0 ≤ x ∧ x < 8 → inBounds R x = true := fun x hx => inBounds_of hR hx
  refine ⟨_, applyMoveRaw_eq b ⟨R, 4, R, 6⟩ (hb 4 (by omega)) (hb 6 (by omega)), ?_, ?_, ?_, ?_,
    ?_⟩
  · rw [rd_eq (hb 6 (by omega))]
    simp only [applyGrid_castle_short hR hk h4]
    simp
  · rw [rd_eq (hb 5 (by omega))]
    simp only [applyGrid_castle_short hR hk h4]
    simp [h7]
  · rw [rd_eq (hb 4 (by omega))]
    simp only [applyGrid_castle_short hR hk h4]
    simp
  · rw [rd_eq (hb 7 (by omega))]
    simp only [applyGrid_castle_short hR hk h4]
    simp
  · intro i j hij
    apply rd_congr
    simp only [applyGrid_castle_short hR hk h4]
    have h1 : ¬ (i = R ∧ j = 4) := fun h => hij ⟨h.1, Or.inl h.2⟩
    have h2 : ¬ (i = R ∧ j = 5) := fun h => hij ⟨h.1, Or.inr (Or.inl h.2)⟩
    have h3 : ¬ (i = R ∧ j = 6) := fun h => hij ⟨h.1, Or.inr (Or.inr (Or.inl h.2))⟩
    have h4 : ¬ (i = R ∧ j = 7) := fun h => hij ⟨h.1, Or.inr (Or.inr (Or.inr h.2))⟩
    rw [if_neg h1, if_neg h3, if_neg h4, if_neg h2]

/-- What `applyMoveRaw` leaves after queen-side castling on row `R`. -/
theorem castle_long_result (b : Board) (R : Int) (k rook : Piece) (hR : 0 ≤ R ∧ R < 8)
    (hk : k = W_KING ∨ k = B_KING) (h4 : sq b.squares R 4 = k) (h0 : sq b.squares R 0 = rook)
    (h1 : sq b.squares R 1 = EMPTY) :
    ∃ b2 : Board, applyMoveRaw b ⟨R, 4, R, 2⟩ = some b2
      ∧ rd b2.squares R 2 = some k ∧ rd b2.squares R 3 = some rook
      ∧ rd b2.squares R 0 = some EMPTY ∧ rd b2.squares R 1 = some EMPTY
      ∧ rd b2.squares R 4 = some EMPTY
      ∧ ∀ i j : Int, ¬ (i = R ∧ (j = 0 ∨ j = 2 ∨ j = 3 ∨ j = 4)) →
          rd b2.squares i j = rd b.squares i j := by
  have hb : ∀ x : Int, 0 ≤ x ∧ x < 8 → inBounds R x = true := fun x hx => inBounds_of hR hx
  refine ⟨_, applyMoveRaw_eq b ⟨R, 4, R, 2⟩ (hb 4 (by omega)) (hb 2 (by omega)), ?_, ?_, ?_, ?_,
    ?_, ?_⟩
  · rw [rd_eq (hb 2 (by omega))]
    simp only [applyGrid_castle_long hR hk h4]
    simp
  · rw [rd_eq (hb 3 (by omega))]
    simp only [applyGrid_castle_long hR hk h4]
    simp [h0]
  · rw [rd_eq (hb 0 (by omega))]
    simp only [applyGrid_castle_long hR hk h4]
    simp
  · rw [rd_eq (hb 1 (by omega))]
    simp only [applyGrid_castle_long hR hk h4]
    simp [h1]
  · rw [rd_eq (hb 4 (by omega))]
    simp only [applyGrid_castle_long hR hk h4]
    simp
  · intro i j hij
    apply rd_congr
    simp only [applyGrid_castle_long hR hk h4]
    have e1 : ¬ (i = R ∧ j = 4) := fun h => hij ⟨h.1, Or.inr (Or.inr (Or.inr h.2))⟩
    have e2 : ¬ (i = R ∧ j = 2) := fun h => hij ⟨h.1, Or.inr (Or.inl h.2)⟩
    have e3 : ¬ (i = R ∧ j = 0) := fun h => hij ⟨h.1, Or.inl h.2⟩
    have e4 : ¬ (i = R ∧ j = 3) := fun h => hij ⟨h.1, Or.inr (Or.inr (Or.inl h.2))⟩
    rw [if_neg e1, if_neg e2, if_neg e3, if_neg e4]

/-- C16: for every castling move that move generation produces (a move over
two columns in the list generated for a king), `applyMoveRaw` returns a state
in which the rook has moved with the king.  The king stands on `(R, 4)` with
`R = 0` for white and `R = 7` for black; king-side the result has the king on
`(R, 6)`, the rook of its colour on `(R, 5)` and `(R, 4)`, `(R, 7)` empty;
queen-side the king on `(R, 2)`, the rook on `(R, 3)` and `(R, 0)`, `(R, 1)`,
`(R, 4)` empty; every square other than the king's source and destination and
the rook's origin and transit square reads as before. -/
theorem castling_relocates_rook (b : Board) (r c : Int) (p : Piece) (ps : List Move) (m : Move)
    (hp : rd b.squares r c = some p) (hk : p = W_KING ∨ p = B_KING)
    (hgen : generatePieceMoves b r c [] = some ps) (hm : m ∈ ps)
    (h2 : |m.toCol - m.fromCol| = 2) :
    ∃ b2 : Board, applyMoveRaw b m = some b2
      ∧ r = (if p = W_KING then 0 else 7) ∧ c = 4
      ∧ m.fromRow = r ∧ m.fromCol = 4 ∧ m.toRow = r
      ∧ ((m.toCol = 6
            ∧ rd b2.squares r 6 = some p
            ∧ rd b2.squares r 5 = some (if p = W_KING then W_ROOK else B_ROOK)
            ∧ rd b2.squares r 4 = some EMPTY ∧ rd b2.squares r 7 = some EMPTY
            ∧ ∀ i j : Int, ¬ (i = r ∧ (j = 4 ∨ j = 5 ∨ j = 6 ∨ j = 7)) →
                rd b2.squares i j = rd b.squares i j)
        ∨ (m.toCol = 2
            ∧ rd b2.squares r 2 = some p
            ∧ rd b2.squares r 3 = some (if p = W_KING then W_ROOK else B_ROOK)
            ∧ rd b2.squares r 0 = some EMPTY ∧ rd b2.squares r 1 = some EMPTY
            ∧ rd b2.squares r 4 = some EMPTY
            ∧ ∀ i j : Int, ¬ (i = r ∧ (j = 0 ∨ j = 2 ∨ j = 3 ∨ j = 4)) →
                rd b2.squares i j = rd b.squares i j)) := by
  obtain ⟨hb, hsq⟩ := rd_some hp
  rw [generatePieceMoves_eq b r c [] hb, List.nil_append] at hgen
  cases hgen
  have h := (@king_two_columns b r c m (by rw [hsq]; exact hk)).1 ⟨hm, h2⟩
  rw [hsq] at h
  rcases mem_castlingList.1 h with ⟨⟨hcol, hr, hc⟩, -, h3⟩ | ⟨⟨hcol, hr, hc⟩, -, h3⟩
  · have hpk : p = W_KING := by
      rcases hk with rfl | rfl
      · rfl
      · cases hcol
    subst hpk hr hc
    rcases h3 with ⟨hok, rfl⟩ | ⟨hok, rfl⟩
    · obtain ⟨-, -, h7, -, -⟩ := castleOk_iff.1 hok
      obtain ⟨b2, e1, e2, e3, e4, e5, e6⟩ :=
        castle_short_result b 0 W_KING W_ROOK (by omega) (Or.inl rfl) hsq h7
      exact ⟨b2, e1, rfl, rfl, rfl, rfl, rfl, Or.inl ⟨rfl, e2, e3, e4, e5, e6⟩⟩
    · obtain ⟨-, hemp, h0, -, -⟩ := castleOk_iff.1 hok
      obtain ⟨b2, e1, e2, e3, e4, e5, e6, e7⟩ :=
        castle_long_result b 0 W_KING W_ROOK (by omega) (Or.inl rfl) hsq h0 (hemp 1 (by simp))
      exact ⟨b2, e1, rfl, rfl, rfl, rfl, rfl, Or.inr ⟨rfl, e2, e3, e4, e5, e6, e7⟩⟩
  · have hpk : p = B_KING := by
      rcases hk with rfl | rfl
      · cases hcol
      · rfl
    subst hpk hr hc
    rcases h3 with ⟨hok, rfl⟩ | ⟨hok, rfl⟩
    · obtain ⟨-, -, h7, -, -⟩ := castleOk_iff.1 hok
      obtain ⟨b2, e1, e2, e3, e4, e5, e6⟩ :=
        castle_short_result b 7 B_KING B_ROOK (by omega) (Or.inr rfl) hsq h7
      exact ⟨b2, e1, rfl, rfl, rfl, rfl, rfl, Or.inl ⟨rfl, e2, e3, e4, e5, e6⟩⟩
    · obtain ⟨-, hemp, h0, -, -⟩ := castleOk_iff.1 hok
      obtain ⟨b2, e1, e2, e3, e4, e5, e6, e7⟩ :=
        castle_long_result b 7 B_KING B_ROOK (by omega) (Or.inr rfl) hsq h0 (hemp 1 (by simp))
      exact ⟨b2, e1, rfl, rfl, rfl, rfl, rfl, Or.inr ⟨rfl, e2, e3, e4, e5, e6, e7⟩⟩

theorem castling_relocates_rook_witness :
    rd castleBoard.squares 0 4 = some W_KING ∧ (W_KING = W_KING ∨ W_KING = B_KING)
      ∧ generatePieceMoves castleBoard 0 4 [] = some (pseudo castleBoard 0 4)
      ∧ (⟨0, 4, 0, 6⟩ : Move) ∈ pseudo castleBoard 0 4
      ∧ ∃ b2 : Board, applyMoveRaw castleBoard ⟨0, 4, 0, 6⟩ = some b2
          ∧ rd b2.squares 0 6 = some W_KING ∧ rd b2.squares 0 5 = some W_ROOK
          ∧ rd b2.squares 0 4 = some EMPTY ∧ rd b2.squares 0 7 = some EMPTY := by
  have hp : rd castleBoard.squares 0 4 = some W_KING := by decide
  have hgen : generatePieceMoves castleBoard 0 4 [] = some (pseudo castleBoard 0 4) := by
    rw [generatePieceMoves_eq castleBoard 0 4 [] (by decide), List.nil_append]
  have hm : (⟨0, 4, 0, 6⟩ : Move) ∈ pseudo castleBoard 0 4 := by decide!
  obtain ⟨b2, h1, -, -, -, -, -, h | h⟩ :=
    castling_relocates_rook castleBoard 0 4 W_KING _ ⟨0, 4, 0, 6⟩ hp (Or.inl rfl) hgen hm
      (by decide)
  · obtain ⟨-, e2, e3, e4, e5, -⟩ := h
    exact ⟨hp, Or.inl rfl, hgen, hm, b2, h1, e2, e3, e4, e5⟩
  · exact absurd h.1 (by decide)

/-- C17, as the specification words it, fails for a pawn move that changes
column but not row: the source holds a pawn, the columns differ and the
destination is empty, yet after `applyMoveRaw` the square
`(fromRow, toCol)`, which is the destination, holds the pawn. -/
theorem enPassant_frame_fails_sideways :
    rd sidewaysBoard.squares 4 3 = some W_PAWN ∧ rd sidewaysBoard.squares 4 4 = some EMPTY
      ∧ (⟨4, 3, 4, 4⟩ : Move).fromCol ≠ (⟨4, 3, 4, 4⟩ : Move).toCol
      ∧ (applyMoveRaw sidewaysBoard ⟨4, 3, 4, 4⟩).map
          (fun b2 => rd b2.squares (⟨4, 3, 4, 4⟩ : Move).fromRow (⟨4, 3, 4, 4⟩ : Move).toCol)
        = some (some W_PAWN) := by
  decide!

/-- C17, amended: for a move with both squares inside the grid whose source
holds a pawn `p`, whose columns differ, whose rows differ and whose
destination is empty, `applyMoveRaw` returns a state in which the square
`(fromRow, toCol)` is empty, the source is empty, the destination holds `p`
(a queen of its colour if it reached its last rank), and every other square
reads as before. -/
theorem enPassant_capture_frame (b : Board) (m : Move) (p : Piece)
    (hf : inBounds m.fromRow m.fromCol = true) (ht : inBounds m.toRow m.toCol = true)
    (hp : rd b.squares m.fromRow m.fromCol = some p) (hpawn : p = W_PAWN ∨ p = B_PAWN)
    (hcol : m.fromCol ≠ m.toCol) (hrow : m.toRow ≠ m.fromRow)
    (hempty : rd b.squares m.toRow m.toCol = some EMPTY) :
    ∃ b2 : Board, applyMoveRaw b m = some b2
      ∧ rd b2.squares m.fromRow m.toCol = some EMPTY
      ∧ rd b2.squares m.fromRow m.fromCol = some EMPTY
      ∧ rd b2.squares m.toRow m.toCol =
          some (if p = W_PAWN ∧ m.toRow = 7 then W_QUEEN
                else if p = B_PAWN ∧ m.toRow = 0 then B_QUEEN else p)
      ∧ ∀ i j : Int, ¬ (i = m.fromRow ∧ j = m.toCol) → ¬ (i = m.fromRow ∧ j = m.fromCol) →
          ¬ (i = m.toRow ∧ j = m.toCol) → rd b2.squares i j = rd b.squares i j := by
  obtain ⟨-, hsq⟩ := rd_some hp
  obtain ⟨-, he⟩ := rd_some hempty
  have hf2 := (inBounds_iff _ _).1 hf
  have ht2 := (inBounds_iff _ _).1 ht
  have b1 : inBounds m.fromRow m.toCol = true := inBounds_of hf2.1 ht2.2
  have hnk : ¬ (p = W_KING ∨ p = B_KING) := by rcases hpawn with rfl | rfl <;> decide
  have key : ∀ i j : Int, sq (applyGrid b.squares m) i j =
      (if p = B_PAWN ∧ m.toRow = 0 ∧ i = m.toRow ∧ j = m.toCol then B_QUEEN
       else if p = W_PAWN ∧ m.toRow = 7 ∧ i = m.toRow ∧ j = m.toCol then W_QUEEN
       else if i = m.fromRow ∧ j = m.fromCol then EMPTY
       else if i = m.toRow ∧ j = m.toCol then p
       else if i = m.fromRow ∧ j = m.toCol then EMPTY
       else sq b.squares i j) := by
    intro i j
    rw [sq_applyGrid hf ht, hsq]
    simp only [hnk, false_and, if_false, hpawn, hcol, he, ne_eq, not_false_eq_true, and_self,
      true_and]
  have hr : ¬ (m.fromRow = m.toRow) := fun h => hrow h.symm
  have hc : ¬ (m.toCol = m.fromCol) := fun h => hcol h.symm
  refine ⟨_, applyMoveRaw_eq b m hf ht, ?_, ?_, ?_, ?_⟩
  · rw [rd_eq b1, key]
    simp [hr, hc]
  · rw [rd_eq hf, key]
    simp [hr]
  · rw [rd_eq ht, key]
    rcases hpawn with rfl | rfl
    · by_cases h7 : m.toRow = 7
      · simp [h7]
      · simp [h7, hrow]
    · by_cases h0 : m.toRow = 0
      · simp [h0]
      · simp [h0, hrow]
  · intro i j h1 h2 h3
    apply rd_congr
    rw [key]
    have e1 : ¬ (p = B_PAWN ∧ m.toRow = 0 ∧ i = m.toRow ∧ j = m.toCol) :=
      fun h => h3 h.2.2
    have e2 : ¬ (p = W_PAWN ∧ m.toRow = 7 ∧ i = m.toRow ∧ j = m.toCol) :=
      fun h => h3 h.2.2
    rw [if_neg e1, if_neg e2, if_neg h2, if_neg h3, if_neg h1]

theorem enPassant_capture_frame_witness :
    inBounds (⟨4, 3, 5, 4⟩ : Move).fromRow (⟨4, 3, 5, 4⟩ : Move).fromCol = true
      ∧ inBounds (⟨4, 3, 5, 4⟩ : Move).toRow (⟨4, 3, 5, 4⟩ : Move).toCol = true
      ∧ rd epBoard.squares 4 3 = some W_PAWN ∧ rd epBoard.squares 5 4 = some EMPTY
      ∧ (⟨4, 3, 5, 4⟩ : Move) ∈ pseudo epBoard 4 3
      ∧ ∃ b2 : Board, applyMoveRaw epBoard ⟨4, 3, 5, 4⟩ = some b2
          ∧ rd b2.squares 4 4 = some EMPTY ∧ rd b2.squares 4 3 = some EMPTY
          ∧ rd b2.squares 5 4 = some W_PAWN := by
  have hp : rd epBoard.squares 4 3 = some W_PAWN := by decide
  have he : rd epBoard.squares 5 4 = some EMPTY := by decide
  obtain ⟨b2, h1, h2, h3, h4, -⟩ :=
    enPassant_capture_frame epBoard ⟨4, 3, 5, 4⟩ W_PAWN (by decide) (by decide) hp (Or.inl rfl)
      (by decide) (by decide) he
  exact ⟨by decide, by decide, hp, he, by decide!, b2, h1, h2, h3, h4⟩

theorem reset_grid : ∀ i j : Fin 8, (Board.reset reset).squares i j = startGrid i j := by
  decide

theorem reset_eq (s : Board) : s.reset = reset := by
  have h : (Board.reset reset).squares = startGrid := by
    funext i j
    exact reset_grid i j
  show Board.reset reset = reset
  unfold reset
  rw [← h]
  rfl

/-- C18: whatever the state, `reset` leaves the same state: row 0 holds the
white pieces R, N, B, Q, K, B, N, R (queen on column 3, king on column 4),
row 1 the white pawns, rows 2 to 5 are empty, row 6 holds the black pawns and
row 7 the black back rank; all four castling rights are set, the en-passant
target is unset, white is to move, `gameOver` is false and `resultText` is
empty.  This holds after any sequence of `makeMove` calls, and `reset` is
idempotent. -/
theorem reset_restores_start (s : Board) :
    idx8.map (s.reset.squares 0)
        = [W_ROOK, W_KNIGHT, W_BISHOP, W_QUEEN, W_KING, W_BISHOP, W_KNIGHT, W_ROOK]
      ∧ (∀ c : Fin 8, s.reset.squares 1 c = W_PAWN)
      ∧ (∀ r c : Fin 8, 2 ≤ r.val → r.val ≤ 5 → s.reset.squares r c = EMPTY)
      ∧ (∀ c : Fin 8, s.reset.squares 6 c = B_PAWN)
      ∧ idx8.map (s.reset.squares 7)
        = [B_ROOK, B_KNIGHT, B_BISHOP, B_QUEEN, B_KING, B_BISHOP, B_KNIGHT, B_ROOK]
      ∧ s.reset.castleWK = true ∧ s.reset.castleWQ = true ∧ s.reset.castleBK = true
      ∧ s.reset.castleBQ = true ∧ s.reset.enPassantCol = -1 ∧ s.reset.sideToMove = WHITE
      ∧ s.reset.gameOver = false ∧ s.reset.resultText = ""
      ∧ s.reset = reset
      ∧ (∀ (ms : List Move) (s2 : Board), playMoves s ms = some s2 → s2.reset = s.reset)
      ∧ s.reset.reset = s.reset := by
  rw [reset_eq s]
  refine ⟨by decide, by decide, by decide, by decide, by decide, rfl, rfl, rfl, rfl, rfl, rfl,
    rfl, rfl, rfl, ?_, reset_eq _⟩
  intro ms s2 _
  exact reset_eq s2

/-- C19: `getAllLegalMoves` returns the concatenation, over the squares in
row-major order that hold a piece of the colour to move, of the lists of
`getLegalMoves`; a move is in it exactly when its source square is inside the
grid, holds a piece whose colour is the side to move, and the move is in
`getLegalMoves` of its source square. -/
theorem getAllLegalMoves_is_union (b : Board) :
    ∃ all : List Move, getAllLegalMoves b = some all
      ∧ all = allSquares.flatMap (fun s =>
          if pieceColor (b.squares s.1 s.2) = b.sideToMove then
            (getLegalMoves b (s.1.val : Int) (s.2.val : Int)).getD []
          else [])
      ∧ ∀ m : Move, m ∈ all ↔
          ∃ (p : Piece) (ls : List Move), rd b.squares m.fromRow m.fromCol = some p
            ∧ pieceColor p = b.sideToMove
            ∧ getLegalMoves b m.fromRow m.fromCol = some ls ∧ m ∈ ls := by
  refine ⟨allLegal b, getAllLegalMoves_eq b, ?_, ?_⟩
  · unfold allLegal
    congr 1
    funext s
    rw [getLegalMoves_eq b _ _ (inBounds_cast s.1 s.2)]
    rfl
  · intro m
    rw [mem_allLegal]
    constructor
    · rintro ⟨i, j, hside, hleg⟩
      obtain ⟨hps, -⟩ := mem_legal.1 hleg
      obtain ⟨hfr, hfc, -⟩ := pseudo_inBounds (inBounds_cast i j) hps
      rw [hfr, hfc]
      exact ⟨b.squares i j, legal b _ _, by rw [rd_eq (inBounds_cast i j), sq_cast], hside,
        getLegalMoves_eq b _ _ (inBounds_cast i j), hleg⟩
    · rintro ⟨p, ls, hp, hside, hls, hm⟩
      obtain ⟨hb, hsq⟩ := rd_some hp
      rw [getLegalMoves_eq b _ _ hb] at hls
      cases hls
      obtain ⟨i, j, hi, hj⟩ := exists_fin_of_inBounds hb
      refine ⟨i, j, ?_, ?_⟩
      · rw [← sq_cast b.squares i j, hi, hj, hsq]; exact hside
      · rw [hi, hj]; exact hm

/-- C20, as the specification words it, fails: for the pair `(-1, 0)` outside
the grid neither `generatePieceMoves` nor `getLegalMoves` returns the empty
list; their first step is the read of `squares[-1][0]`, outside the array. -/
theorem out_of_bounds_query_fails :
    inBounds (-1) 0 = false ∧ rd reset.squares (-1) 0 = none
      ∧ generatePieceMoves reset (-1) 0 [] ≠ some []
      ∧ getLegalMoves reset (-1) 0 ≠ some [] := by
  decide

/-- C20, amended: for a pair outside the grid `generatePieceMoves` and
`getLegalMoves` read `squares[row][col]` outside the array and return no
list; for a pair inside the grid both return a list with every read inside
the grid, the empty list when the square holds no piece. -/
theorem query_bounds (b : Board) (r c : Int) :
    (inBounds r c = false →
        rd b.squares r c = none ∧ generatePieceMoves b r c [] = none
          ∧ getLegalMoves b r c = none)
      ∧ (inBounds r c = true →
        ∃ ps ls : List Move, generatePieceMoves b r c [] = some ps
          ∧ getLegalMoves b r c = some ls
          ∧ (rd b.squares r c = some EMPTY → ps = [] ∧ ls = [])) := by
  constructor
  · intro h
    exact ⟨rd_none h, generatePieceMoves_out b r c [] h, getLegalMoves_out b r c h⟩
  · intro h
    refine ⟨pseudo b r c, legal b r c, ?_, getLegalMoves_eq b r c h, ?_⟩
    · rw [generatePieceMoves_eq b r c [] h, List.nil_append]
    · intro he
      obtain ⟨-, hsq⟩ := rd_some he
      have hp : pseudo b r c = [] := by simp only [pseudo, hsq]
      exact ⟨hp, by unfold legal; rw [hp]; rfl⟩

theorem query_bounds_witness :
    inBounds 3 3 = true ∧ rd reset.squares 3 3 = some EMPTY
      ∧ generatePieceMoves reset 3 3 [] = some [] ∧ getLegalMoves reset 3 3 = some []
      ∧ inBounds 8 0 = false ∧ getLegalMoves reset 8 0 = none := by
  obtain ⟨ps, ls, h1, h2, h3⟩ := (query_bounds reset 3 3).2 (by decide)
  obtain ⟨rfl, rfl⟩ := h3 (by decide)
  exact ⟨by decide, by decide, h1, h2, by decide, ((query_bounds reset 8 0).1 (by decide)).2.2⟩

/-! ## En passant over three plies -/

/-- A generated move of a black piece puts no white pawn on any square. -/
theorem no_new_white_pawn {b : Board} {r c : Int} {m : Move} (hb : inBounds r c = true)
    (hm : m ∈ pseudo b r c) (hcol : pieceColor (sq b.squares r c) = BLACK) (x y : Int)
    (h : sq (applyGrid b.squares m) x y = W_PAWN) : sq b.squares x y = W_PAWN := by
  obtain ⟨hfr, hfc, hbt⟩ := pseudo_inBounds hb hm
  have hbf : inBounds m.fromRow m.fromCol = true := by rw [hfr, hfc]; exact hb
  have hp : sq b.squares m.fromRow m.fromCol ≠ W_PAWN := by
    rw [hfr, hfc]
    intro hw
    rw [hw] at hcol
    cases hcol
  have hrook : (sq b.squares m.fromRow m.fromCol = W_KING ∨ sq b.squares m.fromRow m.fromCol
      = B_KING) ∧ |m.toCol - m.fromCol| = 2 →
      (m.toCol = 6 → sq b.squares m.fromRow 7 ≠ W_PAWN)
        ∧ (m.toCol ≠ 6 → sq b.squares m.fromRow 0 ≠ W_PAWN) := by
    rintro ⟨hk, h2⟩
    rw [hfr, hfc] at hk
    rw [hfc] at h2
    obtain ⟨-, -, hc⟩ := pseudo_castle hm hk h2
    rw [hfr]
    rcases hc with ⟨h6, -, -, h7⟩ | ⟨h6, -, -, -, h0⟩
    · refine ⟨fun _ => ?_, fun hn => absurd h6 hn⟩
      rcases h7 with h7 | h7 <;> rw [h7] <;> decide
    · refine ⟨fun h => by omega, fun _ => ?_⟩
      rcases h0 with h0 | h0 <;> rw [h0] <;> decide
  rw [sq_applyGrid hbf hbt] at h
  generalize sq b.squares m.fromRow m.fromCol = p at h hp hrook
  generalize sq b.squares m.fromRow 7 = v7 at h hrook
  generalize sq b.squares m.fromRow 0 = v0 at h hrook
  generalize sq b.squares m.toRow m.toCol = vt at h
  generalize sq b.squares x y = v at h ⊢
  split_ifs at h with h1 h2 h3 h4 h5 h6 h7 h8 h9
  · exact absurd h hp
  · exact absurd h ((hrook h6.1).1 h6.2.1)
  · exact absurd h ((hrook h8.1).2 h8.2.1)
  · exact h

/-- The double step of a white pawn from `(1, X)` is generated only over two
empty squares. -/
theorem double_step_empty {s : Board} {X : Int} (hsq : sq s.squares 1 X = W_PAWN)
    (hm : (⟨1, X, 3, X⟩ : Move) ∈ pseudo s 1 X) :
    sq s.squares 2 X = EMPTY ∧ sq s.squares 3 X = EMPTY := by
  simp only [pseudo, hsq] at hm
  rcases mem_pawnMoves.1 hm with ⟨-, -, h⟩ | ⟨-, h1, -, h2, -⟩ | ⟨dc, hdc, -, -, h⟩
  · simp only [Move.mk.injEq] at h
    omega
  · exact ⟨h1, h2⟩
  · simp only [Move.mk.injEq] at h
    omega

/-- The grid after the double step of a white pawn from `(1, X)`. -/
theorem sq_after_double_step {s : Board} {X : Int} (hb : inBounds 1 X = true)
    (hsq : sq s.squares 1 X = W_PAWN) (i j : Int) :
    sq (applyGrid s.squares ⟨1, X, 3, X⟩) i j =
      (if i = 1 ∧ j = X then EMPTY else if i = 3 ∧ j = X then W_PAWN else sq s.squares i j) := by
  have hX := ((inBounds_iff _ _).1 hb).2
  have hf : inBounds (⟨1, X, 3, X⟩ : Move).fromRow (⟨1, X, 3, X⟩ : Move).fromCol = true := hb
  have ht : inBounds (⟨1, X, 3, X⟩ : Move).toRow (⟨1, X, 3, X⟩ : Move).toCol = true :=
    inBounds_of (by show (0 : Int) ≤ 3 ∧ (3 : Int) < 8; omega) hX
  rw [sq_applyGrid hf ht]
  simp [hsq]

/-- After the double step to `(3, X)` the en-passant capture onto `(2, X)` is
among the moves generated for a black pawn next to `(3, X)`. -/
theorem enPassant_capture_generated {s : Board} {X dc : Int} (hb : inBounds 1 X = true)
    (hsq : sq s.squares 1 X = W_PAWN) (hps : (⟨1, X, 3, X⟩ : Move) ∈ pseudo s 1 X)
    (hdc : dc = -1 ∨ dc = 1) (hsq3 : sq s.squares 3 (X + dc) = B_PAWN) :
    sq (afterMove s ⟨1, X, 3, X⟩).squares 3 (X + dc) = B_PAWN
      ∧ (⟨3, X + dc, 2, X⟩ : Move) ∈ pseudo (afterMove s ⟨1, X, 3, X⟩) 3 (X + dc) := by
  have hX := ((inBounds_iff _ _).1 hb).2
  obtain ⟨he2, -⟩ := double_step_empty hsq hps
  have hgrid := sq_after_double_step hb hsq
  have hep : (afterMove s ⟨1, X, 3, X⟩).enPassantCol = X := by
    rw [afterMove_ep]
    simp [hsq]
  have hne : ¬ (X + dc = X) := by rcases hdc with rfl | rfl <;> omega
  have hsq3b : sq (afterMove s ⟨1, X, 3, X⟩).squares 3 (X + dc) = B_PAWN := by
    rw [afterMove_squares, hgrid]
    simp [hne, hsq3]
  have hsq2b : sq (afterMove s ⟨1, X, 3, X⟩).squares 2 X = EMPTY := by
    rw [afterMove_squares, hgrid]
    simp [he2]
  have hb2 : inBounds 2 X = true := inBounds_of (by omega) hX
  have e1 : (3 : Int) + -1 = 2 := by norm_num
  have e2 : X + dc + -dc = X := by ring
  refine ⟨hsq3b, ?_⟩
  simp only [pseudo, hsq3b]
  rw [mem_pawnMoves]
  right; right
  refine ⟨-dc, by rcases hdc with rfl | rfl <;> simp, ?_, Or.inr ⟨rfl, ?_, ?_⟩, ?_⟩
  · rw [e1, e2]; exact hb2
  · rw [e2, hep]
  · rw [e1, e2]; exact hsq2b
  · rw [e1, e2]

/-- If `(1, X)` holds no white pawn, the en-passant target file after a
generated white move is not `X`. -/
theorem enPassant_not_reset {b : Board} {X : Int} {i j : Fin 8} {m : Move} (hX : 0 ≤ X)
    (hno : sq b.squares 1 X ≠ W_PAWN) (hps : m ∈ pseudo b (i.val : Int) (j.val : Int))
    (hcol : pieceColor (b.squares i j) = WHITE) : (afterMove b m).enPassantCol ≠ X := by
  obtain ⟨hfr, hfc, -⟩ := pseudo_inBounds (inBounds_cast i j) hps
  have hdouble := (pseudo_doubleStep hps).1
  rw [← sq_cast b.squares i j] at hcol
  rw [← hfr, ← hfc] at hdouble hcol
  rw [afterMove_ep]
  by_cases h1 : sq b.squares m.fromRow m.fromCol = B_PAWN ∧ m.fromRow - m.toRow = 2
  · rw [h1.1] at hcol
    cases hcol
  · rw [if_neg h1]
    by_cases h2 : sq b.squares m.fromRow m.fromCol = W_PAWN ∧ m.toRow - m.fromRow = 2
    · rw [if_pos h2]
      intro hx
      obtain ⟨hr1, -⟩ := hdouble h2.1 h2.2
      have h3 := h2.1
      rw [hr1, hx] at h3
      exact hno h3
    · rw [if_neg h2]
      intro hx
      omega

/-- C13: let white be to move and let the double step `(1, X) -> (3, X)` of a
white pawn be a legal move.  After `makeMove` of it, for every black pawn on
`(3, X-1)` or `(3, X+1)` the generated moves of that pawn contain the
en-passant capture onto `(2, X)`, and `getLegalMoves` of that pawn contains it
exactly when the capture applied to a copy leaves black out of check.  After
any legal black move and any legal white reply, no move that changes column
onto the empty square `(2, X)` is generated for any black pawn. -/
theorem enPassant_offered_once (s : Board) (X : Int) (ls : List Move)
    (hside : s.sideToMove = WHITE) (hp : rd s.squares 1 X = some W_PAWN)
    (hls : getLegalMoves s 1 X = some ls) (hm : (⟨1, X, 3, X⟩ : Move) ∈ ls) :
    ∃ s2 : Board, makeMove s ⟨1, X, 3, X⟩ = some s2
      ∧ (∀ dc : Int, (dc = -1 ∨ dc = 1) → rd s.squares 3 (X + dc) = some B_PAWN →
          ∃ ps ls2 : List Move, generatePieceMoves s2 3 (X + dc) [] = some ps
            ∧ (⟨3, X + dc, 2, X⟩ : Move) ∈ ps
            ∧ getLegalMoves s2 3 (X + dc) = some ls2
            ∧ ((⟨3, X + dc, 2, X⟩ : Move) ∈ ls2 ↔
                ∃ copy : Board, applyMoveRaw s2 ⟨3, X + dc, 2, X⟩ = some copy
                  ∧ isInCheck copy BLACK = some false))
      ∧ (∀ (m2 : Move) (ms2 : List Move) (s3 : Board) (m3 : Move) (ms3 : List Move)
          (s4 : Board),
          getAllLegalMoves s2 = some ms2 → m2 ∈ ms2 → makeMove s2 m2 = some s3 →
          getAllLegalMoves s3 = some ms3 → m3 ∈ ms3 → makeMove s3 m3 = some s4 →
          ∀ (r c : Int) (ps : List Move) (m : Move), rd s4.squares r c = some B_PAWN →
            generatePieceMoves s4 r c [] = some ps → m ∈ ps →
            m.toRow = 2 → m.toCol = X → m.fromCol ≠ m.toCol →
            rd s4.squares 2 X ≠ some EMPTY) := by
  obtain ⟨hb, hsq⟩ := rd_some hp
  have hX := ((inBounds_iff _ _).1 hb).2
  rw [getLegalMoves_eq s 1 X hb] at hls
  cases hls
  obtain ⟨hps, -⟩ := mem_legal.1 hm
  have ht : inBounds (⟨1, X, 3, X⟩ : Move).toRow (⟨1, X, 3, X⟩ : Move).toCol = true :=
    inBounds_of (by show (0 : Int) ≤ 3 ∧ (3 : Int) < 8; omega) hX
  have hside2 : (afterMove s ⟨1, X, 3, X⟩).sideToMove = BLACK := by
    rw [afterMove_side, hside]; rfl
  refine ⟨afterMove s ⟨1, X, 3, X⟩, makeMove_eq s _ hb ht, ?_, ?_⟩
  · -- the capture is offered
    intro dc hdc hbp
    obtain ⟨hb3, hsq3⟩ := rd_some hbp
    obtain ⟨hsq3b, hmem⟩ := enPassant_capture_generated hb hsq hps hdc hsq3
    have hb2 : inBounds 2 X = true := inBounds_of (by omega) hX
    refine ⟨_, _, by rw [generatePieceMoves_eq _ 3 (X + dc) [] hb3, List.nil_append], hmem,
      getLegalMoves_eq _ 3 (X + dc) hb3, ?_⟩
    rw [mem_legal, hsq3b]
    have hc : pieceColor B_PAWN = BLACK := rfl
    rw [hc, applyMoveRaw_eq _ ⟨3, X + dc, 2, X⟩ hb3 hb2]
    constructor
    · rintro ⟨-, h⟩
      exact ⟨_, rfl, by rw [isInCheck_eq, h]⟩
    · rintro ⟨copy, h1, h2⟩
      cases h1
      rw [isInCheck_eq] at h2
      exact ⟨hmem, by simpa using h2⟩
  · -- it is gone two plies later
    intro m2 ms2 s3 m3 ms3 s4 hall2 hm2 hmk2 hall3 hm3 hmk3 r c ps m hbp hgen hmem hrow hcol hdiag
      hempty
    rw [getAllLegalMoves_eq] at hall2 hall3
    cases hall2
    cases hall3
    -- black's move
    obtain ⟨i2, j2, hc2, hleg2⟩ := mem_allLegal.1 hm2
    obtain ⟨hps2, -⟩ := mem_legal.1 hleg2
    obtain ⟨hfr2, hfc2, hbt2⟩ := pseudo_inBounds (inBounds_cast i2 j2) hps2
    have hbf2 : inBounds m2.fromRow m2.fromCol = true := by
      rw [hfr2, hfc2]; exact inBounds_cast i2 j2
    rw [makeMove_eq _ _ hbf2 hbt2] at hmk2
    cases hmk2
    rw [hside2] at hc2
    rw [← sq_cast (afterMove s ⟨1, X, 3, X⟩).squares i2 j2] at hc2
    have hno : sq (afterMove (afterMove s ⟨1, X, 3, X⟩) m2).squares 1 X ≠ W_PAWN := by
      rw [afterMove_squares]
      intro h
      have h3 := no_new_white_pawn (inBounds_cast i2 j2) hps2 hc2 1 X h
      rw [afterMove_squares, sq_after_double_step hb hsq] at h3
      simp at h3
    have hside3 : (afterMove (afterMove s ⟨1, X, 3, X⟩) m2).sideToMove = WHITE := by
      rw [afterMove_side, hside2]; rfl
    -- white's reply
    obtain ⟨i3, j3, hc3, hleg3⟩ := mem_allLegal.1 hm3
    obtain ⟨hps3, -⟩ := mem_legal.1 hleg3
    obtain ⟨hfr3, hfc3, hbt3⟩ := pseudo_inBounds (inBounds_cast i3 j3) hps3
    have hbf3 : inBounds m3.fromRow m3.fromCol = true := by
      rw [hfr3, hfc3]; exact inBounds_cast i3 j3
    rw [makeMove_eq _ _ hbf3 hbt3] at hmk3
    cases hmk3
    rw [hside3] at hc3
    have hep4 := enPassant_not_reset hX.1 hno hps3 hc3
    -- black's pawn after that
    obtain ⟨hb4, hsq4⟩ := rd_some hbp
    rw [generatePieceMoves_eq _ r c [] hb4, List.nil_append] at hgen
    cases hgen
    obtain ⟨-, hfc4, -⟩ := pseudo_inBounds hb4 hmem
    obtain ⟨-, hsqe⟩ := rd_some hempty
    have hsqe2 : sq (afterMove (afterMove (afterMove s ⟨1, X, 3, X⟩) m2) m3).squares
        m.toRow m.toCol = EMPTY := by
      rw [hrow, hcol]; exact hsqe
    rw [hfc4] at hdiag
    obtain ⟨h1, -⟩ := pseudo_enPassant hmem (Or.inr hsq4) hdiag hsqe2
    exact hep4 (by rw [← h1, hcol])

theorem enPassant_offered_once_witness :
    doubleStepBoard.sideToMove = WHITE ∧ rd doubleStepBoard.squares 1 4 = some W_PAWN
      ∧ getLegalMoves doubleStepBoard 1 4 = some (legal doubleStepBoard 1 4)
      ∧ (⟨1, 4, 3, 4⟩ : Move) ∈ legal doubleStepBoard 1 4
      ∧ rd doubleStepBoard.squares 3 3 = some B_PAWN
      ∧ ∃ s2 : Board, makeMove doubleStepBoard ⟨1, 4, 3, 4⟩ = some s2
          ∧ ∃ ps : List Move, generatePieceMoves s2 3 3 [] = some ps
              ∧ (⟨3, 3, 2, 4⟩ : Move) ∈ ps := by
  have h1 : rd doubleStepBoard.squares 1 4 = some W_PAWN := by decide
  have h2 : getLegalMoves doubleStepBoard 1 4 = some (legal doubleStepBoard 1 4) :=
    getLegalMoves_eq _ 1 4 (by decide)
  have h3 : (⟨1, 4, 3, 4⟩ : Move) ∈ legal doubleStepBoard 1 4 := by decide!
  have h4 : rd doubleStepBoard.squares 3 3 = some B_PAWN := by decide
  obtain ⟨s2, e1, e2, -⟩ := enPassant_offered_once doubleStepBoard 4 _ rfl h1 h2 h3
  obtain ⟨ps, ls2, e3, e4, -⟩ := e2 (-1) (Or.inl rfl) h4
  exact ⟨rfl, h1, h2, h3, h4, s2, e1, ps, e3, e4⟩

/-! ## Well-formed generated moves -/

/-- C21: for a square `(r, c)` inside the grid `generatePieceMoves` and
`getLegalMoves` return lists, which in this embedding means that every grid
access made on the way was inside the grid (an access outside yields no
list).  Every move of the generated list, and hence of the legal list, has
source `(r, c)`, a destination with row and column in `0 .. 7` different from
the source, and a destination square that does not hold a piece of the colour
of the piece on `(r, c)`. -/
theorem generated_moves_wellformed (b : Board) (r c : Int) (hb : inBounds r c = true) :
    ∃ (ps ls : List Move) (p : Piece), generatePieceMoves b r c [] = some ps
      ∧ getLegalMoves b r c = some ls ∧ rd b.squares r c = some p
      ∧ (∀ m ∈ ls, m ∈ ps)
      ∧ ∀ m ∈ ps, m.fromRow = r ∧ m.fromCol = c
          ∧ (0 ≤ m.toRow ∧ m.toRow < 8) ∧ (0 ≤ m.toCol ∧ m.toCol < 8)
          ∧ ¬ (m.toRow = r ∧ m.toCol = c)
          ∧ ∃ t : Piece, rd b.squares m.toRow m.toCol = some t
              ∧ pieceColor t ≠ pieceColor p := by
  refine ⟨pseudo b r c, legal b r c, sq b.squares r c, ?_, getLegalMoves_eq b r c hb, rd_eq hb,
    ?_, ?_⟩
  · rw [generatePieceMoves_eq b r c [] hb, List.nil_append]
  · intro m hm
    exact (mem_legal.1 hm).1
  · intro m hm
    obtain ⟨hfr, hfc, hbt⟩ := pseudo_inBounds hb hm
    have hbt2 := (inBounds_iff _ _).1 hbt
    exact ⟨hfr, hfc, hbt2.1, hbt2.2, pseudo_moves hm, sq b.squares m.toRow m.toCol, rd_eq hbt,
      pseudo_target hm⟩

theorem generated_moves_wellformed_witness :
    inBounds 0 1 = true
      ∧ ∃ (ps ls : List Move) (p : Piece), generatePieceMoves reset 0 1 [] = some ps
          ∧ getLegalMoves reset 0 1 = some ls ∧ rd reset.squares 0 1 = some p
          ∧ (∀ m ∈ ls, m ∈ ps)
          ∧ ∀ m ∈ ps, m.fromRow = 0 ∧ m.fromCol = 1
              ∧ (0 ≤ m.toRow ∧ m.toRow < 8) ∧ (0 ≤ m.toCol ∧ m.toCol < 8)
              ∧ ¬ (m.toRow = 0 ∧ m.toCol = 1)
              ∧ ∃ t : Piece, rd reset.squares m.toRow m.toCol = some t
                  ∧ pieceColor t ≠ pieceColor p :=
  ⟨by decide, generated_moves_wellformed reset 0 1 (by decide)⟩

/-! ## Castling rights and the home squares -/

/-- A square that a move does not leave, does not reach, and that is neither
the rook square of a castling move nor the square of a pawn taken en passant
is unchanged by `applyMoveRaw`. -/
theorem applyGrid_untouched {g : Grid} {m : Move} (hf : inBounds m.fromRow m.fromCol = true)
    (ht : inBounds m.toRow m.toCol = true) (i j : Int)
    (h1 : ¬ (i = m.fromRow ∧ j = m.fromCol)) (h2 : ¬ (i = m.toRow ∧ j = m.toCol))
    (h3 : (sq g m.fromRow m.fromCol = W_KING ∨ sq g m.fromRow m.fromCol = B_KING)
      → |m.toCol - m.fromCol| = 2 → i ≠ m.fromRow)
    (h4 : (sq g m.fromRow m.fromCol = W_PAWN ∨ sq g m.fromRow m.fromCol = B_PAWN)
      → m.fromCol ≠ m.toCol → sq g m.toRow m.toCol = EMPTY → i ≠ m.fromRow) :
    sq (applyGrid g m) i j = sq g i j := by
  rw [sq_applyGrid hf ht]
  rw [if_neg (fun h => h2 ⟨h.2.2.1, h.2.2.2⟩), if_neg (fun h => h2 ⟨h.2.2.1, h.2.2.2⟩),
    if_neg h1, if_neg h2, if_neg (fun h => h3 h.1.1 h.1.2 h.2.2.1),
    if_neg (fun h => h3 h.1.1 h.1.2 h.2.2.1), if_neg (fun h => h3 h.1.1 h.1.2 h.2.2.1),
    if_neg (fun h => h3 h.1.1 h.1.2 h.2.2.1), if_neg (fun h => h4 h.1.1.1 h.1.1.2 h.1.2 h.2.1)]

/-- In a state of play no generated move of the side to move lands on a king. -/
theorem no_move_onto_king {b : Board} (hinv : Inv b) {r c : Int} {m : Move}
    (hb : inBounds r c = true) (hm : m ∈ pseudo b r c)
    (hside : pieceColor (sq b.squares r c) = b.sideToMove) :
    sq b.squares m.toRow m.toCol ≠ W_KING ∧ sq b.squares m.toRow m.toCol ≠ B_KING := by
  have ht := pseudo_target hm
  have hk := no_king_capture hinv hb hm hside
  rw [hside] at ht
  rcases hinv.side with hs | hs
  · rw [hs] at ht hk
    constructor
    · intro h; rw [h] at ht; exact ht rfl
    · intro h; rw [h] at hk; exact hk rfl
  · rw [hs] at ht hk
    constructor
    · intro h; rw [h] at hk; exact hk rfl
    · intro h; rw [h] at ht; exact ht rfl

/-- A square of the first or last row that a generated move of the side to
move neither leaves nor reaches keeps its piece, unless the moving piece is a
king that leaves column 4 of that row. -/
theorem home_square_kept {b : Board} {r c : Int} {m : Move} (hb : inBounds r c = true)
    (hm : m ∈ pseudo b r c) (i j : Int) (hi : i = 0 ∨ i = 7)
    (h1 : ¬ (i = r ∧ j = c)) (h2 : ¬ (i = m.toRow ∧ j = m.toCol))
    (h3 : (sq b.squares r c = W_KING ∨ sq b.squares r c = B_KING) → c = 4 → i ≠ r) :
    sq (applyGrid b.squares m) i j = sq b.squares i j := by
  obtain ⟨hfr, hfc, hbt⟩ := pseudo_inBounds hb hm
  have hbf : inBounds m.fromRow m.fromCol = true := by rw [hfr, hfc]; exact hb
  apply applyGrid_untouched hbf hbt
  · rw [hfr, hfc]; exact h1
  · exact h2
  · rw [hfr, hfc]
    intro hk habs
    exact h3 hk (pseudo_castle hm hk habs).1
  · rw [hfr, hfc]
    intro hp hcol he
    have h := (pseudo_enPassant hm hp hcol he).2
    rcases h with ⟨-, h⟩ | ⟨-, h⟩ <;> omega

/-- One castling flag: if the king `k` and the rook `rk` are on their home
squares of row `hr`, and the move is by neither of them from there and does
not reach the rook corner, they are still there after the move. -/
theorem home_pair_kept {b : Board} (hinv : Inv b) {r c : Int} {m : Move}
    (hb : inBounds r c = true) (hm : m ∈ pseudo b r c)
    (hside : pieceColor (sq b.squares r c) = b.sideToMove)
    (k rk : Piece) (hr hc : Int) (hrow : hr = 0 ∨ hr = 7)
    (hking : k = W_KING ∨ k = B_KING)
    (hk : sq b.squares hr 4 = k) (hrk : sq b.squares hr hc = rk)
    (hpk : sq b.squares r c ≠ k)
    (hprk : ¬ (sq b.squares r c = rk ∧ r = hr ∧ c = hc))
    (hto : ¬ (m.toRow = hr ∧ m.toCol = hc)) :
    sq (applyGrid b.squares m) hr 4 = k ∧ sq (applyGrid b.squares m) hr hc = rk := by
  have hnk := no_move_onto_king hinv hb hm hside
  have hfrom : ¬ (hr = r ∧ (4 : Int) = c) := by
    rintro ⟨h1, h2⟩
    rw [h1, h2] at hk
    exact hpk hk
  have hcastle : (sq b.squares r c = W_KING ∨ sq b.squares r c = B_KING) → c = 4 → hr ≠ r := by
    intro _ h4 h
    exact hfrom ⟨h, h4.symm⟩
  constructor
  · rw [home_square_kept hb hm hr 4 hrow hfrom ?_ hcastle]
    · exact hk
    · rintro ⟨h1, h2⟩
      rw [h1, h2] at hk
      rcases hking with h | h
      · rw [h] at hk; exact hnk.1 hk
      · rw [h] at hk; exact hnk.2 hk
  · rw [home_square_kept hb hm hr hc hrow ?_ ?_ hcastle]
    · exact hrk
    · rintro ⟨h1, h2⟩
      apply hprk
      refine ⟨?_, h1.symm, h2.symm⟩
      rw [← h1, ← h2]; exact hrk
    · rintro ⟨h1, h2⟩
      exact hto ⟨h1.symm, h2.symm⟩

/-- A legal move keeps the link between the castling flags and the home
squares. -/
theorem home_step {b : Board} (hinv : Inv b)
    (h : (b.castleWK = true → sq b.squares 0 4 = W_KING ∧ sq b.squares 0 7 = W_ROOK)
      ∧ (b.castleWQ = true → sq b.squares 0 4 = W_KING ∧ sq b.squares 0 0 = W_ROOK)
      ∧ (b.castleBK = true → sq b.squares 7 4 = B_KING ∧ sq b.squares 7 7 = B_ROOK)
      ∧ (b.castleBQ = true → sq b.squares 7 4 = B_KING ∧ sq b.squares 7 0 = B_ROOK))
    {m : Move} (hm : m ∈ allLegal b) :
    ((afterMove b m).castleWK = true →
        sq (afterMove b m).squares 0 4 = W_KING ∧ sq (afterMove b m).squares 0 7 = W_ROOK)
      ∧ ((afterMove b m).castleWQ = true →
        sq (afterMove b m).squares 0 4 = W_KING ∧ sq (afterMove b m).squares 0 0 = W_ROOK)
      ∧ ((afterMove b m).castleBK = true →
        sq (afterMove b m).squares 7 4 = B_KING ∧ sq (afterMove b m).squares 7 7 = B_ROOK)
      ∧ ((afterMove b m).castleBQ = true →
        sq (afterMove b m).squares 7 4 = B_KING ∧ sq (afterMove b m).squares 7 0 = B_ROOK) := by
  obtain ⟨i, j, hside, hleg⟩ := mem_allLegal.1 hm
  obtain ⟨hps, -⟩ := mem_legal.1 hleg
  have hb : inBounds (i.val : Int) (j.val : Int) = true := inBounds_cast i j
  rw [← sq_cast b.squares i j] at hside
  obtain ⟨hfr, hfc, -⟩ := pseudo_inBounds hb hps
  obtain ⟨f1, f2, f3, f4⟩ := afterMove_flags b m
  obtain ⟨g1, g2, g3, g4⟩ := h
  rw [afterMove_squares]
  refine ⟨?_, ?_, ?_, ?_⟩
  · intro hflag
    rw [f1] at hflag
    obtain ⟨e1, e2, e3, e4⟩ := (flag_after_iff b.castleWK (sq b.squares m.fromRow m.fromCol)
      W_KING W_ROOK m 0 7).1 hflag
    rw [hfr, hfc] at e2 e3
    exact home_pair_kept hinv hb hps hside W_KING W_ROOK 0 7 (Or.inl rfl) (Or.inl rfl)
      (g1 e1).1 (g1 e1).2 e2 e3 e4
  · intro hflag
    rw [f2] at hflag
    obtain ⟨e1, e2, e3, e4⟩ := (flag_after_iff b.castleWQ (sq b.squares m.fromRow m.fromCol)
      W_KING W_ROOK m 0 0).1 hflag
    rw [hfr, hfc] at e2 e3
    exact home_pair_kept hinv hb hps hside W_KING W_ROOK 0 0 (Or.inl rfl) (Or.inl rfl)
      (g2 e1).1 (g2 e1).2 e2 e3 e4
  · intro hflag
    rw [f3] at hflag
    obtain ⟨e1, e2, e3, e4⟩ := (flag_after_iff b.castleBK (sq b.squares m.fromRow m.fromCol)
      B_KING B_ROOK m 7 7).1 hflag
    rw [hfr, hfc] at e2 e3
    exact home_pair_kept hinv hb hps hside B_KING B_ROOK 7 7 (Or.inr rfl) (Or.inr rfl)
      (g3 e1).1 (g3 e1).2 e2 e3 e4
  · intro hflag
    rw [f4] at hflag
    obtain ⟨e1, e2, e3, e4⟩ := (flag_after_iff b.castleBQ (sq b.squares m.fromRow m.fromCol)
      B_KING B_ROOK m 7 0).1 hflag
    rw [hfr, hfc] at e2 e3
    exact home_pair_kept hinv hb hps hside B_KING B_ROOK 7 0 (Or.inr rfl) (Or.inr rfl)
      (g4 e1).1 (g4 e1).2 e2 e3 e4

/-- In every state of play a set castling flag has its king and rook on their
home squares. -/
theorem home_of_reachable {b : Board} (h : Reachable b) :
    (b.castleWK = true → sq b.squares 0 4 = W_KING ∧ sq b.squares 0 7 = W_ROOK)
      ∧ (b.castleWQ = true → sq b.squares 0 4 = W_KING ∧ sq b.squares 0 0 = W_ROOK)
      ∧ (b.castleBK = true → sq b.squares 7 4 = B_KING ∧ sq b.squares 7 7 = B_ROOK)
      ∧ (b.castleBQ = true → sq b.squares 7 4 = B_KING ∧ sq b.squares 7 0 = B_ROOK) := by
  induction h with
  | start => decide
  | @step b0 b2 ms m hreach hall hm hmake ih =>
    rw [getAllLegalMoves_eq] at hall
    cases hall
    obtain ⟨i, j, -, hleg⟩ := mem_allLegal.1 hm
    obtain ⟨hps, -⟩ := mem_legal.1 hleg
    obtain ⟨hfr, hfc, hbt⟩ := pseudo_inBounds (inBounds_cast i j) hps
    have hbf : inBounds m.fromRow m.fromCol = true := by
      rw [hfr, hfc]; exact inBounds_cast i j
    rw [makeMove_eq _ _ hbf hbt] at hmake
    cases hmake
    exact home_step (inv_of_reachable hreach) ih hm

/-- The state after the first move `(1,4) -> (3,4)` is a state of play. -/
theorem reachable_first_move : Reachable (afterMove reset ⟨1, 4, 3, 4⟩) :=
  @Reachable.step reset _ (allLegal reset) ⟨1, 4, 3, 4⟩ Reachable.start
    (getAllLegalMoves_eq reset) (by decide!) (makeMove_eq reset _ (by decide) (by decide))

/-- C22: in every state reachable from the start state by `makeMove` of moves
taken from `getAllLegalMoves`, a set castling flag implies that its pieces are
at home: `castleWK` that `(0,4)` holds the white king and `(0,7)` a white
rook, `castleWQ` that `(0,4)` holds the white king and `(0,0)` a white rook,
`castleBK` that `(7,4)` holds the black king and `(7,7)` a black rook,
`castleBQ` that `(7,4)` holds the black king and `(7,0)` a black rook. -/
theorem castling_flag_implies_home (b : Board) (h : Reachable b) :
    (b.castleWK = true →
        rd b.squares 0 4 = some W_KING ∧ rd b.squares 0 7 = some W_ROOK)
      ∧ (b.castleWQ = true →
        rd b.squares 0 4 = some W_KING ∧ rd b.squares 0 0 = some W_ROOK)
      ∧ (b.castleBK = true →
        rd b.squares 7 4 = some B_KING ∧ rd b.squares 7 7 = some B_ROOK)
      ∧ (b.castleBQ = true →
        rd b.squares 7 4 = some B_KING ∧ rd b.squares 7 0 = some B_ROOK) := by
  obtain ⟨h1, h2, h3, h4⟩ := home_of_reachable h
  have e : ∀ (r c : Int) (p : Piece), inBounds r c = true → sq b.squares r c = p →
      rd b.squares r c = some p := by
    intro r c p hb hp
    rw [rd_eq hb, hp]
  refine ⟨fun hf => ⟨e 0 4 _ (by decide) (h1 hf).1, e 0 7 _ (by decide) (h1 hf).2⟩,
    fun hf => ⟨e 0 4 _ (by decide) (h2 hf).1, e 0 0 _ (by decide) (h2 hf).2⟩,
    fun hf => ⟨e 7 4 _ (by decide) (h3 hf).1, e 7 7 _ (by decide) (h3 hf).2⟩,
    fun hf => ⟨e 7 4 _ (by decide) (h4 hf).1, e 7 0 _ (by decide) (h4 hf).2⟩⟩

theorem castling_flag_implies_home_witness :
    Reachable (afterMove reset ⟨1, 4, 3, 4⟩)
      ∧ (afterMove reset ⟨1, 4, 3, 4⟩).castleWK = true
      ∧ rd (afterMove reset ⟨1, 4, 3, 4⟩).squares 0 4 = some W_KING
      ∧ rd (afterMove reset ⟨1, 4, 3, 4⟩).squares 0 7 = some W_ROOK :=
  have hflag : (afterMove reset ⟨1, 4, 3, 4⟩).castleWK = true :=
    (afterMove_flags reset ⟨1, 4, 3, 4⟩).1.trans (by decide)
  ⟨reachable_first_move, hflag,
    (castling_flag_implies_home _ reachable_first_move).1 hflag⟩

/-! ## The en-passant target in states of play -/

/-- Rows of a generated pawn move: one row forward, or two rows forward from
the home row on the same column over an empty square. -/
theorem pseudo_pawn_rows {b : Board} {r c : Int} {m : Move} (hm : m ∈ pseudo b r c) :
    (sq b.squares r c = W_PAWN →
        m.toRow = r + 1 ∨ (m.toRow = r + 2 ∧ r = 1 ∧ m.toCol = c ∧ sq b.squares 2 c = EMPTY))
      ∧ (sq b.squares r c = B_PAWN →
        m.toRow = r - 1 ∨ (m.toRow = r - 2 ∧ r = 6 ∧ m.toCol = c ∧ sq b.squares 5 c = EMPTY)) := by
  constructor
  · intro hp
    simp only [pseudo, hp] at hm
    rcases mem_pawnMoves.1 hm with ⟨-, -, rfl⟩ | ⟨-, h1, h, -, rfl⟩ | ⟨dc, -, -, -, rfl⟩
    · exact Or.inl rfl
    · right
      subst h
      exact ⟨rfl, rfl, rfl, h1⟩
    · exact Or.inl rfl
  · intro hp
    simp only [pseudo, hp] at hm
    rcases mem_pawnMoves.1 hm with ⟨-, -, rfl⟩ | ⟨-, h1, h, -, rfl⟩ | ⟨dc, -, -, -, rfl⟩
    · exact Or.inl rfl
    · right
      subst h
      exact ⟨rfl, rfl, rfl, h1⟩
    · exact Or.inl rfl

/-- The grid after a pawn move that changes row and column onto an empty
square of a row other than the first and the last. -/
theorem sq_applyGrid_enPassant {g : Grid} {m : Move} {p : Piece}
    (hf : inBounds m.fromRow m.fromCol = true) (ht : inBounds m.toRow m.toCol = true)
    (hsq : sq g m.fromRow m.fromCol = p) (hpawn : p = W_PAWN ∨ p = B_PAWN)
    (hcol : m.fromCol ≠ m.toCol) (h0 : m.toRow ≠ 0) (h7 : m.toRow ≠ 7)
    (he : sq g m.toRow m.toCol = EMPTY) (i j : Int) :
    sq (applyGrid g m) i j =
      (if i = m.fromRow ∧ j = m.fromCol then EMPTY
       else if i = m.toRow ∧ j = m.toCol then p
       else if i = m.fromRow ∧ j = m.toCol then EMPTY
       else sq g i j) := by
  have hnk : ¬ (p = W_KING ∨ p = B_KING) := by rcases hpawn with rfl | rfl <;> decide
  rw [sq_applyGrid hf ht, hsq]
  simp only [hnk, false_and, and_false, if_false, hpawn, hcol, he, ne_eq, not_false_eq_true,
    and_self, true_and, h0, h7]

/-- The state after a legal move: if the en-passant target file is set, the
pawn that has just advanced two rows stands on it, with the square behind it
empty, and the other side is to move. -/
theorem enPassant_after_legal {b : Board} {m : Move} (hm : m ∈ allLegal b) {X : Int}
    (hX : (afterMove b m).enPassantCol = X) (hset : X ≠ -1) :
    (0 ≤ X ∧ X < 8)
      ∧ (((afterMove b m).sideToMove = BLACK ∧ sq (afterMove b m).squares 3 X = W_PAWN
            ∧ sq (afterMove b m).squares 2 X = EMPTY)
        ∨ ((afterMove b m).sideToMove = WHITE ∧ sq (afterMove b m).squares 4 X = B_PAWN
            ∧ sq (afterMove b m).squares 5 X = EMPTY)) := by
  obtain ⟨i, j, hside, hleg⟩ := mem_allLegal.1 hm
  obtain ⟨hps, -⟩ := mem_legal.1 hleg
  have hb : inBounds (i.val : Int) (j.val : Int) = true := inBounds_cast i j
  rw [← sq_cast b.squares i j] at hside
  obtain ⟨hfr, hfc, hbt⟩ := pseudo_inBounds hb hps
  have hbf : inBounds m.fromRow m.fromCol = true := by rw [hfr, hfc]; exact hb
  have hcb := ((inBounds_iff _ _).1 hb).2
  have hne := pseudo_moves hps
  have hrows := pseudo_pawn_rows hps
  have hto := @applyGrid_to b.squares m hbf hbt (by rw [hfr, hfc]; exact hne)
  have hkeep := @applyGrid_untouched b.squares m hbf hbt
  rw [afterMove_ep, hfr, hfc] at hX
  rw [afterMove_side, afterMove_squares]
  rw [hfr, hfc] at hto hkeep
  by_cases h1 : sq b.squares (i.val : Int) (j.val : Int) = B_PAWN ∧ (i.val : Int) - m.toRow = 2
  · rw [if_pos h1] at hX
    rw [← hX]
    obtain ⟨hp, hd⟩ := h1
    have hnk : ¬ (sq b.squares (i.val : Int) (j.val : Int) = W_KING
        ∨ sq b.squares (i.val : Int) (j.val : Int) = B_KING) := by
      rw [hp]; decide
    rcases hrows.2 hp with h | ⟨-, h6, hc, h5⟩
    · omega
    · have h4 : m.toRow = 4 := by omega
      refine ⟨hcb, Or.inr ⟨?_, ?_, ?_⟩⟩
      · rw [← hside, hp]; rfl
      · rw [h4, hc, hp] at hto
        rw [hto]
        rfl
      · rw [hkeep 5 _ (by omega) (by omega) (fun hk => absurd hk hnk)
          (fun _ hcol => absurd hc.symm hcol)]
        exact h5
  · rw [if_neg h1] at hX
    by_cases h2 : sq b.squares (i.val : Int) (j.val : Int) = W_PAWN ∧ m.toRow - (i.val : Int) = 2
    · rw [if_pos h2] at hX
      rw [← hX]
      obtain ⟨hp, hd⟩ := h2
      have hnk : ¬ (sq b.squares (i.val : Int) (j.val : Int) = W_KING
          ∨ sq b.squares (i.val : Int) (j.val : Int) = B_KING) := by
        rw [hp]; decide
      rcases hrows.1 hp with h | ⟨-, h6, hc, h5⟩
      · omega
      · have h4 : m.toRow = 3 := by omega
        refine ⟨hcb, Or.inl ⟨?_, ?_, ?_⟩⟩
        · rw [← hside, hp]; rfl
        · rw [h4, hc, hp] at hto
          rw [hto]
          rfl
        · rw [hkeep 2 _ (by omega) (by omega) (fun hk => absurd hk hnk)
            (fun _ hcol => absurd hc.symm hcol)]
          exact h5
    · rw [if_neg h2] at hX
      exact absurd hX.symm hset

/-- In every state of play a set en-passant target file names the pawn that
has just advanced two rows, with the square behind it empty. -/
theorem enPassant_of_reachable {b : Board} (h : Reachable b) {X : Int}
    (hX : b.enPassantCol = X) (hset : X ≠ -1) :
    (0 ≤ X ∧ X < 8)
      ∧ ((b.sideToMove = BLACK ∧ sq b.squares 3 X = W_PAWN ∧ sq b.squares 2 X = EMPTY)
        ∨ (b.sideToMove = WHITE ∧ sq b.squares 4 X = B_PAWN ∧ sq b.squares 5 X = EMPTY)) := by
  cases h with
  | start => exact absurd hX.symm hset
  | @step b0 _ ms m hreach hall hm hmake =>
    rw [getAllLegalMoves_eq] at hall
    cases hall
    obtain ⟨i, j, -, hleg⟩ := mem_allLegal.1 hm
    obtain ⟨hps, -⟩ := mem_legal.1 hleg
    obtain ⟨hfr, hfc, hbt⟩ := pseudo_inBounds (inBounds_cast i j) hps
    have hbf : inBounds m.fromRow m.fromCol = true := by
      rw [hfr, hfc]; exact inBounds_cast i j
    rw [makeMove_eq _ _ hbf hbt] at hmake
    cases hmake
    exact enPassant_after_legal hm hX hset

/-- In a state of play, a generated move of a pawn of the side to move that
changes column onto an empty square takes the enemy pawn beside it: the
square `(fromRow, toCol)` holds an enemy pawn, the move changes row, and it
changes exactly the source, the destination and that square. -/
theorem enPassant_takes_pawn {b : Board} (h : Reachable b) {r c : Int} {m : Move} {p : Piece}
    (hb : inBounds r c = true) (hsq : sq b.squares r c = p) (hpawn : p = W_PAWN ∨ p = B_PAWN)
    (hside : pieceColor p = b.sideToMove) (hm : m ∈ pseudo b r c) (hcol : m.fromCol ≠ m.toCol)
    (he : sq b.squares m.toRow m.toCol = EMPTY) :
    sq b.squares m.fromRow m.toCol = (if p = W_PAWN then B_PAWN else W_PAWN)
      ∧ m.toRow ≠ m.fromRow
      ∧ ∀ i j : Int, sq (applyGrid b.squares m) i j =
          (if i = m.fromRow ∧ j = m.fromCol then EMPTY
           else if i = m.toRow ∧ j = m.toCol then p
           else if i = m.fromRow ∧ j = m.toCol then EMPTY
           else sq b.squares i j) := by
  obtain ⟨hfr, hfc, hbt⟩ := pseudo_inBounds hb hm
  have hbf : inBounds m.fromRow m.fromCol = true := by rw [hfr, hfc]; exact hb
  have hct := ((inBounds_iff _ _).1 hbt).2
  have hinv := inv_of_reachable h
  have hrows := pseudo_pawn_rows hm
  have hsq2 : sq b.squares m.fromRow m.fromCol = p := by rw [hfr, hfc]; exact hsq
  rw [hsq] at hrows
  have hep := pseudo_enPassant hm (by rw [hsq]; exact hpawn) (by rw [← hfc]; exact hcol) he
  rw [hsq] at hep
  obtain ⟨hepc, hcase⟩ := hep
  rcases hcase with ⟨hp, h4⟩ | ⟨hp, h3⟩
  · have hrow : m.toRow = 5 := by
      rcases hrows.1 hp with h5 | ⟨-, h1, -, -⟩ <;> omega
    have hs : b.sideToMove = WHITE := by rw [← hside, hp]; rfl
    have hin : inBounds 4 b.enPassantCol = true := by
      rw [← hepc]; exact inBounds_of (by omega) hct
    have hpawn2 := hinv.epWhite hs hin
    refine ⟨?_, by omega, ?_⟩
    · rw [hfr, h4, hepc, hpawn2, if_pos hp]
    · exact sq_applyGrid_enPassant hbf hbt hsq2 hpawn hcol (by omega) (by omega) he
  · have hrow : m.toRow = 2 := by
      rcases hrows.2 hp with h5 | ⟨-, h1, -, -⟩ <;> omega
    have hs : b.sideToMove = BLACK := by rw [← hside, hp]; rfl
    have hin : inBounds 3 b.enPassantCol = true := by
      rw [← hepc]; exact inBounds_of (by omega) hct
    have hpawn2 := hinv.epBlack hs hin
    refine ⟨?_, by omega, ?_⟩
    · rw [hfr, h3, hepc, hpawn2, hp]
      rfl
    · exact sq_applyGrid_enPassant hbf hbt hsq2 hpawn hcol (by omega) (by omega) he

/-- C23: in every state reachable from the start state by `makeMove` of moves
taken from `getAllLegalMoves`, if the en-passant target file is set to `X`
(a value other than `-1`), then `X` is a column of the grid and the pawn that
has just advanced two rows is still there: either black is to move, `(3,X)`
holds a white pawn and `(2,X)` is empty, or white is to move, `(4,X)` holds a
black pawn and `(5,X)` is empty.  Consequently every en-passant move generated
for a pawn of the side to move (a pawn move that changes column onto an empty
square) is applied by `applyMoveRaw` so that the square `(fromRow, toCol)`,
which held an enemy pawn, becomes empty, the source becomes empty, the
destination holds the moving pawn, and every other square reads as before. -/
theorem enPassant_target_names_pawn (b : Board) (h : Reachable b) :
    (∀ X : Int, b.enPassantCol = X → X ≠ -1 →
        (0 ≤ X ∧ X < 8)
          ∧ ((b.sideToMove = BLACK ∧ rd b.squares 3 X = some W_PAWN
                ∧ rd b.squares 2 X = some EMPTY)
            ∨ (b.sideToMove = WHITE ∧ rd b.squares 4 X = some B_PAWN
                ∧ rd b.squares 5 X = some EMPTY)))
      ∧ ∀ (r c : Int) (p : Piece) (ps : List Move) (m : Move),
          rd b.squares r c = some p → (p = W_PAWN ∨ p = B_PAWN) →
          pieceColor p = b.sideToMove → generatePieceMoves b r c [] = some ps → m ∈ ps →
          m.fromCol ≠ m.toCol → rd b.squares m.toRow m.toCol = some EMPTY →
          ∃ b2 : Board, applyMoveRaw b m = some b2
            ∧ rd b.squares m.fromRow m.toCol = some (if p = W_PAWN then B_PAWN else W_PAWN)
            ∧ rd b2.squares m.fromRow m.toCol = some EMPTY
            ∧ rd b2.squares m.fromRow m.fromCol = some EMPTY
            ∧ rd b2.squares m.toRow m.toCol = some p
            ∧ ∀ i j : Int, ¬ (i = m.fromRow ∧ j = m.toCol) →
                ¬ (i = m.fromRow ∧ j = m.fromCol) → ¬ (i = m.toRow ∧ j = m.toCol) →
                rd b2.squares i j = rd b.squares i j := by
  constructor
  · intro X hX hset
    obtain ⟨hr, hcase⟩ := enPassant_of_reachable h hX hset
    have e : ∀ (r : Int) (p : Piece), (0 ≤ r ∧ r < 8) → sq b.squares r X = p →
        rd b.squares r X = some p := by
      intro r p hrow hp
      rw [rd_eq (inBounds_of hrow hr), hp]
    refine ⟨hr, ?_⟩
    rcases hcase with ⟨hs, h1, h2⟩ | ⟨hs, h1, h2⟩
    · exact Or.inl ⟨hs, e 3 _ (by omega) h1, e 2 _ (by omega) h2⟩
    · exact Or.inr ⟨hs, e 4 _ (by omega) h1, e 5 _ (by omega) h2⟩
  · intro r c p ps m hp hpawn hside hgen hm hcol hempty
    obtain ⟨hb, hsq⟩ := rd_some hp
    obtain ⟨-, he⟩ := rd_some hempty
    rw [generatePieceMoves_eq b r c [] hb, List.nil_append] at hgen
    cases hgen
    obtain ⟨hfr, hfc, hbt⟩ := pseudo_inBounds hb hm
    have hbf : inBounds m.fromRow m.fromCol = true := by rw [hfr, hfc]; exact hb
    have hf2 := (inBounds_iff _ _).1 hbf
    have ht2 := (inBounds_iff _ _).1 hbt
    have b1 : inBounds m.fromRow m.toCol = true := inBounds_of hf2.1 ht2.2
    obtain ⟨htaken, hrw, key⟩ := enPassant_takes_pawn h hb hsq hpawn hside hm hcol he
    have hrow : ¬ (m.fromRow = m.toRow) := fun hx => hrw hx.symm
    have hc : ¬ (m.toCol = m.fromCol) := fun hx => hcol hx.symm
    refine ⟨_, applyMoveRaw_eq b m hbf hbt, ?_, ?_, ?_, ?_, ?_⟩
    · rw [rd_eq b1, htaken]
    · rw [rd_eq b1, key]
      simp [hrow, hc]
    · rw [rd_eq hbf, key]
      simp
    · rw [rd_eq hbt, key]
      simp [hrow, hc]
    · intro i j h1 h2 h3
      apply rd_congr
      rw [key, if_neg h2, if_neg h3, if_neg h1]

/-- The scenario `enPassantPlay` is a state of play. -/
theorem reachable_enPassantPlay : Reachable enPassantPlay :=
  have h2 : Reachable (afterMove (afterMove reset ⟨1, 4, 3, 4⟩) ⟨6, 0, 5, 0⟩) :=
    @Reachable.step _ _ (allLegal (afterMove reset ⟨1, 4, 3, 4⟩)) ⟨6, 0, 5, 0⟩
      reachable_first_move (getAllLegalMoves_eq _) (by decide!)
      (makeMove_eq _ _ (by decide) (by decide))
  have h3 : Reachable
      (afterMove (afterMove (afterMove reset ⟨1, 4, 3, 4⟩) ⟨6, 0, 5, 0⟩) ⟨3, 4, 4, 4⟩) :=
    @Reachable.step _ _ (allLegal (afterMove (afterMove reset ⟨1, 4, 3, 4⟩) ⟨6, 0, 5, 0⟩))
      ⟨3, 4, 4, 4⟩ h2 (getAllLegalMoves_eq _) (by decide!)
      (makeMove_eq _ _ (by decide) (by decide))
  @Reachable.step _ _
    (allLegal (afterMove (afterMove (afterMove reset ⟨1, 4, 3, 4⟩) ⟨6, 0, 5, 0⟩) ⟨3, 4, 4, 4⟩))
    ⟨6, 3, 4, 3⟩ h3 (getAllLegalMoves_eq _) (by decide!)
    (makeMove_eq _ _ (by decide) (by decide))

theorem enPassant_target_names_pawn_witness :
    Reachable enPassantPlay ∧ enPassantPlay.enPassantCol = 3
      ∧ enPassantPlay.sideToMove = WHITE
      ∧ rd enPassantPlay.squares 4 3 = some B_PAWN ∧ rd enPassantPlay.squares 5 3 = some EMPTY
      ∧ rd enPassantPlay.squares 4 4 = some W_PAWN
      ∧ generatePieceMoves enPassantPlay 4 4 [] = some (pseudo enPassantPlay 4 4)
      ∧ (⟨4, 4, 5, 3⟩ : Move) ∈ pseudo enPassantPlay 4 4
      ∧ ∃ b2 : Board, applyMoveRaw enPassantPlay ⟨4, 4, 5, 3⟩ = some b2
          ∧ rd b2.squares 4 3 = some EMPTY ∧ rd b2.squares 4 4 = some EMPTY
          ∧ rd b2.squares 5 3 = some W_PAWN := by
  have hep : enPassantPlay.enPassantCol = 3 := by decide!
  have hs : enPassantPlay.sideToMove = WHITE := by decide!
  have hp : rd enPassantPlay.squares 4 4 = some W_PAWN := by decide!
  have hgen : generatePieceMoves enPassantPlay 4 4 [] = some (pseudo enPassantPlay 4 4) := by
    rw [generatePieceMoves_eq enPassantPlay 4 4 [] (by decide), List.nil_append]
  have hm : (⟨4, 4, 5, 3⟩ : Move) ∈ pseudo enPassantPlay 4 4 := by decide!
  obtain ⟨h1, h2⟩ := enPassant_target_names_pawn enPassantPlay reachable_enPassantPlay
  obtain ⟨-, hcase⟩ := h1 3 hep (by decide)
  obtain ⟨b2, e1, -, e3, e4, e5, -⟩ := h2 4 4 W_PAWN _ ⟨4, 4, 5, 3⟩ hp (Or.inl rfl)
    (by rw [hs]; rfl) hgen hm (by decide) (by decide!)
  rcases hcase with ⟨hb, -, -⟩ | ⟨-, c1, c2⟩
  · rw [hs] at hb; cases hb
  · exact ⟨reachable_enPassantPlay, hep, hs, c1, c2, hp, hgen, hm, b2, e1, e3, e4, e5⟩

end ChessHeatMap
